import Mathlib

/-!
# uclcmd: the path / command-chain interpreter

A shallow embedding of `uclcmd.c`.  The document tree and the handful of
libucl entry points the program calls are modelled first; `replace_sep`,
`output_key`, `output_chunk`, `process_get_command`, `get_mode`, `get_parent`,
`get_object`, `set_mode`, `merge_mode` and `main` follow the C source statement
by statement.

Conventions of the embedding

* `stdout` is a `String` that only grows; `stderr`, and with it the `debug`
  traces, is not modelled.  The one line `debug` sends to `stdout` (line 1037)
  is.
* A `char *` that may be `NULL` is an `Option String`; the remaining command
  chain (`char *remaining_commands`, cut by `strsep` at every `|`) is the list
  of its tokens, `[]` standing for `NULL`.
* The buffer behind `char *nodepath` is rewritten in place by `replace_sep`;
  every function that can reach `replace_sep` returns the new contents.
* `printf("%s", NULL)` prints `(null)`, as the C libraries the tool runs on do.
* `exit` and a `NULL` dereference stop the run; they are recorded in `Halt`.
* A pointer into the document (`dst_obj`, `sub_obj`) is the list of child
  positions from the root to the node; a change made through the pointer is a
  change of the document at that place.  Nodes are owned by one parent, so
  nothing else sees the change.
* The functions of libucl that turn text into nodes are parameters (`Lib`).
* The command line reaches `main` as the list of its options, each as
  `getopt_long` meets it, and the list of the operands that follow them; what
  standard input and the files hold is a parameter (`Env`).
-/

namespace Uclcmd

/-! ## Document model -/

/-- The node kinds of libucl (`ucl_type_t`). -/
inductive ucl_type where
  | UCL_OBJECT
  | UCL_ARRAY
  | UCL_INT
  | UCL_FLOAT
  | UCL_STRING
  | UCL_BOOLEAN
  | UCL_TIME
  | UCL_USERDATA
  | UCL_NULL
  deriving DecidableEq, Repr

/-- Modelled from the spec: the payload of a Node of the Document Model (the
`value` union of libucl's `ucl_object_t`, declared in `ucl.h`, which is not part
of the repository).  An object holds its members in insertion order, each member
carrying its own key; an array holds its elements in storage order.  A float and
a time keep the text `printf("%f")` gives for them. -/
inductive ucl_value (α : Type) where
  | ov (members : List α)
  | av (elems : List α)
  | iv (i : Int)
  | dv (printed : String)
  | sv (s : String)
  | bv (b : Bool)
  | tv (printed : String)
  | ud
  | null

/-- Modelled from the spec: a Node of the Document Model (libucl's
`ucl_object_t`): the key it is stored under (`NULL` when it has none), its
value, and the `next` pointer that chains the further values held under the same
key (an implicit array). -/
inductive ucl_object_t where
  | mk (key : Option String) (value : ucl_value ucl_object_t) (next : Option ucl_object_t)

/-- Field `obj->key`, as returned by `ucl_object_key`. -/
def ucl_object_t.key : ucl_object_t → Option String
  | .mk k _ _ => k

/-- Field `obj->value`. -/
def ucl_object_t.value : ucl_object_t → ucl_value ucl_object_t
  | .mk _ v _ => v

/-- Field `obj->next`. -/
def ucl_object_t.next : ucl_object_t → Option ucl_object_t
  | .mk _ _ n => n

/-- Field `obj->type`: the tag of the value. -/
def ucl_object_t.type (o : ucl_object_t) : ucl_type :=
  match o.value with
  | .ov _ => .UCL_OBJECT
  | .av _ => .UCL_ARRAY
  | .iv _ => .UCL_INT
  | .dv _ => .UCL_FLOAT
  | .sv _ => .UCL_STRING
  | .bv _ => .UCL_BOOLEAN
  | .tv _ => .UCL_TIME
  | .ud => .UCL_USERDATA
  | .null => .UCL_NULL

/-- The nodes reached from `o` by following `next`: the values chained behind
`o` under the same key. -/
def ucl_object_t.chain : ucl_object_t → List ucl_object_t
  | .mk _ _ none => []
  | .mk _ _ (some n) => n :: n.chain

/-- Modelled from the spec: the "element/child count" of a node, which the
Document Model keeps in the field `obj->len` (libucl, outside the repository):
the number of members of an object, the number of elements of an array, and `0`
for a node that has no children.  Being a `uint32_t` it is below `2 ^ 32`, as is
every count of a document that fits in memory. -/
def ucl_object_t.len (o : ucl_object_t) : Nat :=
  match o.value with
  | .ov members => members.length
  | .av elems => elems.length
  | _ => 0

/-- The text `printf("%s", s)` writes for a possibly `NULL` string. -/
def printf_s (s : Option String) : String :=
  s.getD "(null)"

/-- Modelled from the spec: the sequence of nodes that the loop
`while ((cur = ucl_iterate_object(obj, &it, expand_values)))` visits (libucl,
not part of the repository).  With `expand_values` an object yields its members
and an array its elements; every other node, and every node when
`expand_values` is false, is walked as a linear list: the node itself and then
the values chained behind it through `next`.  `ucl_obj_dump` of `uclcmd.c` uses
the two modes in exactly this way. -/
def ucl_iterate_object (obj : Option ucl_object_t) (expand_values : Bool) :
    List ucl_object_t :=
  match obj with
  | none => []
  | some o =>
    if expand_values then
      match o.value with
      | .ov members => members
      | .av elems => elems
      | _ => o :: o.chain
    else o :: o.chain

/-! ### Path lookup -/

/-- The C library predicate `isspace` in the C locale. -/
def isspace (c : Char) : Bool :=
  c = ' ' || c = '\t' || c = '\n' || c = '\x0b' || c = '\x0c' || c = '\r'

/-- The C library predicate `isdigit`. -/
def isdigit (c : Char) : Bool :=
  '0'.toNat ≤ c.toNat && c.toNat ≤ '9'.toNat

/-- The digits read by `strtoul`: the accumulated value and the unread rest. -/
def strtoul_digits : List Char → Nat → Nat × List Char
  | [], acc => (acc, [])
  | c :: cs, acc =>
    if isdigit c then strtoul_digits cs (acc * 10 + (c.toNat - '0'.toNat)) else (acc, c :: cs)

/-- The C library function `strtoul(s, &end, 10)` with a 64-bit `unsigned long`:
leading white space, an optional sign, then decimal digits.  The result is the
value and the text `end` points to; without a digit the value is `0` and `end`
is `s` itself. -/
def strtoul (s : List Char) : Nat × List Char :=
  let t := s.dropWhile isspace
  let neg := t.head? = some '-'
  let u := if t.head? = some '-' || t.head? = some '+' then t.tail else t
  match u with
  | [] => (0, s)
  | c :: _ =>
    if isdigit c then
      let r := strtoul_digits u 0
      if 2 ^ 64 ≤ r.1 then (2 ^ 64 - 1, r.2)
      else if neg then ((2 ^ 64 - r.1) % 2 ^ 64, r.2)
      else (r.1, r.2)
    else (0, s)

/-- Modelled from the spec: `ucl_array_find_index` of libucl: the element at
`index` of an array, `NULL` when out of range or when `top` is not an array. -/
def ucl_array_find_index (top : Option ucl_object_t) (index : Nat) : Option ucl_object_t :=
  match top with
  | none => none
  | some t =>
    match t.value with
    | .av elems => elems.get? index
    | _ => none

/-- Modelled from the spec: `ucl_object_find_key` of libucl: the member stored
under `key` in an object, `NULL` when there is none or when `top` is not an
object. -/
def ucl_object_find_key (top : Option ucl_object_t) (key : String) : Option ucl_object_t :=
  match top with
  | none => none
  | some t =>
    match t.value with
    | .ov members => members.find? (fun m => m.key = some key)
    | _ => none

/-- The segments of a dotted path: the maximal runs of characters other than
`.`; `cur` collects the run being read (reversed). -/
def path_segments_aux : List Char → List Char → List String
  | [], cur => if cur = [] then [] else [String.mk cur.reverse]
  | c :: cs, cur =>
    if c = '.' then
      (if cur = [] then path_segments_aux cs [] else String.mk cur.reverse :: path_segments_aux cs [])
    else path_segments_aux cs (c :: cur)

/-- The non-empty segments of a dotted path, left to right. -/
def path_segments (path : String) : List String :=
  path_segments_aux path.data []

/-- One step of `ucl_lookup_path`: in an array the segment must be read
entirely by `strtoul` and is the index (an `unsigned`); anywhere else it is
looked up as a key. -/
def ucl_lookup_step (top : ucl_object_t) (seg : String) : Option ucl_object_t :=
  match top.value with
  | .av _ =>
    let r := strtoul seg.data
    if r.2 ≠ [] then none else ucl_array_find_index (some top) (r.1 % 2 ^ 32)
  | _ => ucl_object_find_key (some top) seg

/-- The walk of `ucl_lookup_path` along the segments; `o` is the node found so
far. -/
def ucl_lookup_walk (o : Option ucl_object_t) (top : ucl_object_t) :
    List String → Option ucl_object_t
  | [] => o
  | seg :: rest =>
    match ucl_lookup_step top seg with
    | none => none
    | some n => ucl_lookup_walk (some n) n rest

/-- Modelled from the spec: `lookupPath(Node, dottedPath)` of the Document
Model (libucl's `ucl_lookup_path`, not part of the repository): leading dots and
empty segments are skipped, the segments are resolved left to right, and the
result is `NULL` when `top` is `NULL`, when a segment is not found, or when the
path has no segment at all. -/
def ucl_lookup_path (top : Option ucl_object_t) (path_in : String) : Option ucl_object_t :=
  match top with
  | none => none
  | some t => ucl_lookup_walk none t (path_segments path_in)

/-! ## Program state -/

/-- The values of `output_type`: `254` is the text mode of the tool, the others
are the emitters of libucl (`enum ucl_emitter`). -/
def OUTPUT_TEXT : Nat := 254

/-- Emitter `UCL_EMIT_JSON`. -/
def UCL_EMIT_JSON : Nat := 0

/-- Emitter `UCL_EMIT_JSON_COMPACT`. -/
def UCL_EMIT_JSON_COMPACT : Nat := 1

/-- Emitter `UCL_EMIT_CONFIG`. -/
def UCL_EMIT_CONFIG : Nat := 2

/-- Emitter `UCL_EMIT_YAML`. -/
def UCL_EMIT_YAML : Nat := 3

/-- The globals fixed once the command line is read: `show_keys`, `show_raw`,
`nonewline`, `output_type` and `sepchar` (a one-character string, `.` or `_`),
together with the serializer of the Document Model, `ucl_object_emit`, which is
outside the repository and enters as a parameter, and `debug`. -/
structure Flags where
  show_keys : Bool
  show_raw : Bool
  nonewline : Bool
  output_type : Nat
  sepchar : Char
  ucl_object_emit : ucl_object_t → Nat → String
  debug : Int

/-- The initial values of the globals: no keys, quoted strings, one record per
line, text output, `.` as separator, no debugging. -/
def default_flags (emit : ucl_object_t → Nat → String) : Flags :=
  ⟨false, false, false, OUTPUT_TEXT, '.', emit, 0⟩

/-- The observable state that changes while a query runs: the data written to
`stdout` so far and the global `firstline`. -/
structure Proc where
  out : String
  firstline : Bool

/-- The state at program start: nothing written, `firstline = true`. -/
def Proc.init : Proc :=
  ⟨"", true⟩

/-- The ways a run stops before returning: `exit(code)`, a `NULL` dereference,
and a loop that never ends. -/
inductive Halt where
  | exit (code : Nat)
  | segv
  | hang
  deriving DecidableEq, Repr

/-- Statement `printf("%s", s)`. -/
def Proc.printf (p : Proc) (s : String) : Proc :=
  ⟨p.out ++ s, p.firstline⟩

/-- Statement `if (firstline == false) printf(" ")`. -/
def Proc.sep (p : Proc) : Proc :=
  if p.firstline = false then p.printf " " else p

/-- Statement `if (nonewline) firstline = false; else printf("\n")`. -/
def Proc.endrec (F : Flags) (p : Proc) : Proc :=
  if F.nonewline then ⟨p.out, false⟩ else p.printf "\n"

/-! ## Output formatter -/

/-- Function `replace_sep(key, oldsep, newsep)`: nothing when both
separators are the same, otherwise every `oldsep[0]` of `key` becomes
`newsep[0]`.  The result is the new contents of the buffer `key`. -/
def replace_sep (key : String) (oldsep newsep : Char) : String :=
  if oldsep = newsep then key
  else String.mk (key.data.map (fun c => if c = oldsep then newsep else c))

/-- The text `output_key` writes for a present node between the separator and
the end of the record: `label` (already `nodepath ++ key ++ "="`, or empty
without `show_keys`) and the scalar or the placeholder.  A node of kind
`UCL_NULL` takes the `default` branch of the `switch`, which writes nothing
but, with `debug >= 3`, the line `error=Object of unknown type`. -/
def output_key_text (F : Flags) (label : String) (o : ucl_object_t) : String :=
  match o.value with
  | .ov _ => label ++ "\x7bobject\x7d"
  | .av _ => label ++ "[array]"
  | .iv i => label ++ toString i
  | .dv printed => label ++ printed
  | .sv s => if F.show_raw then label ++ s else label ++ "\"" ++ s ++ "\""
  | .bv b => label ++ (if b then "true" else "false")
  | .tv printed => label ++ printed
  | .ud => label ++ "\x7buserdata\x7d"
  | .null => if 3 ≤ F.debug then "error=Object of unknown type\n" else ""

/-- Function `output_key(obj, nodepath, inkey)`.  Returns the new state and the
new contents of the buffer `nodepath`. -/
def output_key (F : Flags) (obj : Option ucl_object_t) (nodepath inkey : String)
    (p : Proc) : Proc × String :=
  let nodepath := replace_sep nodepath '.' F.sepchar
  let key := replace_sep inkey '.' F.sepchar
  let label := if F.show_keys then nodepath ++ key ++ "=" else ""
  let p := p.sep
  match obj with
  | none => ((p.printf (label ++ "null")).endrec F, nodepath)
  | some o => ((p.printf (output_key_text F label o)).endrec F, nodepath)

/-- Function `output_chunk(obj, nodepath, inkey)`.  In text mode it is
`output_key`; with an emitter the serialized node is written, with no separator
in front of it; `ucl_object_emit` of an absent node is `NULL`.  Any other
`output_type` only writes to `stderr`. -/
def output_chunk (F : Flags) (obj : Option ucl_object_t) (nodepath inkey : String)
    (p : Proc) : Proc × String :=
  let nodepath := replace_sep nodepath '.' F.sepchar
  let key := replace_sep inkey '.' F.sepchar
  let label := if F.show_keys then nodepath ++ key ++ "=" else ""
  let result := printf_s (obj.map (fun o => F.ucl_object_emit o F.output_type))
  if F.output_type = OUTPUT_TEXT then output_key F obj nodepath key p
  else if F.output_type = UCL_EMIT_CONFIG then ((p.printf (label ++ result)).endrec F, nodepath)
  else if F.output_type = UCL_EMIT_JSON then ((p.printf (label ++ result)).endrec F, nodepath)
  else if F.output_type = UCL_EMIT_JSON_COMPACT then ((p.printf (label ++ result)).endrec F, nodepath)
  else if F.output_type = UCL_EMIT_YAML then ((p.printf (label ++ result)).endrec F, nodepath)
  else (p, nodepath)

/-! ## Command-chain interpreter -/

/-- The lowercase tag `type` prints for a node. -/
def type_tag : ucl_type → String
  | .UCL_OBJECT => "object"
  | .UCL_ARRAY => "array"
  | .UCL_INT => "int"
  | .UCL_FLOAT => "float"
  | .UCL_STRING => "string"
  | .UCL_BOOLEAN => "boolean"
  | .UCL_TIME => "time"
  | .UCL_USERDATA => "userdata"
  | .UCL_NULL => "null"

/-- What a call of `process_get_command` leaves behind: the state, the contents
of the caller's `nodepath` buffer, the returned `recurse_level`, and whether the
run stopped inside the call. -/
structure Ret where
  proc : Proc
  nodepath : String
  recurse_level : Int
  halt : Option Halt

/-- The suffix `each` and `values` give a child: `sepchar` and the running
index for a child of an array, `sepchar` and the key of the child otherwise. -/
def child_suffix (F : Flags) (obj cur : ucl_object_t) (arrindex : Nat) : String :=
  if obj.type = .UCL_ARRAY then String.singleton F.sepchar ++ toString arrindex
  else String.singleton F.sepchar ++ printf_s cur.key

/-- The index after a child was handled: `arrindex++` under an array. -/
def next_arrindex (obj : ucl_object_t) (arrindex : Nat) : Nat :=
  if obj.type = .UCL_ARRAY then arrindex + 1 else arrindex

/-- Loop of `keys`: one record per visited node, its key. -/
def keys_loop (F : Flags) (curs : List ucl_object_t) (p : Proc) : Proc :=
  curs.foldl (fun q cur => (q.sep.printf (printf_s cur.key)).endrec F) p

/-- Loop of `values`: `output_key` on every visited node with the synthesized
suffix as key.  The state is the output state, the `nodepath` buffer and
`arrindex`. -/
def values_loop (F : Flags) (obj : ucl_object_t) (curs : List ucl_object_t)
    (s : Proc × String × Nat) : Proc × String × Nat :=
  curs.foldl (fun s cur =>
    let r := output_key F (some cur) s.2.1 (child_suffix F obj cur s.2.2) s.1
    (r.1, r.2, next_arrindex obj s.2.2)) s

/-- Loop `while ((cur = ucl_iterate_object(obj, &it, false))) output_chunk(cur,
nodepath, key)`, used by `iterate` and by the inner loop of `each`. -/
def chunk_loop (F : Flags) (key : String) (curs : List ucl_object_t)
    (s : Proc × String) : Proc × String :=
  curs.foldl (fun s cur => output_chunk F (some cur) s.2 key s.1) s

/-- Loop of `each` as the last command: every child is written with its suffix
as key; a child that has values chained behind it and is not an array is
expanded over that chain. -/
def each_loop (F : Flags) (obj : ucl_object_t) (curs : List ucl_object_t)
    (s : Proc × String × Nat) : Proc × String × Nat :=
  curs.foldl (fun s cur =>
    let newkey := child_suffix F obj cur s.2.2
    let r :=
      if cur.next.isSome ∧ cur.type ≠ .UCL_ARRAY then
        chunk_loop F newkey (ucl_iterate_object (some cur) false) (s.1, s.2.1)
      else output_chunk F (some cur) s.2.1 newkey s.1
    (r.1, r.2, next_arrindex obj s.2.2)) s

/-- Loop `while ((cur = ...)) recurse_level = process_get_command(cur, nodepath,
next_command, rcmds, recurse + 1)`: `step` is that call.  Every call works on
the same `nodepath` buffer and overwrites `recurse_level`; the loop is left when
a call stops the run. -/
def recurse_loop (step : Option ucl_object_t → String → Proc → Ret) :
    List ucl_object_t → Ret → Ret
  | [], r => r
  | cur :: rest, r =>
    match r.halt with
    | some _ => r
    | none => recurse_loop step rest (step (some cur) r.nodepath r.proc)

/-- Loop of `each` with a following command: every child gets a fresh buffer
`newnodepath`; a child that has values chained behind it and is not an array is
expanded over that chain, every other child is passed to the next command
itself. -/
def each_recurse_loop (F : Flags) (step : Option ucl_object_t → String → Proc → Ret)
    (obj : ucl_object_t) : List ucl_object_t → Ret × Nat → Ret × Nat
  | [], s => s
  | cur :: rest, s =>
    match s.1.halt with
    | some _ => s
    | none =>
      let newnodepath := s.1.nodepath ++ child_suffix F obj cur s.2
      let r :=
        if cur.next.isSome ∧ cur.type ≠ .UCL_ARRAY then
          recurse_loop step (ucl_iterate_object (some cur) false)
            ⟨s.1.proc, newnodepath, s.1.recurse_level, none⟩
        else step (some cur) newnodepath s.1.proc
      each_recurse_loop F step obj rest
        (⟨r.proc, s.1.nodepath, r.recurse_level, r.halt⟩, next_arrindex obj s.2)

/-- Function `process_get_command(obj, nodepath, command_str,
remaining_commands, recurse)`.  The chain `remaining_commands` is the list of
its tokens, `[]` for `NULL`; `strsep` on a copy of it gives `next_command` (its
first token, never `NULL`) and `rcmds` (the tokens after it). -/
def process_get_command (F : Flags) (obj : Option ucl_object_t) (nodepath command_str : String)
    (remaining_commands : List String) (recurse : Int) (p : Proc) : Ret :=
  if command_str = "length" then
    match obj with
    | none =>
      ⟨((p.sep.printf (if F.show_keys then "(null)=" else "")).printf "0").endrec F,
        nodepath, recurse, none⟩
    | some o =>
      ⟨((p.sep.printf (if F.show_keys then nodepath else "")).printf (toString o.len)).endrec F,
        nodepath, recurse, none⟩
  else if command_str = "type" then
    match obj with
    | none =>
      ⟨((p.sep.printf (if F.show_keys then "(null)=" else "")).printf "null").endrec F,
        nodepath, recurse, none⟩
    | some o =>
      ⟨((p.sep.printf (if F.show_keys then nodepath ++ "=" else "")).printf
          (type_tag o.type)).endrec F,
        nodepath, recurse, none⟩
  else if command_str = "keys" then
    ⟨keys_loop F (ucl_iterate_object obj true) p, nodepath, recurse, none⟩
  else if command_str = "values" then
    match obj with
    | none => ⟨p, nodepath, recurse, none⟩
    | some o =>
      let s := values_loop F o (ucl_iterate_object obj true) (p, nodepath, 0)
      ⟨s.1, s.2.1, recurse, none⟩
  else if command_str = "iterate" then
    match remaining_commands with
    | [] =>
      let s := chunk_loop F "" (ucl_iterate_object obj false) (p, nodepath)
      ⟨s.1, s.2, recurse, none⟩
    | next_command :: rcmds =>
      recurse_loop
        (fun cur np q => process_get_command F cur np next_command rcmds (recurse + 1) q)
        (ucl_iterate_object obj false) ⟨p, nodepath, recurse, none⟩
  else if command_str = "each" then
    match remaining_commands with
    | [] =>
      match obj with
      | none => ⟨p, nodepath, recurse, none⟩
      | some o =>
        let s := each_loop F o (ucl_iterate_object obj true) (p, nodepath, 0)
        ⟨s.1, s.2.1, recurse, none⟩
    | next_command :: rcmds =>
      match obj with
      | none => ⟨p, nodepath, recurse, none⟩
      | some o =>
        (each_recurse_loop F
          (fun cur np q => process_get_command F cur np next_command rcmds (recurse + 1) q)
          o (ucl_iterate_object obj true) (⟨p, nodepath, recurse, none⟩, 0)).1
  else if command_str.data.head? = some '.' then
    let cur := ucl_lookup_path obj command_str
    match remaining_commands with
    | [] =>
      let r := output_key F cur nodepath command_str p
      ⟨r.1, r.2, recurse, none⟩
    | next_command :: rcmds =>
      match obj with
      | none => ⟨p, nodepath, recurse, some .segv⟩
      | some o =>
        let newnodepath :=
          if o.type = .UCL_ARRAY then nodepath ++ String.singleton F.sepchar ++ toString (0 : Nat)
          else nodepath ++ String.singleton F.sepchar ++ printf_s (cur.bind (fun c => c.key))
        let r := process_get_command F cur newnodepath next_command rcmds (recurse + 1) p
        ⟨r.proc, nodepath, r.recurse_level, r.halt⟩
  else ⟨p, nodepath, recurse, some (.exit 1)⟩

/-! ## Get mode -/

/-- The tokens successive calls of `strsep(&cmd, "|")` cut from a string, up to
the call that returns `NULL`; `cur` collects the token being read (reversed). -/
def strsep_tokens_aux : List Char → List Char → List String
  | [], cur => [String.mk cur.reverse]
  | c :: cs, cur =>
    if c = '|' then String.mk cur.reverse :: strsep_tokens_aux cs []
    else strsep_tokens_aux cs (c :: cur)

/-- The tokens of a request: the text before the first `|` and the commands
after it. -/
def strsep_tokens (s : String) : List String :=
  strsep_tokens_aux s.data []

/-- The variables of the `while` loop of `get_mode`. -/
structure LoopState where
  proc : Proc
  nodepath : String
  command_count : Int
  halt : Option Halt

/-- The loop `while (command_str != NULL)` of `get_mode`.  The list is
`command_str` followed by the tokens still in `cmd`; one turn calls
`process_get_command` and then calls `strsep` `done` times.  `fuel` bounds the
number of turns; a loop that would go on is reported as `Halt.hang`. -/
def get_mode_loop (F : Flags) (found_object : Option ucl_object_t) :
    Nat → List String → LoopState → LoopState
  | _, [], s => s
  | 0, _ :: _, s => ⟨s.proc, s.nodepath, s.command_count, some .hang⟩
  | fuel + 1, command_str :: cmd, s =>
    let r := process_get_command F found_object s.nodepath command_str cmd 1 s.proc
    match r.halt with
    | some h => ⟨r.proc, r.nodepath, s.command_count, some h⟩
    | none =>
      get_mode_loop F found_object fuel ((command_str :: cmd).drop r.recurse_level.toNat)
        ⟨r.proc, r.nodepath, s.command_count + r.recurse_level, none⟩

/-- Function `get_mode` after the two `strsep` calls: `node_name` is the
requested path and `chain` the command tokens that follow it. -/
def get_mode_chain (F : Flags) (root_obj : Option ucl_object_t) (node_name : String)
    (chain : List String) (p : Proc) : Proc × Option Halt :=
  let target : Option ucl_object_t × String :=
    if node_name.length = 0 then (root_obj, "")
    else if node_name = "." then (root_obj, "")
    else
      let name := if node_name.data.head? = some '.' then String.mk node_name.data.tail
        else node_name
      (ucl_lookup_path root_obj name, name)
  let s := get_mode_loop F target.1 chain.length chain ⟨p, target.2, 0, none⟩
  match s.halt with
  | some h => (s.proc, some h)
  | none =>
    if s.command_count = 0 then ((output_chunk F target.1 s.nodepath "" s.proc).1, none)
    else (s.proc, none)

/-- Function `get_mode(requested_node)`. -/
def get_mode (F : Flags) (root_obj : Option ucl_object_t) (requested_node : String)
    (p : Proc) : Proc × Option Halt :=
  match strsep_tokens requested_node with
  | [] => (p, none)
  | node_name :: chain => get_mode_chain F root_obj node_name chain p

/-! ## Sample documents -/

/-- A scalar node holding the integer `i`, stored under no key. -/
def int_node (i : Int) : ucl_object_t :=
  .mk none (.iv i) none

/-- A string node holding `s`, stored under no key. -/
def str_node (s : String) : ucl_object_t :=
  .mk none (.sv s) none

/-- An array node with the given elements, stored under `key`. -/
def arr_node (key : Option String) (elems : List ucl_object_t) : ucl_object_t :=
  .mk key (.av elems) none

/-- An object node with the given members, stored under `key`. -/
def obj_node (key : Option String) (members : List ucl_object_t) : ucl_object_t :=
  .mk key (.ov members) none

/-- The node `o` stored under `key`. -/
def keyed (key : String) : ucl_object_t → ucl_object_t
  | .mk _ v n => .mk (some key) v n

/-- A serializer standing in for `ucl_object_emit` where its text does not
matter. -/
def no_emit : ucl_object_t → Nat → String :=
  fun _ _ => ""

/-- The document `{"a": {"b": [1, 2, 3]}}`. -/
def doc_ab : ucl_object_t :=
  obj_node none [obj_node (some "a") [arr_node (some "b") [int_node 1, int_node 2, int_node 3]]]

/-- The globals after `--keys`: `show_keys` set, everything else as at start. -/
def keys_flags : Flags :=
  ⟨true, false, false, OUTPUT_TEXT, '.', no_emit, 0⟩

/-- A node holding `1` with the value `2` chained behind it. -/
def chained_pair : ucl_object_t :=
  .mk none (.iv 1) (some (int_node 2))

/-! ## Notions of the specification -/

/-- The children of a node in the sense of the data model: the members of an
object, the elements of an array, none for any other node. -/
def children (o : ucl_object_t) : List ucl_object_t :=
  match o.value with
  | .ov members => members
  | .av elems => elems
  | _ => []

/-- The element or child count of a node, `0` for an absent node. -/
def child_count (obj : Option ucl_object_t) : Nat :=
  match obj with
  | none => 0
  | some o => (children o).length

/-- The commands that never hand the chain on: `length`, `type`, `keys` and
`values`. -/
def is_terminal (t : String) : Prop :=
  t = "length" ∨ t = "type" ∨ t = "keys" ∨ t = "values"

/-- The reading the specification gives of `each` with a following command:
the next command, `step`, is applied once per child, to the `n`-th element of
an array at `nodepath ++ sep ++ n` and to a member of an object at
`nodepath ++ sep ++ key`; the run is over as soon as a call stops it. -/
def each_per_child (F : Flags) (step : Option ucl_object_t → String → Proc → Ret)
    (is_array : Bool) (nodepath : String) : List ucl_object_t → Nat → Ret → Ret
  | [], _, r => r
  | cur :: rest, n, r =>
    match r.halt with
    | some _ => r
    | none =>
      let c := step (some cur)
        (nodepath ++ String.singleton F.sepchar ++ (if is_array then toString n else printf_s cur.key))
        r.proc
      each_per_child F step is_array nodepath rest (n + 1) ⟨c.proc, nodepath, c.recurse_level, c.halt⟩

/-- The reading the specification gives of `iterate|R`: the whole chain `R` is
run to completion against every child in turn, at the unchanged display
path. -/
def run_chain_per_child (F : Flags) (cs : List ucl_object_t) (chain : List String)
    (nodepath : String) (p : Proc) : Proc :=
  cs.foldl (fun q c => (get_mode_loop F (some c) chain.length chain ⟨q, nodepath, 0, none⟩).proc) p

/-! ## Pointers into the document -/

/-- The position of the first member stored under `key`. -/
def key_index : List ucl_object_t → String → Option Nat
  | [], _ => none
  | m :: ms, key => if m.key = some key then some 0 else (key_index ms key).map (fun i => i + 1)

/-- The position `index` when it is inside a list of `n` elements. -/
def array_index (n index : Nat) : Option Nat :=
  if index < n then some index else none

/-- The list `l` with `f` applied to its element at position `i`. -/
def modify_nth (f : ucl_object_t → ucl_object_t) : List ucl_object_t → Nat → List ucl_object_t
  | [], _ => []
  | x :: xs, 0 => f x :: xs
  | x :: xs, i + 1 => x :: modify_nth f xs i

/-- The node `top` with the list `cs` in the place of its members or
elements; a node that is not a container is left as it is. -/
def set_children (top : ucl_object_t) (cs : List ucl_object_t) : ucl_object_t :=
  match top with
  | .mk k (.ov _) n => .mk k (.ov cs) n
  | .mk k (.av _) n => .mk k (.av cs) n
  | o => o

/-- A pointer into the document is the list of child positions that lead from
the root to the node; `node_at` is the node it points to. -/
def node_at : ucl_object_t → List Nat → Option ucl_object_t
  | top, [] => some top
  | top, i :: rest =>
    match (children top).get? i with
    | none => none
    | some c => node_at c rest

/-- The document after the node a pointer leads to was changed in place by
`f`. -/
def modify_at (f : ucl_object_t → ucl_object_t) : ucl_object_t → List Nat → ucl_object_t
  | top, [] => f top
  | top, i :: rest => set_children top (modify_nth (fun c => modify_at f c rest) (children top) i)

/-- The child position one step of `ucl_lookup_path` selects (see
`ucl_lookup_step`). -/
def ucl_lookup_step_loc (top : ucl_object_t) (seg : String) : Option Nat :=
  match top.value with
  | .av elems =>
    let r := strtoul seg.data
    if r.2 ≠ [] then none else array_index elems.length (r.1 % 2 ^ 32)
  | .ov members => key_index members seg
  | _ => none

/-- The pointer `ucl_lookup_path` returns, relative to `top`, along the
segments of the path (see `ucl_lookup_walk`). -/
def ucl_lookup_loc : ucl_object_t → List String → Option (List Nat)
  | _, [] => some []
  | top, seg :: rest =>
    match ucl_lookup_step_loc top seg with
    | none => none
    | some i =>
      match (children top).get? i with
      | none => none
      | some c => (ucl_lookup_loc c rest).map (fun l => i :: l)

/-- The pointer `ucl_lookup_path(top, path_in)` returns for a present `top`:
`NULL` when a segment is not found or the path has no segment. -/
def ucl_lookup_path_loc (top : ucl_object_t) (path_in : String) : Option (List Nat) :=
  match path_segments path_in with
  | [] => none
  | seg :: rest => ucl_lookup_loc top (seg :: rest)

/-! ## Path resolver -/

/-- The C library function `strrchr(s, c)`: the text before the last `c` of `s`
and the text from that `c` on, or `NULL` when `c` does not occur. -/
def strrchr (c : Char) : List Char → Option (List Char × List Char)
  | [] => none
  | x :: xs =>
    match strrchr c xs with
    | some r => some (x :: r.1, r.2)
    | none => if x = c then some ([], x :: xs) else none

/-- The child of `parent_obj` that `get_object` selects with the final segment
`dst_frag`: in an array the element at `strtoul(dst_frag, NULL, 10)`, the end
pointer not being looked at, converted to `unsigned`; anywhere else the member
stored under `dst_frag`. -/
def select_child (parent_obj : ucl_object_t) (dst_frag : List Char) : Option Nat :=
  match parent_obj.value with
  | .av elems => array_index elems.length ((strtoul dst_frag).1 % 2 ^ 32)
  | .ov members => key_index members (String.mk dst_frag)
  | _ => none

/-- Function `get_parent(selected_node)` on a present root, as a pointer: the
root when the path has no `.`, otherwise what `ucl_lookup_path` finds for the
text before the last `.`.  The test `strlen(dst_frag) == 0` of the source is
kept; `dst_frag` starts at the `.` found. -/
def get_parent_loc (root_obj : ucl_object_t) (selected_node : String) : Option (List Nat) :=
  match strrchr '.' selected_node.data with
  | none => some []
  | some ( dst_prefix, dst_frag) =>
    if dst_frag.length = 0 then some []
    else ucl_lookup_path_loc root_obj (String.mk dst_prefix)

/-- Function `get_parent(selected_node)`: the node returned, `NULL` included. -/
def get_parent (root_obj : Option ucl_object_t) (selected_node : String) : Option ucl_object_t :=
  match root_obj with
  | none => none
  | some r => (get_parent_loc r selected_node).bind (node_at r)

/-- Function `get_object(selected_node)` on a present root, as a pointer: the
child of the parent that the final segment selects, the parent itself when
nothing is selected, `NULL` when the parent is not found. -/
def get_object_loc (root_obj : ucl_object_t) (selected_node : String) : Option (List Nat) :=
  match strrchr '.' selected_node.data with
  | none =>
    match select_child root_obj selected_node.data with
    | some i => some [i]
    | none => some []
  | some ( dst_prefix, dst_frag) =>
    if dst_frag.length = 0 then
      match select_child root_obj selected_node.data with
      | some i => some [i]
      | none => some []
    else
      match ucl_lookup_path_loc root_obj (String.mk dst_prefix) with
      | none => none
      | some l =>
        match node_at root_obj l with
        | none => none
        | some parent_obj =>
          match select_child parent_obj dst_frag.tail with
          | some i => some (l ++ [i])
          | none => some l

/-- Function `get_object(selected_node)`: the node returned, `NULL` included.
With a `NULL` root a path without `.` reads `parent_obj->type` through the
`NULL` pointer. -/
def get_object (root_obj : Option ucl_object_t) (selected_node : String) :
    Except Halt (Option ucl_object_t) :=
  match root_obj with
  | none =>
    match strrchr '.' selected_node.data with
    | none => .error .segv
    | some _ => .ok none
  | some r => .ok ((get_object_loc r selected_node).bind (node_at r))

/-! ## Mutation engine -/

/-- The value of a character as a digit of `strtoul`: `0`-`9`, then the
letters for `10`-`35`. -/
def digit_value (c : Char) : Option Nat :=
  if isdigit c then some (c.toNat - '0'.toNat)
  else if 'a'.toNat ≤ c.toNat ∧ c.toNat ≤ 'z'.toNat then some (c.toNat - 'a'.toNat + 10)
  else if 'A'.toNat ≤ c.toNat ∧ c.toNat ≤ 'Z'.toNat then some (c.toNat - 'A'.toNat + 10)
  else none

/-- The digits read by `strtoul` in the given base: the accumulated value and
the unread rest. -/
def strtoul_digits_base (base : Nat) : List Char → Nat → Nat × List Char
  | [], acc => (acc, [])
  | c :: cs, acc =>
    match digit_value c with
    | none => (acc, c :: cs)
    | some d => if d < base then strtoul_digits_base base cs (acc * base + d) else (acc, c :: cs)

/-- The C library function `strtoul(s, &end, 0)` with a 64-bit `unsigned long`:
leading white space, an optional sign, then a number that is hexadecimal after
`0x`, octal after `0` and decimal otherwise. -/
def strtoul0 (s : List Char) : Nat × List Char :=
  let t := s.dropWhile isspace
  let neg := t.head? = some '-'
  let u := if t.head? = some '-' || t.head? = some '+' then t.tail else t
  let hex : Bool :=
    match u with
    | '0' :: x :: h :: _ => (x = 'x' || x = 'X') && (digit_value h).any (fun d => d < 16)
    | _ => false
  let base : Nat := if hex then 16 else if u.head? = some '0' then 8 else 10
  let v := if hex then u.drop 2 else u
  match v with
  | [] => (0, s)
  | c :: _ =>
    if (digit_value c).any (fun d => d < base) then
      let r := strtoul_digits_base base v 0
      if 2 ^ 64 ≤ r.1 then (2 ^ 64 - 1, r.2)
      else if neg then ((2 ^ 64 - r.1) % 2 ^ 64, r.2)
      else (r.1, r.2)
    else (0, s)

/-- The entry points of libucl that build nodes from text and the content of
standard input.  They are outside the repository and enter as parameters:
`ucl_object_fromstring_common(data, 0, UCL_STRING_PARSE)`, the scalar read from
a text; `ucl_parser_add_string` followed by `ucl_parser_get_object`, the
document a text parses to, `NULL` standing for a text the parser rejects;
`parse_input(setparser, stdin)`, which may end the run with `exit(2)` or
`exit(3)`; and the result of `ucl_object_insert_key_merged` on an object that
already holds the key. -/
structure Lib where
  ucl_object_fromstring_common : String → ucl_object_t
  ucl_parser_add_string : String → Option ucl_object_t
  parse_input_stdin : Except Halt ucl_object_t
  merge_existing : ucl_object_t → ucl_object_t → String → ucl_object_t

/-- Function `parse_string(parser, data)`: the parsed document, or the scalar
`ucl_object_fromstring_common` gives when the parser rejects the text.  The
error of the parser is cleared in that case, so the `exit(3)` that follows is
not reached. -/
def parse_string (L : Lib) (data : String) : ucl_object_t :=
  match L.ucl_parser_add_string data with
  | none => L.ucl_object_fromstring_common data
  | some obj => obj

/-- The node `o` with `key` as its key (`elt->key = key`). -/
def set_key (key : Option String) : ucl_object_t → ucl_object_t
  | .mk _ v n => .mk key v n

/-- The list `l` with `x` in the place of its element at position `i`. -/
def set_nth (x : ucl_object_t) (l : List ucl_object_t) (i : Nat) : List ucl_object_t :=
  modify_nth (fun _ => x) l i

/-- Modelled from the spec: `ucl_object_replace_key(top, elt, key, 0, true)` of
libucl, "the existing key is overwritten (created if absent)".  Returns the new
`top` and the result.  A `NULL` key and a `top` that is neither an object nor of
kind null are refused; a key that is present has its value replaced in place
and the result is `true`; a key that is absent is inserted at the end and the
result is `false`. -/
def ucl_object_replace_key (top elt : ucl_object_t) (key : Option String) :
    ucl_object_t × Bool :=
  match key with
  | none => (top, false)
  | some k =>
    match top with
    | .mk tk (.ov members) tn =>
      match key_index members k with
      | some i => (.mk tk (.ov (set_nth (set_key (some k) elt) members i)) tn, true)
      | none => (.mk tk (.ov (members ++ [set_key (some k) elt])) tn, false)
    | .mk tk .null tn => (.mk tk (.ov [set_key (some k) elt]) tn, false)
    | o => (o, false)

/-- Modelled from the spec: `ucl_object_insert_key_merged(top, elt, key, 0,
true)` of libucl.  A `NULL` key and a `top` that is neither an object nor of kind
null are refused, with `top` unchanged; a key that is absent is inserted at the
end; for a key that is present the library merges `elt` into the value held,
which is the parameter `merge_existing`. -/
def ucl_object_insert_key_merged (L : Lib) (top elt : ucl_object_t) (key : Option String) :
    ucl_object_t × Bool :=
  match key with
  | none => (top, false)
  | some k =>
    match top with
    | .mk tk (.ov members) tn =>
      match key_index members k with
      | some _ => (L.merge_existing top elt k, true)
      | none => (.mk tk (.ov (members ++ [set_key (some k) elt])) tn, true)
    | .mk tk .null tn => (.mk tk (.ov [set_key (some k) elt]) tn, true)
    | o => (o, false)

/-- Modelled from the spec: `ucl_array_replace_index(top, elt, index)` of
libucl: the new `top` and the element that was at `index`, `NULL` when `top` is
not an array or `index` is out of range, in which case nothing changes. -/
def ucl_array_replace_index (top elt : ucl_object_t) (index : Nat) :
    ucl_object_t × Option ucl_object_t :=
  match top with
  | .mk tk (.av elems) tn =>
    match elems.get? index with
    | some old => (.mk tk (.av (set_nth elt elems index)) tn, some old)
    | none => (top, none)
  | o => (o, none)

/-- Modelled from the spec: `ucl_array_append(top, elt)` of libucl: `elt`
becomes the last element of the array `top`. -/
def ucl_array_append (top elt : ucl_object_t) : ucl_object_t × Bool :=
  match top with
  | .mk tk (.av elems) tn => (.mk tk (.av (elems ++ [elt])) tn, true)
  | o => (o, false)

/-- Modelled from the spec: `ucl_array_merge(top, elt, false)` of libucl,
"Array + Array: concatenate elements (preserve order, target's elements
first)". -/
def ucl_array_merge (top elt : ucl_object_t) : ucl_object_t × Bool :=
  match top, elt.value with
  | .mk tk (.av elems) tn, .av more => (.mk tk (.av (elems ++ more)) tn, true)
  | o, _ => (o, false)

/-- One member of the new object put into the members of the target: it takes
the place of the member with the same key, or comes last. -/
def merge_member (members : List ucl_object_t) (m : ucl_object_t) : List ucl_object_t :=
  match m.key with
  | none => members ++ [m]
  | some k =>
    match key_index members k with
    | some i => set_nth m members i
    | none => members ++ [m]

/-- Modelled from the spec: `ucl_object_merge(top, elt, false)` of libucl,
"Object + Object: merge keys (new values override existing keys with the same
name, uncommon keys from both sides preserved)". -/
def ucl_object_merge (top elt : ucl_object_t) : ucl_object_t × Bool :=
  match top, elt.value with
  | .mk tk (.ov members) tn, .ov more => (.mk tk (.ov (more.foldl merge_member members)) tn, true)
  | o, _ => (o, false)

/-- What `set_mode` and `merge_mode` leave behind: the document, the output
state, the value returned (`success`), and whether the run stopped inside the
call. -/
structure ModeRet where
  root_obj : Option ucl_object_t
  proc : Proc
  success : Bool
  halt : Option Halt

/-- The statements of `set_mode` and `merge_mode` that fetch `set_obj`: from
standard input when `data` is `NULL` or `-`; otherwise from the text, read as a
scalar when the destination `sub_obj` is not a container and parsed as a
document when it is.  `sub_obj->type` is read through the pointer. -/
def read_set_obj (L : Lib) (sub_obj : Option ucl_object_t) (data : Option String) :
    Except Halt ucl_object_t :=
  match data with
  | none => L.parse_input_stdin
  | some d =>
    if d = "-" then L.parse_input_stdin
    else
      match sub_obj with
      | none => .error .segv
      | some s =>
        if s.type ≠ .UCL_OBJECT ∧ s.type ≠ .UCL_ARRAY then .ok (L.ucl_object_fromstring_common d)
        else .ok (parse_string L d)

/-- Function `set_mode(destination_node, data)`.  `dst_obj` and `sub_obj` point
into the document; what is done through them is done to the document. -/
def set_mode (L : Lib) (root_obj : Option ucl_object_t) (destination_node : String)
    (data : Option String) (p : Proc) : ModeRet :=
  match get_object root_obj destination_node with
  | .error h => ⟨root_obj, p, false, some h⟩
  | .ok sub_obj =>
    match read_set_obj L sub_obj data with
    | .error h => ⟨root_obj, p, false, some h⟩
    | .ok set_obj =>
      match root_obj with
      | none => ⟨root_obj, p, false, some .segv⟩
      | some r =>
        match get_parent_loc r destination_node with
        | none => ⟨root_obj, p, false, some .segv⟩
        | some ld =>
          match node_at r ld with
          | none => ⟨root_obj, p, false, some .segv⟩
          | some dst_obj =>
            if dst_obj.type = .UCL_ARRAY then
              match strrchr '.' destination_node.data with
              | none => ⟨root_obj, p, false, some .segv⟩
              | some (_, dst_frag) =>
                let index := (strtoul0 dst_frag.tail).1 % 2 ^ 32
                match (ucl_array_replace_index dst_obj set_obj index).2 with
                | none => ⟨root_obj, p, false, none⟩
                | some _ =>
                  ⟨some (modify_at (fun d => (ucl_array_replace_index d set_obj index).1) r ld),
                    p, true, none⟩
            else
              ⟨some (modify_at
                  (fun d => (ucl_object_replace_key d set_obj (sub_obj.bind (fun s => s.key))).1)
                  r ld),
                p, (ucl_object_replace_key dst_obj set_obj (sub_obj.bind (fun s => s.key))).2, none⟩

/-- Function `merge_mode(destination_node, data)`.  `dst_obj` and `sub_obj`
point into the document; what is done through them is done to the document.
The diagnostic `Not implemented yet` goes to `stdout`. -/
def merge_mode (L : Lib) (root_obj : Option ucl_object_t) (destination_node : String)
    (data : Option String) (p : Proc) : ModeRet :=
  match get_object root_obj destination_node with
  | .error h => ⟨root_obj, p, false, some h⟩
  | .ok sub_ptr =>
    match read_set_obj L sub_ptr data with
    | .error h => ⟨root_obj, p, false, some h⟩
    | .ok set_obj =>
      match root_obj with
      | none => ⟨root_obj, p, false, some .segv⟩
      | some r =>
        match get_object_loc r destination_node with
        | none => ⟨root_obj, p, false, some .segv⟩
        | some ls =>
          match node_at r ls with
          | none => ⟨root_obj, p, false, some .segv⟩
          | some sub_obj =>
            if sub_obj.type = .UCL_ARRAY ∧ set_obj.type = .UCL_ARRAY then
              ⟨some (modify_at (fun s => (ucl_array_merge s set_obj).1) r ls), p,
                (ucl_array_merge sub_obj set_obj).2, none⟩
            else if sub_obj.type = .UCL_OBJECT ∧ set_obj.type = .UCL_OBJECT then
              ⟨some (modify_at (fun s => (ucl_object_merge s set_obj).1) r ls), p,
                (ucl_object_merge sub_obj set_obj).2, none⟩
            else if sub_obj.type = .UCL_ARRAY then
              ⟨some (modify_at (fun s => (ucl_array_append s set_obj).1) r ls), p,
                (ucl_array_append sub_obj set_obj).2, none⟩
            else
              match get_parent_loc r destination_node with
              | none => ⟨root_obj, p, false, some .segv⟩
              | some ld =>
                match node_at r ld with
                | none => ⟨root_obj, p, false, some .segv⟩
                | some dst_obj =>
                  if sub_obj.type ≠ .UCL_OBJECT ∧ sub_obj.type ≠ .UCL_ARRAY ∧
                      set_obj.type ≠ .UCL_OBJECT ∧ set_obj.type ≠ .UCL_ARRAY then
                    ⟨some (modify_at
                        (fun d => (ucl_object_replace_key d
                          (.mk none (.av [sub_obj, set_obj]) none) sub_obj.key).1) r ld),
                      p,
                      (ucl_object_replace_key dst_obj
                        (.mk none (.av [sub_obj, set_obj]) none) sub_obj.key).2,
                      none⟩
                  else if dst_obj.type = .UCL_OBJECT ∧ set_obj.type ≠ .UCL_OBJECT ∧
                      set_obj.type ≠ .UCL_ARRAY then
                    ⟨root_obj, p.printf "Not implemented yet\n", false, none⟩
                  else
                    ⟨some (modify_at
                        (fun d => (ucl_object_insert_key_merged L d set_obj sub_obj.key).1) r ld),
                      p, (ucl_object_insert_key_merged L dst_obj set_obj sub_obj.key).2, none⟩

/-- A stand-in for the library on the sample texts: a text of decimal digits is
read as an integer, any other text as a string; the parser rejects every
text; standard input holds an empty object. -/
def sample_lib : Lib :=
  ⟨fun s => if s.data.all isdigit ∧ s.data ≠ [] then .mk none (.iv (strtoul s.data).1) none
      else .mk none (.sv s) none,
    fun _ => none, .ok (.mk none (.ov []) none), fun top _ _ => top⟩

/-! ## Further sample documents -/

/-- The globals after `--keys --shellvars`: `show_keys` set and `_` as
separator. -/
def shell_flags : Flags :=
  ⟨true, false, false, OUTPUT_TEXT, '_', no_emit, 0⟩

/-- The document `{"a": {"b": {"c": [1, 2]}}}`. -/
def doc_abc : ucl_object_t :=
  obj_node none [obj_node (some "a") [obj_node (some "b") [arr_node (some "c") [int_node 1, int_node 2]]]]

/-- The document `{"arr": [10, 20], "k": 1}`. -/
def doc_arr : ucl_object_t :=
  obj_node none [arr_node (some "arr") [int_node 10, int_node 20], keyed "k" (int_node 1)]

/-- The document `{"x": {"a": 1}}`. -/
def doc_x : ucl_object_t :=
  obj_node none [obj_node (some "x") [keyed "a" (int_node 1)]]

/-! ## Further notions of the specification -/

/-- The tokens `process_get_command` has a branch for: the six command names
and every token that begins with `.`. -/
def is_command (t : String) : Prop :=
  t = "length" ∨ t = "type" ∨ t = "keys" ∨ t = "values" ∨ t = "iterate" ∨ t = "each" ∨
    t.data.head? = some '.'

/-- The output of `q` is the output of `p` with something written after it:
nothing that was written has been taken back. -/
def Proc.extends (p q : Proc) : Prop :=
  ∃ s, q.out = p.out ++ s

/-- What every call of `process_get_command` with the tokens `toks` (the current
token and the remaining chain) ensures about its result: the output only grew;
if the run was ended by `exit`, the status is 1 and one of the tokens is not a
command; if the call returned, the level returned is at least the level
given. -/
def call_ok (p : Proc) (recurse : Int) (toks : List String) (proc : Proc) (level : Int)
    (halt : Option Halt) : Prop :=
  p.extends proc ∧
    (∀ c, halt = some (.exit c) → c = 1 ∧ ∃ u ∈ toks, ¬ is_command u) ∧
    (halt = none → recurse ≤ level)

/-- The display path `get_mode` starts from for the requested path
`node_name`: empty for the requests `` and `.`, otherwise the requested path
without its leading `.`, if it has one. -/
def requested_path (node_name : String) : String :=
  if node_name = "" ∨ node_name = "." then ""
  else if node_name.data.head? = some '.' then String.mk node_name.data.tail
  else node_name

/-- The node `get_mode` resolves for the requested path `node_name`: the root
for the requests `` and `.`, otherwise what `ucl_lookup_path` finds from the
root. -/
def requested_target (root_obj : Option ucl_object_t) (node_name : String) :
    Option ucl_object_t :=
  if node_name = "" ∨ node_name = "." then root_obj
  else ucl_lookup_path root_obj (requested_path node_name)

/-- The manual walk of the specification: look `k1` up in the node, then `k2`
in the result, and so on to the last key. -/
def walk_keys : ucl_object_t → List String → Option ucl_object_t
  | top, [] => some top
  | top, k :: ks =>
    match ucl_object_find_key (some top) k with
    | none => none
    | some c => walk_keys c ks

/-- The characters of the dotted path `k1.k2...kn`. -/
def dotted_chars : List String → List Char
  | [] => []
  | [k] => k.data
  | k :: k2 :: ks => k.data ++ '.' :: dotted_chars (k2 :: ks)

/-- The dotted path `k1.k2...kn` of the keys `k1 .. kn`. -/
def dotted (ks : List String) : String :=
  String.mk (dotted_chars ks)

/-- A segment of a dotted path: not empty and without `.`. -/
def is_segment (k : String) : Prop :=
  k.data ≠ [] ∧ '.' ∉ k.data

/-- The final segment `get_object` selects with: the variable `dst_frag` of the
source, which is the whole path when it has no `.` and the text after its last
`.` otherwise. -/
def final_segment (selected_node : String) : List Char :=
  match strrchr '.' selected_node.data with
  | none => selected_node.data
  | some (_, dst_frag) => if dst_frag.length = 0 then selected_node.data else dst_frag.tail

/-- The document `{"arr": [{"a": 1}]}`. -/
def doc_arr_obj : ucl_object_t :=
  obj_node none [arr_node (some "arr") [obj_node none [keyed "a" (int_node 1)]]]

/-! ## Main program -/

/-- Modelled from the spec: `ucl_object_delete_key(top, key)` of libucl, the
deletion behind the mode `--remove` of the CLI surface (the function is not part
of the repository).  The member stored under `key` is taken out of the object
`top` and the result is `true`; when `top` is `NULL` or not an object, or holds
no such key, nothing changes and the result is `false`.  Returns the new `top`
and the result. -/
def ucl_object_delete_key (top : Option ucl_object_t) (key : String) :
    Option ucl_object_t × Bool :=
  match top with
  | none => (none, false)
  | some (.mk tk (.ov members) tn) =>
    match key_index members key with
    | some i => (some (.mk tk (.ov (members.eraseIdx i)) tn), true)
    | none => (some (.mk tk (.ov members) tn), false)
  | some o => (some o, false)

/-- The globals that `main` writes while it reads the options: `show_keys`,
`show_raw`, `nonewline`, `mode`, `debug`, `output_type`, `sepchar` (its one
character), the local `filename`, and `root_obj`. -/
structure Globals where
  show_keys : Nat
  show_raw : Nat
  nonewline : Nat
  mode : Nat
  debug : Int
  output_type : Nat
  sepchar : Char
  filename : Option String
  root_obj : Option ucl_object_t

/-- The initial values of the globals (lines 45-53) and of `filename`. -/
def Globals.init : Globals :=
  ⟨0, 0, 0, 0, 0, OUTPUT_TEXT, '.', none, none⟩

/-- The flags the interpreter and the formatter read from the globals:
`show_keys == 1`, `show_raw == 1`, `if (nonewline)`, `output_type`, `sepchar`
and `debug`. -/
def Globals.flags (g : Globals) (emit : ucl_object_t → Nat → String) : Flags :=
  ⟨decide (g.show_keys = 1), decide (g.show_raw = 1), decide (g.nonewline ≠ 0), g.output_type,
    g.sepchar, emit, g.debug⟩

/-- The variables an entry of `longopts` can point to with its `flag`. -/
inductive flag_target where
  | output_type
  | mode
  | show_keys
  | nonewline
  | show_raw
  deriving DecidableEq, Repr

/-- Statement `*flag = val` of `getopt_long`. -/
def flag_target.assign (f : flag_target) (val : Nat) (g : Globals) : Globals :=
  match f with
  | .output_type => ⟨g.show_keys, g.show_raw, g.nonewline, g.mode, g.debug, val, g.sepchar,
      g.filename, g.root_obj⟩
  | .mode => ⟨g.show_keys, g.show_raw, g.nonewline, val, g.debug, g.output_type, g.sepchar,
      g.filename, g.root_obj⟩
  | .show_keys => ⟨val, g.show_raw, g.nonewline, g.mode, g.debug, g.output_type, g.sepchar,
      g.filename, g.root_obj⟩
  | .nonewline => ⟨g.show_keys, g.show_raw, val, g.mode, g.debug, g.output_type, g.sepchar,
      g.filename, g.root_obj⟩
  | .show_raw => ⟨g.show_keys, val, g.nonewline, g.mode, g.debug, g.output_type, g.sepchar,
      g.filename, g.root_obj⟩

/-- Value `no_argument` of `has_arg`. -/
def no_argument : Nat := 0

/-- Value `required_argument` of `has_arg`. -/
def required_argument : Nat := 1

/-- Value `optional_argument` of `has_arg`. -/
def optional_argument : Nat := 2

/-- An entry of the table `longopts` (`struct option`): `name`, `has_arg`,
`flag` (`NULL` or the variable to write) and `val`. -/
structure struct_option where
  name : String
  has_arg : Nat
  flag : Option flag_target
  val : Nat

/-- The table `longopts` of `main` (lines 93-113), without its closing entry. -/
def longopts : List struct_option :=
  [ ⟨"cjson", no_argument, some .output_type, UCL_EMIT_JSON_COMPACT⟩,
    ⟨"debug", optional_argument, none, 'd'.toNat⟩,
    ⟨"file", required_argument, none, 'f'.toNat⟩,
    ⟨"get", no_argument, some .mode, 0⟩,
    ⟨"json", no_argument, some .output_type, UCL_EMIT_JSON⟩,
    ⟨"keys", no_argument, some .show_keys, 1⟩,
    ⟨"merge", no_argument, some .mode, 2⟩,
    ⟨"mix", no_argument, some .mode, 3⟩,
    ⟨"nonewline", no_argument, some .nonewline, 1⟩,
    ⟨"noquote", no_argument, some .show_raw, 1⟩,
    ⟨"remove", no_argument, some .mode, 4⟩,
    ⟨"set", no_argument, some .mode, 1⟩,
    ⟨"shellvars", no_argument, none, 'v'.toNat⟩,
    ⟨"ucl", no_argument, some .output_type, UCL_EMIT_CONFIG⟩,
    ⟨"yaml", no_argument, some .output_type, UCL_EMIT_YAML⟩ ]

/-- One option as `getopt_long` meets it on the command line: a letter after
`-`, with the argument that follows it when the letter takes one, or a name
after `--`, with the text after `=` when there is one. -/
inductive Arg where
  | short (c : Char) (optarg : Option String)
  | long (name : String) (optarg : Option String)

/-- The entry of `longopts` a name given after `--` selects: the entry of that
name, or else the only entry the name is an abbreviation of. -/
def find_long (name : String) : Option struct_option :=
  match longopts.find? (fun o => o.name = name) with
  | some o => some o
  | none =>
    match longopts.filter (fun o => name.data.isPrefixOf o.name.data) with
    | [o] => some o
    | _ => none

/-- Modelled from the spec: one call of `getopt_long(argc, argv,
"cdf:gijkmnqrsuvy", longopts, NULL)` of the C library, the "command-line flag
parsing" the specification leaves outside.  The result is the value returned
(`ch`), `optarg`, and the globals after `*flag = val`.  A letter of the option
string is returned as it is, with its argument for `f`; a name of the table
returns its `val`, or writes `val` to `*flag` and returns `0`; everything else
(an unknown letter or name, a missing or an unexpected argument) returns `?`. -/
def getopt_long (a : Arg) (g : Globals) : Nat × Option String × Globals :=
  match a with
  | .short c optarg =>
    if c = 'f' then
      match optarg with
      | some s => ('f'.toNat, some s, g)
      | none => ('?'.toNat, none, g)
    else if c ∈ "cdgijkmnqrsuvy".data then (c.toNat, none, g)
    else ('?'.toNat, none, g)
  | .long name optarg =>
    match find_long name with
    | none => ('?'.toNat, none, g)
    | some o =>
      if (o.has_arg = no_argument ∧ optarg.isSome) ∨ (o.has_arg = required_argument ∧ optarg.isNone)
      then ('?'.toNat, none, g)
      else
        match o.flag with
        | none => (o.val, optarg, g)
        | some f => (0, none, f.assign o.val g)

/-- The C library function `strtol(s, NULL, 0)` with a 64-bit `long`, assigned
to an `int`: leading white space, an optional sign, then a number that is
hexadecimal after `0x`, octal after `0` and decimal otherwise, as in `strtoul0`;
the value is kept inside the range of `long` and then cut to 32 bits.  Without
a digit the value is `0`. -/
def strtol0_int (s : List Char) : Int :=
  let t := s.dropWhile isspace
  let neg := t.head? = some '-'
  let u := if t.head? = some '-' || t.head? = some '+' then t.tail else t
  let hex : Bool :=
    match u with
    | '0' :: x :: h :: _ => (x = 'x' || x = 'X') && (digit_value h).any (fun d => d < 16)
    | _ => false
  let base : Nat := if hex then 16 else if u.head? = some '0' then 8 else 10
  let v := if hex then u.drop 2 else u
  match v with
  | [] => 0
  | c :: _ =>
    if (digit_value c).any (fun d => d < base) then
      let magnitude : Nat := (strtoul_digits_base base v 0).1
      let n : Int :=
        if neg then - (min magnitude (2 ^ 63) : Nat) else (min magnitude (2 ^ 63 - 1) : Nat)
      (n + 2 ^ 31) % 2 ^ 32 - 2 ^ 31
    else 0

/-- What the run finds outside: the result of `parse_input(parser, stdin)` and
of `parse_file(parser, filename)`, each either the document read (`NULL` when
the parser has none) or the `exit(2)` or `exit(3)` of a parse error. -/
structure Env where
  parse_input_stdin : Except Halt (Option ucl_object_t)
  parse_file : String → Except Halt (Option ucl_object_t)

/-- The `switch (ch)` of the option loop of `main` (lines 116-178).  `usage()`
writes to `stderr` and ends the run with `exit(1)`. -/
def option_switch (E : Env) (ch : Nat) (optarg : Option String) (g : Globals) :
    Except Halt Globals :=
  if ch = 'c'.toNat then .ok (flag_target.output_type.assign UCL_EMIT_JSON_COMPACT g)
  else if ch = 'd'.toNat then
    match optarg with
    | some s => .ok ⟨g.show_keys, g.show_raw, g.nonewline, g.mode, strtol0_int s.data,
        g.output_type, g.sepchar, g.filename, g.root_obj⟩
    | none => .ok ⟨g.show_keys, g.show_raw, g.nonewline, g.mode, 1, g.output_type, g.sepchar,
        g.filename, g.root_obj⟩
  else if ch = 'f'.toNat then
    match optarg with
    | none => .error .segv
    | some s =>
      match (if s = "-" then E.parse_input_stdin else E.parse_file s) with
      | .error h => .error h
      | .ok obj => .ok ⟨g.show_keys, g.show_raw, g.nonewline, g.mode, g.debug, g.output_type,
          g.sepchar, some s, obj⟩
  else if ch = 'i'.toNat then .ok (flag_target.mode.assign 3 g)
  else if ch = 'j'.toNat then .ok (flag_target.output_type.assign UCL_EMIT_JSON g)
  else if ch = 'g'.toNat then .ok (flag_target.mode.assign 0 g)
  else if ch = 'k'.toNat then .ok (flag_target.show_keys.assign 1 g)
  else if ch = 'n'.toNat then .ok (flag_target.nonewline.assign 1 g)
  else if ch = 'm'.toNat then .ok (flag_target.mode.assign 2 g)
  else if ch = 'q'.toNat then .ok (flag_target.show_raw.assign 1 g)
  else if ch = 'r'.toNat then .ok (flag_target.mode.assign 3 g)
  else if ch = 's'.toNat then .ok (flag_target.mode.assign 1 g)
  else if ch = 'u'.toNat then .ok (flag_target.output_type.assign UCL_EMIT_CONFIG g)
  else if ch = 'v'.toNat then .ok ⟨g.show_keys, g.show_raw, g.nonewline, g.mode, g.debug,
      g.output_type, '_', g.filename, g.root_obj⟩
  else if ch = 'y'.toNat then .ok (flag_target.output_type.assign UCL_EMIT_YAML g)
  else if ch = 0 then .ok g
  else .error (.exit 1)

/-- The loop `while ((ch = getopt_long(...)) != -1) switch (ch)` of `main` over
the options of the command line. -/
def option_loop (E : Env) : List Arg → Globals → Except Halt Globals
  | [], g => .ok g
  | a :: rest, g =>
    match option_switch E (getopt_long a g).1 (getopt_long a g).2.1 (getopt_long a g).2.2 with
    | .error h => .error h
    | .ok g2 => option_loop E rest g2

/-- What a run of `main` leaves behind: the output state, the document, the
value of `ret`, and whether the run stopped before `return ret`. -/
structure MainRet where
  proc : Proc
  root_obj : Option ucl_object_t
  ret : Int
  halt : Option Halt

/-- The loop `for (k = 0; k < argc; k++) get_mode(argv[k])`. -/
def get_mode_args (F : Flags) (root_obj : Option ucl_object_t) :
    List String → Proc → Proc × Option Halt
  | [], p => (p, none)
  | a :: rest, p =>
    match (get_mode F root_obj a p).2 with
    | some h => ((get_mode F root_obj a p).1, some h)
    | none => get_mode_args F root_obj rest (get_mode F root_obj a p).1

/-- The end of `main`: `cleanup()`, the new line that closes the output of
`nonewline`, and `return ret`. -/
def main_return (g : Globals) (root_obj : Option ucl_object_t) (p : Proc) (ret : Int) : MainRet :=
  ⟨if g.nonewline ≠ 0 then p.printf "\n" else p, root_obj, ret, none⟩

/-- The statements `if (success) get_mode(dot); else ret = 1;` of the modes
`set` and `merge`, after the call `r` of `set_mode` or `merge_mode`. -/
def main_after_write (F : Flags) (g : Globals) (r : ModeRet) : MainRet :=
  match r.halt with
  | some h => ⟨r.proc, r.root_obj, 0, some h⟩
  | none =>
    if r.success then
      match (get_mode F r.root_obj "." r.proc).2 with
      | some h => ⟨(get_mode F r.root_obj "." r.proc).1, r.root_obj, 0, some h⟩
      | none => main_return g r.root_obj (get_mode F r.root_obj "." r.proc).1 0
    else main_return g r.root_obj r.proc 1

/-- The statements `if (filename == NULL) root_obj = parse_input(parser,
stdin);` that open every branch of the `switch (mode)`. -/
def read_root (E : Env) (g : Globals) : Except Halt (Option ucl_object_t) :=
  if g.filename = none then E.parse_input_stdin else .ok g.root_obj

/-- The branch `case 0` of `main`, get mode. -/
def main_get (emit : ucl_object_t → Nat → String) (g : Globals) (root_obj : Option ucl_object_t)
    (argv : List String) : MainRet :=
  match (get_mode_args (g.flags emit) root_obj argv Proc.init).2 with
  | some h => ⟨(get_mode_args (g.flags emit) root_obj argv Proc.init).1, root_obj, 0, some h⟩
  | none => main_return g root_obj (get_mode_args (g.flags emit) root_obj argv Proc.init).1 0

/-- The branch `case 4` of `main`, remove: `ret = ucl_object_delete_key(root_obj,
argv[0]); get_mode(dot);`. -/
def main_remove (emit : ucl_object_t → Nat → String) (g : Globals)
    (root_obj : Option ucl_object_t) (argv0 : String) : MainRet :=
  match (get_mode (g.flags emit) (ucl_object_delete_key root_obj argv0).1 "." Proc.init).2 with
  | some h =>
    ⟨(get_mode (g.flags emit) (ucl_object_delete_key root_obj argv0).1 "." Proc.init).1,
      (ucl_object_delete_key root_obj argv0).1, 0, some h⟩
  | none =>
    main_return g (ucl_object_delete_key root_obj argv0).1
      (get_mode (g.flags emit) (ucl_object_delete_key root_obj argv0).1 "." Proc.init).1
      (if (ucl_object_delete_key root_obj argv0).2 then 1 else 0)

/-- Function `main` from the test `argc == 0` after the option loop on:
`argv` holds the operands, `g` the globals the options left.  Without an
operand `usage()` ends the run with `exit(1)`, so the tests `argc == 0` inside
the branches never hold; otherwise `mode` selects the branch of the `switch`,
which has the cases 0, 1, 2 and 4. -/
def main_mode (E : Env) (L : Lib) (emit : ucl_object_t → Nat → String) (g : Globals)
    (argv : List String) : MainRet :=
  match argv with
  | [] => ⟨Proc.init, g.root_obj, 0, some (.exit 1)⟩
  | argv0 :: more =>
    if g.mode = 0 then
      match read_root E g with
      | .error h => ⟨Proc.init, g.root_obj, 0, some h⟩
      | .ok root_obj => main_get emit g root_obj (argv0 :: more)
    else if g.mode = 1 then
      match read_root E g with
      | .error h => ⟨Proc.init, g.root_obj, 0, some h⟩
      | .ok root_obj =>
        main_after_write (g.flags emit) g (set_mode L root_obj argv0 more.head? Proc.init)
    else if g.mode = 2 then
      match read_root E g with
      | .error h => ⟨Proc.init, g.root_obj, 0, some h⟩
      | .ok root_obj =>
        main_after_write (g.flags emit) g (merge_mode L root_obj argv0 more.head? Proc.init)
    else if g.mode = 4 then
      match read_root E g with
      | .error h => ⟨Proc.init, g.root_obj, 0, some h⟩
      | .ok root_obj => main_remove emit g root_obj argv0
    else main_return g g.root_obj Proc.init 0

/-- Function `main(argc, argv)`: `opts` are the options of the command line
and `argv` the operands after them.  The program name is always there, so the
first test `argc == 0` never holds. -/
def main (E : Env) (L : Lib) (emit : ucl_object_t → Nat → String) (opts : List Arg)
    (argv : List String) : MainRet :=
  match option_loop E opts Globals.init with
  | .error h => ⟨Proc.init, none, 0, some h⟩
  | .ok g => main_mode E L emit g argv

/-- The status the process ends with: the value `main` returns, or the
argument of `exit`; none when the run is ended by a signal or never ends. -/
def MainRet.status (r : MainRet) : Option Int :=
  match r.halt with
  | none => some r.ret
  | some (.exit c) => some c
  | some _ => none

/-! ## Sample runs -/

/-- An environment in which standard input and every file hold `doc`. -/
def sample_env (doc : ucl_object_t) : Env :=
  ⟨.ok (some doc), fun _ => .ok (some doc)⟩

/-- The document `{"a": 1, "b": 2}`. -/
def doc_a_b : ucl_object_t :=
  obj_node none [keyed "a" (int_node 1), keyed "b" (int_node 2)]

/-- The document `{"k": [[1], []]}`. -/
def doc_nested : ucl_object_t :=
  obj_node none [arr_node (some "k") [arr_node none [int_node 1], arr_node none []]]

/-! ## Notions for the accounting of tokens -/

/-- What a call of `process_get_command` with `n` tokens in
`remaining_commands` ensures about the level it returns: the run is not caught
in a loop, and a call that returns gives a level of at most `recurse + n`. -/
def level_ok (recurse : Int) (n : Nat) (level : Int) (halt : Option Halt) : Prop :=
  halt ≠ some .hang ∧ (halt = none → level ≤ recurse + n)

/-! ## Notions for the records of a run -/

/-- The records `r1 .. rn` written one per line. -/
def lines_of : List String → String
  | [] => ""
  | r :: rs => r ++ "\n" ++ lines_of rs

/-- The state after the records `rs` were written one after the other, each
with the statements the program writes a record with: the separator test, the
text, the end of the record. -/
def write_records (F : Flags) (rs : List String) (p : Proc) : Proc :=
  rs.foldl (fun q r => (q.sep.printf r).endrec F) p

/-- The reading of a command that hands the chain on to several values: the
call `step` is made on the values in turn, every call starting from the state
and with the buffer the one before it left; the run is over as soon as a call
stops it, and the level is the one the last call returned. -/
def in_turn (step : ucl_object_t → String → Proc → Ret) : List ucl_object_t → Ret → Ret
  | [], r => r
  | v :: vs, r =>
    match r.halt with
    | some _ => r
    | none => in_turn step vs (step v r.nodepath r.proc)

/-- The branches of `iterate|t|rest` in `get_mode`: the call for `t`, with
`rest` as its remaining chain and at level 2, made in turn on the node itself
and on every value chained behind it through `next`, at the display path
`nodepath`. -/
def iterate_branches (F : Flags) (o : ucl_object_t) (t : String) (rest : List String)
    (nodepath : String) (p : Proc) : Ret :=
  in_turn (fun cur np q => process_get_command F (some cur) np t rest 2 q) (o :: o.chain)
    ⟨p, nodepath, 1, none⟩

/-- The values `each` hands to the next command for a child: the child alone
when it is an array or has nothing chained behind it, otherwise the child and
then every value chained behind it through `next`. -/
def values_under (c : ucl_object_t) : List ucl_object_t :=
  if c.next.isSome ∧ c.type ≠ .UCL_ARRAY then c :: c.chain else [c]

/-- The reading of `each` with a following command: the children are taken in
order; for the `n`-th of them the next command, `step`, is applied in turn to
every value under the child, all at the display path of that child, which is
`nodepath ++ sep ++ n` for an element of an array and `nodepath ++ sep ++ key`
for a member of an object; the run is over as soon as a call stops it. -/
def each_per_value (F : Flags) (step : ucl_object_t → String → Proc → Ret) (is_array : Bool)
    (nodepath : String) : List ucl_object_t → Nat → Ret → Ret
  | [], _, r => r
  | cur :: rest, n, r =>
    match r.halt with
    | some _ => r
    | none =>
      let c := in_turn step (values_under cur)
        ⟨r.proc,
          nodepath ++ String.singleton F.sepchar ++ (if is_array then toString n else printf_s cur.key),
          r.recurse_level, none⟩
      each_per_value F step is_array nodepath rest (n + 1) ⟨c.proc, nodepath, c.recurse_level, c.halt⟩

/-- The label of a record: with show-keys the display path, the key suffix and
`=`, the separators of both rewritten; nothing without show-keys. -/
def record_label (F : Flags) (nodepath inkey : String) : String :=
  if F.show_keys then replace_sep nodepath '.' F.sepchar ++ replace_sep inkey '.' F.sepchar ++ "="
  else ""

/-! ## Basic facts about the output state -/

@[simp]
theorem Proc.printf_out (p : Proc) (s : String) : (p.printf s).out = p.out ++ s := rfl

@[simp]
theorem Proc.printf_firstline (p : Proc) (s : String) : (p.printf s).firstline = p.firstline := rfl

@[simp]
theorem Proc.sep_firstline (p : Proc) : p.sep.firstline = p.firstline := by
  unfold Proc.sep
  split <;> rfl

theorem Proc.sep_out (p : Proc) : p.sep.out = p.out ++ (if p.firstline then "" else " ") := by
  unfold Proc.sep
  cases h : p.firstline <;> simp [Proc.printf]

theorem Proc.printf_printf (p : Proc) (s t : String) : (p.printf s).printf t = p.printf (s ++ t) := by
  simp [Proc.printf, String.append_assoc]

@[simp]
theorem Proc.printf_empty (p : Proc) : p.printf "" = p := by
  cases p
  simp [Proc.printf]

theorem Proc.endrec_newline (F : Flags) (p : Proc) (h : F.nonewline = false) :
    p.endrec F = ⟨p.out ++ "\n", p.firstline⟩ := by
  simp [Proc.endrec, h, Proc.printf]

theorem Proc.endrec_nonewline (F : Flags) (p : Proc) (h : F.nonewline = true) :
    p.endrec F = ⟨p.out, false⟩ := by
  simp [Proc.endrec, h]

/-! ## Scenarios of the specification -/

/-- Scenario of the specification: on the document `{"a": {"b": [1,2,3]}}` the
request `a.b|length` writes `3`. -/
theorem scenario_length :
    (get_mode (default_flags no_emit) (some doc_ab) "a.b|length" Proc.init).1.out = "3\n" := by
  decide

/-- Scenario of the specification: on the document `{"a": 1, "b": 2}` the
command `keys` at the root writes `a` and `b` on separate lines. -/
theorem scenario_keys :
    (get_mode (default_flags no_emit)
        (some (obj_node none [keyed "a" (int_node 1), keyed "b" (int_node 2)])) "|keys"
        Proc.init).1.out = "a\nb\n" := by
  decide

/-! ## `length` and `type` -/

/-- C1: with the default flags, for every node, display path, remaining chain
and state, `length` writes (after the separator owed to `firstline`, which is
nothing in the default mode) the decimal child count of the node and a
newline, `0` for an absent node, and returns normally; on
`{"a": {"b": [1,2,3]}}` the request `a.b|length` writes `3`. -/
theorem length_writes_child_count (emit : ucl_object_t → Nat → String)
    (obj : Option ucl_object_t) (nodepath : String) (remaining_commands : List String)
    (recurse : Int) (p : Proc) :
    process_get_command (default_flags emit) obj nodepath "length" remaining_commands recurse p =
        ⟨⟨p.sep.out ++ toString (child_count obj) ++ "\n", p.firstline⟩, nodepath, recurse, none⟩ ∧
      (get_mode (default_flags emit) (some doc_ab) "a.b|length" Proc.init).1.out = "3\n" := by
  constructor
  · unfold process_get_command
    cases obj with
    | none =>
      simp [default_flags, Proc.endrec, Proc.printf, child_count]
      rfl
    | some o =>
      obtain ⟨k, v, n⟩ := o
      cases v <;>
        simp [default_flags, Proc.endrec, Proc.printf, ucl_object_t.len, ucl_object_t.value,
          child_count, children]
  · rfl

/-- C2: for every node, whatever the flags, the display path, the remaining
chain and the state, `type` emits exactly one record and returns normally: the
record of a present node is the lowercase tag of its kind (after
`nodepath=` with show-keys), the record of an absent node is `null`
(`(null)=null` with show-keys). -/
theorem type_writes_kind_tag (F : Flags) (obj : Option ucl_object_t) (nodepath : String)
    (remaining_commands : List String) (recurse : Int) (p : Proc) :
    process_get_command F obj nodepath "type" remaining_commands recurse p =
      ⟨(p.sep.printf
          (match obj with
            | none => (if F.show_keys then "(null)=" else "") ++ "null"
            | some o =>
              (if F.show_keys then nodepath ++ "=" else "") ++
                (match o.type with
                  | .UCL_OBJECT => "object"
                  | .UCL_ARRAY => "array"
                  | .UCL_INT => "int"
                  | .UCL_FLOAT => "float"
                  | .UCL_STRING => "string"
                  | .UCL_BOOLEAN => "boolean"
                  | .UCL_TIME => "time"
                  | .UCL_USERDATA => "userdata"
                  | .UCL_NULL => "null"))).endrec F,
        nodepath, recurse, none⟩ := by
  unfold process_get_command
  cases obj with
  | none => simp [Proc.printf_printf]
  | some o =>
    simp only [Proc.printf_printf]
    cases h : o.type <;> simp [type_tag]

/-! ## `keys` -/

/-- C3 (the code at the failing inputs): `keys` on the array `[1, 2]` writes one
record per element, the `NULL` key of the element printed as `(null)`, and
`keys` on the scalar stored under `a` writes the key `a` of the scalar itself;
neither is a node for which nothing is written. -/
theorem keys_of_non_object_writes_records :
    (process_get_command (default_flags no_emit)
        (some (arr_node (some "b") [int_node 1, int_node 2])) "b" "keys" [] 1
        Proc.init).proc.out = "(null)\n(null)\n" ∧
      (process_get_command (default_flags no_emit)
        (some (keyed "a" (int_node 1))) "a" "keys" [] 1 Proc.init).proc.out = "a\n" := by
  decide

/-- What `keys` does where the specification is met: on an object it writes one
record per member, the key of the member, in insertion order; on an absent node
it writes nothing. -/
theorem keys_of_object_or_absent (F : Flags) (key : Option String) (members : List ucl_object_t)
    (next : Option ucl_object_t) (nodepath : String) (rem : List String) (recurse : Int)
    (p : Proc) :
    process_get_command F (some (.mk key (.ov members) next)) nodepath "keys" rem recurse p =
        ⟨members.foldl (fun q m => (q.sep.printf (printf_s m.key)).endrec F) p,
          nodepath, recurse, none⟩ ∧
      process_get_command F none nodepath "keys" rem recurse p = ⟨p, nodepath, recurse, none⟩ := by
  constructor <;> unfold process_get_command <;>
    simp [ucl_iterate_object, keys_loop, ucl_object_t.value]

/-! ## `each` as the last command -/

/-- C4 (the code at the failing input): on the array `[null, 1]` at `b`, `each`
as the last command writes two records, but the first is empty: the element of
kind `UCL_NULL` takes the `default` branch of `output_key`, which writes neither
the label `b.0=` nor a value, with show-keys and without; the second record is
`b.1=1`.  On `[7, "x"]` the two records are `b.0=7` and `b.1="x"`. -/
theorem each_null_element_not_rendered :
    (process_get_command keys_flags
        (some (arr_node (some "b") [.mk none .null none, int_node 1])) "b" "each" [] 1
        Proc.init).proc.out = "\nb.1=1\n" ∧
      (get_mode keys_flags
        (some (obj_node none [arr_node (some "b") [.mk none .null none, int_node 1]])) "b|each"
        Proc.init).1.out = "\nb.1=1\n" ∧
      (get_mode (default_flags no_emit)
        (some (obj_node none [arr_node (some "b") [.mk none .null none, int_node 1]])) "b|each"
        Proc.init).1.out = "\n1\n" ∧
      (get_mode keys_flags
        (some (obj_node none [arr_node (some "b") [int_node 7, str_node "x"]])) "b|each"
        Proc.init).1.out = "b.0=7\nb.1=\"x\"\n" := by
  decide

theorem each_loop_cons (F : Flags) (o cur : ucl_object_t) (rest : List ucl_object_t)
    (s : Proc × String × Nat) :
    each_loop F o (cur :: rest) s =
      each_loop F o rest
        ((if cur.next.isSome ∧ cur.type ≠ .UCL_ARRAY then
            chunk_loop F (child_suffix F o cur s.2.2) (ucl_iterate_object (some cur) false)
              (s.1, s.2.1)
          else output_chunk F (some cur) s.2.1 (child_suffix F o cur s.2.2) s.1).1,
          (if cur.next.isSome ∧ cur.type ≠ .UCL_ARRAY then
            chunk_loop F (child_suffix F o cur s.2.2) (ucl_iterate_object (some cur) false)
              (s.1, s.2.1)
          else output_chunk F (some cur) s.2.1 (child_suffix F o cur s.2.2) s.1).2,
          next_arrindex o s.2.2) := rfl

theorem each_loop_enum (F : Flags) (o : ucl_object_t) (ho : o.type = .UCL_ARRAY)
    (elems : List ucl_object_t)
    (h : ∀ e ∈ elems, e.next.isSome = false ∨ e.type = .UCL_ARRAY) :
    ∀ (n : Nat) (p : Proc) (nodepath : String),
      each_loop F o elems (p, nodepath, n) =
        (((elems.enumFrom n).foldl
            (fun s ie => output_chunk F (some ie.2) s.2
              (String.singleton F.sepchar ++ toString ie.1) s.1) (p, nodepath)).1,
          ((elems.enumFrom n).foldl
            (fun s ie => output_chunk F (some ie.2) s.2
              (String.singleton F.sepchar ++ toString ie.1) s.1) (p, nodepath)).2,
          n + elems.length) := by
  induction elems with
  | nil => intro n p np; simp [each_loop]
  | cons e es ih =>
    intro n p np
    have he : ¬ (e.next.isSome = true ∧ e.type ≠ .UCL_ARRAY) := by
      rcases h e (List.mem_cons_self _ _) with h1 | h1 <;> simp [h1]
    have hes : ∀ e ∈ es, e.next.isSome = false ∨ e.type = .UCL_ARRAY :=
      fun x hx => h x (List.mem_cons_of_mem _ hx)
    rw [each_loop_cons]
    simp only [he, if_false, child_suffix, next_arrindex, ho, if_true]
    rw [ih hes]
    simp [Nat.add_comm, Nat.add_left_comm]

/-- For every array node with elements `e_0 .. e_(N-1)` none of which has a
value chained behind it (unless it is itself an array), `each` as the last
command makes exactly the `N` calls `output_chunk(e_i, nodepath, sep ++ i)`, for
`i = 0 .. N-1` in storage order, and returns normally: one record per element,
written by the output formatter at the display path with the suffix `<sep><i>`
as key. -/
theorem each_last_over_array (F : Flags) (key : Option String) (elems : List ucl_object_t)
    (next : Option ucl_object_t) (nodepath : String) (recurse : Int) (p : Proc)
    (h : ∀ e ∈ elems, e.next.isSome = false ∨ e.type = .UCL_ARRAY) :
    process_get_command F (some (.mk key (.av elems) next)) nodepath "each" [] recurse p =
      ⟨(elems.enum.foldl
          (fun s ie => output_chunk F (some ie.2) s.2
            (String.singleton F.sepchar ++ toString ie.1) s.1) (p, nodepath)).1,
        (elems.enum.foldl
          (fun s ie => output_chunk F (some ie.2) s.2
            (String.singleton F.sepchar ++ toString ie.1) s.1) (p, nodepath)).2,
        recurse, none⟩ := by
  unfold process_get_command
  simp only [ucl_iterate_object, ucl_object_t.value, if_true]
  rw [each_loop_enum F (.mk key (.av elems) next) rfl elems h]
  simp [List.enum]

/-- The array `[7, "x"]` at `b` has no chained value; with show-keys `each`
writes the two records `b.0=7` and `b.1="x"`. -/
theorem each_last_over_array_witness :
    (process_get_command keys_flags
        (some (.mk (some "b") (.av [int_node 7, str_node "x"]) none))
        "b" "each" [] 1 Proc.init).proc.out = "b.0=7\nb.1=\"x\"\n" :=
  (congrArg (fun r => r.proc.out)
    (each_last_over_array keys_flags (some "b") [int_node 7, str_node "x"] none "b" 1
      Proc.init (by decide))).trans (by decide)

/-! ## `iterate` as the last command -/

/-- C5 (counterexample): `iterate` as the last command on the three-element
array at `a.b` writes one record, the array itself, not three. -/
theorem iterate_last_over_array_writes_one_record :
    (process_get_command keys_flags
        (some (arr_node (some "b") [int_node 1, int_node 2, int_node 3])) "a.b" "iterate" [] 1
        Proc.init).proc.out = "a.b=[array]\n" := by
  decide

/-- C5 (amended): for every node, `iterate` as the last command makes one call
`output_chunk(cur, nodepath, "")` for the node itself and then for every value
chained behind it through `next`, in order, at the unchanged display path with
no suffix, and returns normally; a node with nothing chained behind it, such as
an array of `N` elements, gives exactly one record, the node itself. -/
theorem iterate_last_walks_chain (F : Flags) (o : ucl_object_t) (nodepath : String)
    (recurse : Int) (p : Proc) :
    process_get_command F (some o) nodepath "iterate" [] recurse p =
        ⟨((o :: o.chain).foldl (fun s cur => output_chunk F (some cur) s.2 "" s.1) (p, nodepath)).1,
          ((o :: o.chain).foldl (fun s cur => output_chunk F (some cur) s.2 "" s.1) (p, nodepath)).2,
          recurse, none⟩ ∧
      (o.next = none →
        process_get_command F (some o) nodepath "iterate" [] recurse p =
          ⟨(output_chunk F (some o) nodepath "" p).1, (output_chunk F (some o) nodepath "" p).2,
            recurse, none⟩) := by
  constructor
  · unfold process_get_command
    simp [ucl_iterate_object, chunk_loop]
  · intro h
    have hc : o.chain = [] := by
      obtain ⟨k, v, n⟩ := o
      simp only [ucl_object_t.next] at h
      subst h
      rfl
    unfold process_get_command
    simp [ucl_iterate_object, chunk_loop, hc]

/-- C5 (witness): the value `1` with `2` chained behind it, at `k`: `iterate`
writes the two records `k=1` and `k=2`; and the array `[1, 2]`, which has
nothing chained behind it, gives the one record of the second part. -/
theorem iterate_last_walks_chain_witness :
    (process_get_command keys_flags (some chained_pair) "k" "iterate" [] 1
        Proc.init).proc.out = "k=1\nk=2\n" ∧
      (arr_node (some "b") [int_node 1, int_node 2]).next = none ∧
      (process_get_command keys_flags (some (arr_node (some "b") [int_node 1, int_node 2]))
        "a.b" "iterate" [] 1 Proc.init).proc.out = "a.b=[array]\n" :=
  ⟨(congrArg (fun r => r.proc.out)
      (iterate_last_walks_chain keys_flags chained_pair "k" 1 Proc.init).1).trans (by decide),
    rfl,
    (congrArg (fun r => r.proc.out)
      ((iterate_last_walks_chain keys_flags (arr_node (some "b") [int_node 1, int_node 2])
        "a.b" 1 Proc.init).2 rfl)).trans (by decide)⟩

/-! ## `values` -/

/-- C6 (the code at the failing input): with show-keys, `values` on the object
`{"a": null, "b": 1}` at `p` writes an empty record for the member `a`, with no
label `p.a=`, and then `p.b=1`: a child of kind `UCL_NULL` falls into the
`default` branch of the `switch` of `output_key`, which writes nothing. -/
theorem values_null_child_not_labelled :
    (process_get_command keys_flags
        (some (obj_node (some "p") [.mk (some "a") .null none, keyed "b" (int_node 1)])) "p"
        "values" [] 1 Proc.init).proc.out = "\np.b=1\n" := by
  decide

/-- What `values` does on an object or an array: one call of `output_key` per
child, in order, whatever the output format, with the suffix of the child
(`sep` and the running index under an array, `sep` and the key under an object)
as key. -/
theorem values_over_children (F : Flags) (o : ucl_object_t) (nodepath : String)
    (rem : List String) (recurse : Int) (p : Proc)
    (ho : o.type = .UCL_ARRAY ∨ o.type = .UCL_OBJECT) :
    process_get_command F (some o) nodepath "values" rem recurse p =
      ⟨(values_loop F o (children o) (p, nodepath, 0)).1,
        (values_loop F o (children o) (p, nodepath, 0)).2.1, recurse, none⟩ := by
  have hit : ucl_iterate_object (some o) true = children o := by
    obtain ⟨k, v, n⟩ := o
    cases v <;> simp_all [ucl_iterate_object, children, ucl_object_t.value, ucl_object_t.type]
  unfold process_get_command
  simp [hit]

/-! ## `iterate` with a following command -/

/-- C7 (counterexample): on the document `{"k": [[1, 2], [3]]}` the request
`k|iterate|length|type` writes `2` and `array`: `length` is applied to the array
at `k` itself and `type` to that array again, by the loop of `get_mode`;
running `length|type` against each of the two children of the array would write
`2`, `array`, `1`, `array`. -/
theorem iterate_chain_not_per_child :
    (get_mode (default_flags no_emit)
        (some (obj_node none
          [arr_node (some "k") [arr_node none [int_node 1, int_node 2], arr_node none [int_node 3]]]))
        "k|iterate|length|type" Proc.init).1.out = "2\narray\n" ∧
      (run_chain_per_child (default_flags no_emit)
        (children
          (arr_node (some "k") [arr_node none [int_node 1, int_node 2], arr_node none [int_node 3]]))
        ["length", "type"] "k" Proc.init).out = "2\narray\n1\narray\n" := by
  decide

theorem terminal_ret (F : Flags) (t : String) (ht : is_terminal t) (obj : Option ucl_object_t)
    (nodepath : String) (rem : List String) (recurse : Int) (p : Proc) :
    (process_get_command F obj nodepath t rem recurse p).halt = none ∧
      (process_get_command F obj nodepath t rem recurse p).recurse_level = recurse := by
  unfold process_get_command
  rcases ht with h | h | h | h <;> subst h <;> cases obj <;> simp

/-! ## `each` with a following command -/

/-- C8 (counterexample): the object at `p` has the single member `k`, which has
a second value chained behind it; with show-keys `each|type` applies `type`
twice, writing `p.k=int` two times, where one application per child writes it
once. -/
theorem each_then_type_expands_chained_member :
    (process_get_command keys_flags (some (obj_node (some "p") [keyed "k" chained_pair]))
        "p" "each" ["type"] 1 Proc.init).proc.out = "p.k=int\np.k=int\n" ∧
      (each_per_child keys_flags
        (fun cur np q => process_get_command keys_flags cur np "type" [] (1 + 1) q)
        false "p" (children (obj_node (some "p") [keyed "k" chained_pair])) 0
        ⟨Proc.init, "p", 1, none⟩).proc.out = "p.k=int\n" := by
  decide

/-! ## Sub-paths -/

/-- C9 (the code at the failing input): with show-keys, on the object
`{"a": null, "b": 1}` at `p` the sub-path `.a` as the last token writes an empty
record, with no label `p.a=`: the node found is of kind `UCL_NULL`, for which
`output_key` writes nothing; the sub-path `.b` writes `p.b=1`. -/
theorem subpath_null_node_not_labelled :
    (process_get_command keys_flags
        (some (obj_node (some "p") [.mk (some "a") .null none, keyed "b" (int_node 1)])) "p"
        ".a" [] 1 Proc.init).proc.out = "\n" ∧
      (process_get_command keys_flags
        (some (obj_node (some "p") [.mk (some "a") .null none, keyed "b" (int_node 1)])) "p"
        ".b" [] 1 Proc.init).proc.out = "p.b=1\n" := by
  decide

/-- C10 (the code at the failing input): with show-keys, over the array
`[10, 20, "x"]` at `p` the chain `.2|type` resolves the element of index 2, the
string, and labels its record `p.0`, not `p.2`: the suffix is the local
`arrindex`, which is still `0`. -/
theorem subpath_in_array_labelled_index_zero :
    (process_get_command keys_flags
        (some (arr_node (some "p") [int_node 10, int_node 20, str_node "x"])) "p"
        ".2" ["type"] 1 Proc.init).proc.out = "p.0=string\n" := by
  decide

/-- What a sub-path as the last token does: one call of `output_key` on the
node found from the current node (or on `NULL`), with the sub-path as key. -/
theorem subpath_last_calls_output_key (F : Flags) (obj : Option ucl_object_t)
    (nodepath t : String) (recurse : Int) (p : Proc) (ht : t.data.head? = some '.') :
    process_get_command F obj nodepath t [] recurse p =
      ⟨(output_key F (ucl_lookup_path obj t) nodepath t p).1,
        (output_key F (ucl_lookup_path obj t) nodepath t p).2, recurse, none⟩ := by
  have h1 : t ≠ "length" := by rintro rfl; simp at ht
  have h2 : t ≠ "type" := by rintro rfl; simp at ht
  have h3 : t ≠ "keys" := by rintro rfl; simp at ht
  have h4 : t ≠ "values" := by rintro rfl; simp at ht
  have h5 : t ≠ "iterate" := by rintro rfl; simp at ht
  have h6 : t ≠ "each" := by rintro rfl; simp at ht
  unfold process_get_command
  simp [h1, h2, h3, h4, h5, h6, ht]

/-- What a sub-path with a following command does on a present node: the next
command is called on the node found, with the display path
`nodepath ++ sep ++ key` (the key of the node found) when the current node is
not an array, and `nodepath ++ sep ++ 0` when it is an array, whatever the
index the sub-path names; the caller's `nodepath` is left as it was. -/
theorem subpath_then_next (F : Flags) (o : ucl_object_t) (nodepath t next_command : String)
    (rcmds : List String) (recurse : Int) (p : Proc) (ht : t.data.head? = some '.') :
    process_get_command F (some o) nodepath t (next_command :: rcmds) recurse p =
      ⟨(process_get_command F (ucl_lookup_path (some o) t)
          (nodepath ++ String.singleton F.sepchar ++
            (if o.type = .UCL_ARRAY then "0"
              else printf_s ((ucl_lookup_path (some o) t).bind (fun c => c.key))))
          next_command rcmds (recurse + 1) p).proc,
        nodepath,
        (process_get_command F (ucl_lookup_path (some o) t)
          (nodepath ++ String.singleton F.sepchar ++
            (if o.type = .UCL_ARRAY then "0"
              else printf_s ((ucl_lookup_path (some o) t).bind (fun c => c.key))))
          next_command rcmds (recurse + 1) p).recurse_level,
        (process_get_command F (ucl_lookup_path (some o) t)
          (nodepath ++ String.singleton F.sepchar ++
            (if o.type = .UCL_ARRAY then "0"
              else printf_s ((ucl_lookup_path (some o) t).bind (fun c => c.key))))
          next_command rcmds (recurse + 1) p).halt⟩ := by
  have h1 : t ≠ "length" := by rintro rfl; simp at ht
  have h2 : t ≠ "type" := by rintro rfl; simp at ht
  have h3 : t ≠ "keys" := by rintro rfl; simp at ht
  have h4 : t ≠ "values" := by rintro rfl; simp at ht
  have h5 : t ≠ "iterate" := by rintro rfl; simp at ht
  have h6 : t ≠ "each" := by rintro rfl; simp at ht
  have h0 : toString (0 : Nat) = "0" := rfl
  rw [process_get_command]
  by_cases ha : o.type = .UCL_ARRAY <;> simp [h1, h2, h3, h4, h5, h6, ht, ha, h0]

/-! ## Text rendering -/

/-- C19: for all flags, display paths, keys and states, `output_key` writes in
text mode one record (after the separator owed to `firstline`, closed by the
record end) that consists of the label and the value: a string `s` as `"s"`, or
as bare `s` with the raw flag, an integer as its decimal value, a boolean as
`true` or `false`, an object as `{object}`, an array as `[array]` and an absent
node as `null`.  The label is the display path, the key suffix and `=` with
show-keys; with show-keys off it is empty, so that nothing precedes the
value. -/
theorem output_key_text_rendering (F : Flags) (nodepath inkey : String) (p : Proc)
    (key : Option String) (next : Option ucl_object_t) :
    (∀ s, (output_key F (some (.mk key (.sv s) next)) nodepath inkey p).1 =
        (p.sep.printf
          (record_label F nodepath inkey ++ (if F.show_raw then s else "\"" ++ s ++ "\""))).endrec
          F) ∧
      (∀ i : Int, (output_key F (some (.mk key (.iv i) next)) nodepath inkey p).1 =
        (p.sep.printf (record_label F nodepath inkey ++ toString i)).endrec F) ∧
      (output_key F (some (.mk key (.bv true) next)) nodepath inkey p).1 =
        (p.sep.printf (record_label F nodepath inkey ++ "true")).endrec F ∧
      (output_key F (some (.mk key (.bv false) next)) nodepath inkey p).1 =
        (p.sep.printf (record_label F nodepath inkey ++ "false")).endrec F ∧
      (∀ members, (output_key F (some (.mk key (.ov members) next)) nodepath inkey p).1 =
        (p.sep.printf (record_label F nodepath inkey ++ "\x7bobject\x7d")).endrec F) ∧
      (∀ elems, (output_key F (some (.mk key (.av elems) next)) nodepath inkey p).1 =
        (p.sep.printf (record_label F nodepath inkey ++ "[array]")).endrec F) ∧
      (output_key F none nodepath inkey p).1 =
        (p.sep.printf (record_label F nodepath inkey ++ "null")).endrec F ∧
      (F.show_keys = false → record_label F nodepath inkey = "") := by
  refine ⟨?_, ?_, ?_, ?_, ?_, ?_, ?_, ?_⟩
  · intro s
    cases hr : F.show_raw <;>
      simp [output_key, output_key_text, ucl_object_t.value, record_label, hr,
        String.append_assoc]
  all_goals
    first
    | (intro h; simp [record_label, h])
    | simp [output_key, output_key_text, ucl_object_t.value, record_label]

/-- C19 (witness): with the default flags the string `x` is written as `"x"`,
the integer `-5` as `-5`, an absent node as `null`, each on a line of its own
with nothing in front; with show-keys the same string and integer at the
display path `p` with the key `.k` are written as `p.k="x"` and `p.k=-5`. -/
theorem output_key_text_rendering_witness :
    (default_flags no_emit).show_keys = false ∧
      record_label (default_flags no_emit) "p" ".k" = "" ∧
      (output_key (default_flags no_emit) (some (str_node "x")) "p" ".k" Proc.init).1.out = "\"x\"\n" ∧
      (output_key (default_flags no_emit) (some (int_node (-5))) "p" ".k" Proc.init).1.out = "-5\n" ∧
      (output_key (default_flags no_emit) none "p" ".k" Proc.init).1.out = "null\n" ∧
      (output_key keys_flags (some (str_node "x")) "p" ".k" Proc.init).1.out = "p.k=\"x\"\n" ∧
      (output_key keys_flags (some (int_node (-5))) "p" ".k" Proc.init).1.out = "p.k=-5\n" :=
  ⟨rfl,
    (output_key_text_rendering (default_flags no_emit) "p" ".k" Proc.init none none).2.2.2.2.2.2.2
      rfl,
    (congrArg Proc.out
      ((output_key_text_rendering (default_flags no_emit) "p" ".k" Proc.init none none).1
        "x")).trans (by decide),
    (congrArg Proc.out
      ((output_key_text_rendering (default_flags no_emit) "p" ".k" Proc.init none none).2.1
        (-5))).trans (by decide),
    (congrArg Proc.out
      (output_key_text_rendering (default_flags no_emit) "p" ".k" Proc.init none
        none).2.2.2.2.2.2.1).trans (by decide),
    (congrArg Proc.out
      ((output_key_text_rendering keys_flags "p" ".k" Proc.init none none).1 "x")).trans
      (by decide),
    (congrArg Proc.out
      ((output_key_text_rendering keys_flags "p" ".k" Proc.init none none).2.1 (-5))).trans
      (by decide)⟩

/-! ## Separator rewrite -/

/-- C20 (the code at the failing inputs): with `--keys --shellvars` on the
document `{"a": {"b": {"c": [1, 2]}}}`, the bare request `a.b.c` is labelled
`a_b_c`, but `a.b.c|type` is labelled `a.b.c`, `a.b.c|length` writes `a.b.c2`,
and `a.b.c|each|type` labels its records `a.b.c_0` and `a.b.c_1`: `type` and
`length` print `nodepath` as it is, without `replace_sep`. -/
theorem shellvars_type_length_keep_dots :
    (get_mode shell_flags (some doc_abc) "a.b.c" Proc.init).1.out = "a_b_c=[array]\n" ∧
      (get_mode shell_flags (some doc_abc) "a.b.c|type" Proc.init).1.out = "a.b.c=array\n" ∧
      (get_mode shell_flags (some doc_abc) "a.b.c|length" Proc.init).1.out = "a.b.c2\n" ∧
      (get_mode shell_flags (some doc_abc) "a.b.c|each|type" Proc.init).1.out =
        "a.b.c_0=int\na.b.c_1=int\n" := by
  decide

/-! ## Path resolver -/

/-- C14 (the code at the failing inputs): in the array `arr = [10, 20]` the
final segment `x` is not a number, `strtoul` reads it as `0` and `get_object`
returns the element at index 0; the final segment `1x` selects the element at
index 1.  Only an index out of range, such as `7`, gives the parent. -/
theorem get_object_non_numeric_selects_element :
    get_object (some doc_arr) "arr.x" = .ok (some (int_node 10)) ∧
      get_object (some doc_arr) "arr.1x" = .ok (some (int_node 20)) ∧
      get_object (some doc_arr) "arr.7" =
        .ok (some (arr_node (some "arr") [int_node 10, int_node 20])) :=
  ⟨rfl, rfl, rfl⟩

/-- C15 (the code at the failing inputs): on the document
`{"arr": [10, 20], "k": 1}`, `get_parent` returns `NULL` for the paths `.` and
`.k`, and `get_object` returns `NULL` for `.k`: the text before the last `.` is
empty and `ucl_lookup_path` finds nothing for it; `set_mode` on `.k` then reads
`sub_obj->type` through the `NULL` pointer.  On the path `k` the parent is the
root. -/
theorem leading_dot_has_no_parent :
    get_parent (some doc_arr) "." = none ∧
      get_parent (some doc_arr) ".k" = none ∧
      get_object (some doc_arr) ".k" = .ok none ∧
      (set_mode sample_lib (some doc_arr) ".k" (some "5") Proc.init).halt = some .segv ∧
      get_parent (some doc_arr) "k" = some doc_arr :=
  ⟨rfl, rfl, rfl, rfl, rfl⟩

/-! ## `set` -/

/-- C16 (the code at the failing inputs): on the document `{"x": {"a": 1}}`,
`set` of the absent key `x.y` to `5` reports failure and leaves `x.y` absent: the
value is stored under the key of the node `get_object` fell back to, the parent
`x` itself, so that `x.x` is `5`; `set` of the absent top-level key `y` has no
key at all to store under and changes nothing.  `set` of the present key `x.a`
succeeds and `x.a` is `5` afterwards. -/
theorem set_absent_key_not_created :
    (set_mode sample_lib (some doc_x) "x.y" (some "5") Proc.init).success = false ∧
      (set_mode sample_lib (some doc_x) "x.y" (some "5") Proc.init).root_obj =
        some (obj_node none [obj_node (some "x") [keyed "a" (int_node 1), keyed "x" (int_node 5)]]) ∧
      ucl_lookup_path (set_mode sample_lib (some doc_x) "x.y" (some "5") Proc.init).root_obj "x.y"
        = none ∧
      (set_mode sample_lib (some doc_x) "y" (some "5") Proc.init).success = false ∧
      (set_mode sample_lib (some doc_x) "y" (some "5") Proc.init).root_obj = some doc_x ∧
      (set_mode sample_lib (some doc_x) "x.a" (some "5") Proc.init).success = true ∧
      (set_mode sample_lib (some doc_x) "x.a" (some "5") Proc.init).root_obj =
        some (obj_node none [obj_node (some "x") [keyed "a" (int_node 5)]]) :=
  ⟨rfl, rfl, rfl, rfl, rfl, rfl, rfl⟩

/-! ## Output is never taken back -/

theorem Proc.extends_refl (p : Proc) : p.extends p :=
  ⟨"", by simp⟩

theorem Proc.extends_trans {p q r : Proc} (h1 : p.extends q) (h2 : q.extends r) : p.extends r := by
  obtain ⟨s, hs⟩ := h1
  obtain ⟨t, ht⟩ := h2
  exact ⟨s ++ t, by rw [ht, hs, String.append_assoc]⟩

theorem Proc.extends_printf (p : Proc) (s : String) : p.extends (p.printf s) :=
  ⟨s, rfl⟩

theorem Proc.extends_sep (p : Proc) : p.extends p.sep := by
  unfold Proc.sep
  split
  · exact Proc.extends_printf p " "
  · exact Proc.extends_refl p

theorem Proc.extends_endrec (F : Flags) (p : Proc) : p.extends (p.endrec F) := by
  unfold Proc.endrec
  split
  · exact ⟨"", by simp⟩
  · exact Proc.extends_printf p "\n"

theorem Proc.extends_record (F : Flags) (p : Proc) (s : String) :
    p.extends ((p.sep.printf s).endrec F) :=
  Proc.extends_trans (Proc.extends_sep p)
    (Proc.extends_trans (Proc.extends_printf _ s) (Proc.extends_endrec F _))

theorem output_key_extends (F : Flags) (obj : Option ucl_object_t) (nodepath inkey : String)
    (p : Proc) : p.extends (output_key F obj nodepath inkey p).1 := by
  unfold output_key
  cases obj <;> exact Proc.extends_record F p _

theorem output_chunk_extends (F : Flags) (obj : Option ucl_object_t) (nodepath inkey : String)
    (p : Proc) : p.extends (output_chunk F obj nodepath inkey p).1 := by
  unfold output_chunk
  simp only
  split_ifs <;>
    first
    | exact output_key_extends F obj _ _ p
    | exact Proc.extends_trans (Proc.extends_printf p _) (Proc.extends_endrec F _)
    | exact Proc.extends_refl p

theorem foldl_invariant {σ α : Type} (P : σ → Prop) (f : σ → α → σ)
    (hf : ∀ s x, P s → P (f s x)) : ∀ (l : List α) (s : σ), P s → P (l.foldl f s) := by
  intro l
  induction l with
  | nil => intro s hs; exact hs
  | cons x xs ih => intro s hs; exact ih (f s x) (hf s x hs)

theorem keys_loop_extends (F : Flags) (curs : List ucl_object_t) (p : Proc) :
    p.extends (keys_loop F curs p) :=
  foldl_invariant (fun q => p.extends q) _
    (fun _ _ hq => Proc.extends_trans hq (Proc.extends_record F _ _)) curs p (Proc.extends_refl p)

theorem values_loop_extends (F : Flags) (obj : ucl_object_t) (curs : List ucl_object_t)
    (s : Proc × String × Nat) : s.1.extends (values_loop F obj curs s).1 :=
  foldl_invariant (fun q : Proc × String × Nat => s.1.extends q.1) _
    (fun _ _ hq => Proc.extends_trans hq (output_key_extends F _ _ _ _)) curs s
    (Proc.extends_refl s.1)

theorem chunk_loop_extends (F : Flags) (key : String) (curs : List ucl_object_t)
    (s : Proc × String) : s.1.extends (chunk_loop F key curs s).1 :=
  foldl_invariant (fun q : Proc × String => s.1.extends q.1) _
    (fun _ _ hq => Proc.extends_trans hq (output_chunk_extends F _ _ _ _)) curs s
    (Proc.extends_refl s.1)

theorem each_loop_extends (F : Flags) (obj : ucl_object_t) (curs : List ucl_object_t)
    (s : Proc × String × Nat) : s.1.extends (each_loop F obj curs s).1 := by
  refine foldl_invariant (fun q : Proc × String × Nat => s.1.extends q.1) _ ?_ curs s
    (Proc.extends_refl s.1)
  intro q cur hq
  simp only
  split_ifs
  · exact Proc.extends_trans hq (chunk_loop_extends F _ _ (q.1, q.2.1))
  · exact Proc.extends_trans hq (output_chunk_extends F _ _ _ _)

/-! ## Invariants of the recursive loops -/

theorem recurse_loop_invariant (Q : Proc → Int → Option Halt → Prop)
    (step : Option ucl_object_t → String → Proc → Ret)
    (hstep : ∀ q lvl cur np, Q q lvl none →
      Q (step (some cur) np q).proc (step (some cur) np q).recurse_level (step (some cur) np q).halt) :
    ∀ (cs : List ucl_object_t) (r : Ret), Q r.proc r.recurse_level r.halt →
      Q (recurse_loop step cs r).proc (recurse_loop step cs r).recurse_level
        (recurse_loop step cs r).halt := by
  intro cs
  induction cs with
  | nil => intro r hr; simpa [recurse_loop] using hr
  | cons c cs ih =>
    intro r hr
    rw [recurse_loop]
    cases hh : r.halt with
    | some x => simpa using hr
    | none =>
      simp only
      apply ih
      apply hstep _ r.recurse_level
      rw [hh] at hr
      exact hr

theorem each_recurse_loop_invariant (Q : Proc → Int → Option Halt → Prop) (F : Flags)
    (step : Option ucl_object_t → String → Proc → Ret) (obj : ucl_object_t)
    (hstep : ∀ q lvl cur np, Q q lvl none →
      Q (step (some cur) np q).proc (step (some cur) np q).recurse_level (step (some cur) np q).halt) :
    ∀ (cs : List ucl_object_t) (s : Ret × Nat), Q s.1.proc s.1.recurse_level s.1.halt →
      Q (each_recurse_loop F step obj cs s).1.proc (each_recurse_loop F step obj cs s).1.recurse_level
        (each_recurse_loop F step obj cs s).1.halt := by
  intro cs
  induction cs with
  | nil => intro s hs; simpa [each_recurse_loop] using hs
  | cons c cs ih =>
    intro s hs
    rw [each_recurse_loop]
    cases hh : s.1.halt with
    | some x => simpa using hs
    | none =>
      simp only
      apply ih
      simp only
      rw [hh] at hs
      split_ifs
      · exact recurse_loop_invariant Q step hstep _ ⟨s.1.proc, _, s.1.recurse_level, none⟩ hs
      · exact hstep _ s.1.recurse_level _ _ hs

theorem call_ok_return {p q : Proc} (recurse : Int) (toks : List String) (h : p.extends q) :
    call_ok p recurse toks q recurse none :=
  ⟨h, fun c hc => absurd hc (by simp), fun _ => le_refl _⟩

theorem call_ok_step {p q proc : Proc} {recurse level : Int} {toks sub : List String}
    {halt : Option Halt} (hq : p.extends q) (hsub : ∀ u ∈ sub, u ∈ toks)
    (h : call_ok q (recurse + 1) sub proc level halt) : call_ok p recurse toks proc level halt := by
  obtain ⟨h1, h2, h3⟩ := h
  refine ⟨Proc.extends_trans hq h1, ?_, ?_⟩
  · intro c hc
    obtain ⟨hc1, u, hu, hnu⟩ := h2 c hc
    exact ⟨hc1, u, hsub u hu, hnu⟩
  · intro hn
    have := h3 hn
    omega

theorem call_ok_loop {p : Proc} {recurse : Int} {toks sub : List String}
    (hsub : ∀ u ∈ sub, u ∈ toks) (step : Option ucl_object_t → String → Proc → Ret)
    (hstep : ∀ cur np q, call_ok q (recurse + 1) sub (step cur np q).proc
      (step cur np q).recurse_level (step cur np q).halt) :
    ∀ q lvl cur np, call_ok p recurse toks q lvl none →
      call_ok p recurse toks (step (some cur) np q).proc (step (some cur) np q).recurse_level
        (step (some cur) np q).halt :=
  fun q _ cur np hq => call_ok_step hq.1 hsub (hstep (some cur) np q)

/-! ## The branches of `process_get_command` -/

theorem terminal_extends (F : Flags) (t : String) (ht : is_terminal t) (obj : Option ucl_object_t)
    (nodepath : String) (rem : List String) (recurse : Int) (p : Proc) :
    p.extends (process_get_command F obj nodepath t rem recurse p).proc := by
  unfold process_get_command
  rcases ht with h | h | h | h <;> subst h
  · rw [if_pos rfl]
    cases obj <;>
      exact Proc.extends_trans (Proc.extends_sep p)
        (Proc.extends_trans (Proc.extends_printf _ _)
          (Proc.extends_trans (Proc.extends_printf _ _) (Proc.extends_endrec F _)))
  · rw [if_neg (by decide), if_pos rfl]
    cases obj <;>
      exact Proc.extends_trans (Proc.extends_sep p)
        (Proc.extends_trans (Proc.extends_printf _ _)
          (Proc.extends_trans (Proc.extends_printf _ _) (Proc.extends_endrec F _)))
  · rw [if_neg (by decide), if_neg (by decide), if_pos rfl]
    exact keys_loop_extends F _ p
  · rw [if_neg (by decide), if_neg (by decide), if_neg (by decide), if_pos rfl]
    cases obj with
    | none => exact Proc.extends_refl p
    | some o => exact values_loop_extends F o _ (p, nodepath, 0)

theorem iterate_last_eq (F : Flags) (obj : Option ucl_object_t) (nodepath : String)
    (recurse : Int) (p : Proc) :
    process_get_command F obj nodepath "iterate" [] recurse p =
      ⟨(chunk_loop F "" (ucl_iterate_object obj false) (p, nodepath)).1,
        (chunk_loop F "" (ucl_iterate_object obj false) (p, nodepath)).2, recurse, none⟩ := by
  unfold process_get_command
  simp

theorem iterate_next_eq (F : Flags) (obj : Option ucl_object_t) (nodepath next_command : String)
    (rcmds : List String) (recurse : Int) (p : Proc) :
    process_get_command F obj nodepath "iterate" (next_command :: rcmds) recurse p =
      recurse_loop
        (fun cur np q => process_get_command F cur np next_command rcmds (recurse + 1) q)
        (ucl_iterate_object obj false) ⟨p, nodepath, recurse, none⟩ := by
  rw [process_get_command.eq_def]
  simp

theorem each_last_eq (F : Flags) (o : ucl_object_t) (nodepath : String)
    (recurse : Int) (p : Proc) :
    process_get_command F (some o) nodepath "each" [] recurse p =
      ⟨(each_loop F o (ucl_iterate_object (some o) true) (p, nodepath, 0)).1,
        (each_loop F o (ucl_iterate_object (some o) true) (p, nodepath, 0)).2.1, recurse, none⟩ := by
  unfold process_get_command
  simp

theorem each_next_eq (F : Flags) (o : ucl_object_t) (nodepath next_command : String)
    (rcmds : List String) (recurse : Int) (p : Proc) :
    process_get_command F (some o) nodepath "each" (next_command :: rcmds) recurse p =
      (each_recurse_loop F
        (fun cur np q => process_get_command F cur np next_command rcmds (recurse + 1) q)
        o (ucl_iterate_object (some o) true) (⟨p, nodepath, recurse, none⟩, 0)).1 := by
  rw [process_get_command.eq_def]
  simp

theorem each_absent_eq (F : Flags) (nodepath : String) (rem : List String)
    (recurse : Int) (p : Proc) :
    process_get_command F none nodepath "each" rem recurse p = ⟨p, nodepath, recurse, none⟩ := by
  unfold process_get_command
  cases rem <;> simp

theorem not_command_of_subpath (t : String) (ht : t.data.head? = some '.') :
    t ≠ "length" ∧ t ≠ "type" ∧ t ≠ "keys" ∧ t ≠ "values" ∧ t ≠ "iterate" ∧ t ≠ "each" := by
  refine ⟨?_, ?_, ?_, ?_, ?_, ?_⟩ <;> rintro rfl <;> simp at ht

theorem subpath_absent_next_eq (F : Flags) (nodepath t next_command : String)
    (rcmds : List String) (recurse : Int) (p : Proc) (ht : t.data.head? = some '.') :
    process_get_command F none nodepath t (next_command :: rcmds) recurse p =
      ⟨p, nodepath, recurse, some .segv⟩ := by
  obtain ⟨h1, h2, h3, h4, h5, h6⟩ := not_command_of_subpath t ht
  rw [process_get_command.eq_def]
  simp [h1, h2, h3, h4, h5, h6, ht]

theorem invalid_token_eq (F : Flags) (obj : Option ucl_object_t) (nodepath t : String)
    (rem : List String) (recurse : Int) (p : Proc) (ht : ¬ is_command t) :
    process_get_command F obj nodepath t rem recurse p = ⟨p, nodepath, recurse, some (.exit 1)⟩ := by
  unfold is_command at ht
  simp only [not_or] at ht
  obtain ⟨h1, h2, h3, h4, h5, h6, h7⟩ := ht
  unfold process_get_command
  simp [h1, h2, h3, h4, h5, h6, h7]

theorem call_ok_terminal (F : Flags) (t : String) (ht : is_terminal t) (obj : Option ucl_object_t)
    (nodepath : String) (rem : List String) (recurse : Int) (p : Proc) :
    call_ok p recurse (t :: rem) (process_get_command F obj nodepath t rem recurse p).proc
      (process_get_command F obj nodepath t rem recurse p).recurse_level
      (process_get_command F obj nodepath t rem recurse p).halt := by
  obtain ⟨hh, hl⟩ := terminal_ret F t ht obj nodepath rem recurse p
  rw [hh, hl]
  exact call_ok_return _ _ (terminal_extends F t ht obj nodepath rem recurse p)

theorem call_ok_invalid (F : Flags) (t : String) (ht : ¬ is_command t) (obj : Option ucl_object_t)
    (nodepath : String) (rem : List String) (recurse : Int) (p : Proc) :
    call_ok p recurse (t :: rem) (process_get_command F obj nodepath t rem recurse p).proc
      (process_get_command F obj nodepath t rem recurse p).recurse_level
      (process_get_command F obj nodepath t rem recurse p).halt := by
  rw [invalid_token_eq F obj nodepath t rem recurse p ht]
  refine ⟨Proc.extends_refl p, ?_, fun h => absurd h (by simp)⟩
  intro c hc
  simp only [Option.some.injEq, Halt.exit.injEq] at hc
  exact ⟨hc.symm, t, List.mem_cons_self _ _, ht⟩

theorem process_get_command_call_ok :
    ∀ (rem : List String) (F : Flags) (obj : Option ucl_object_t) (nodepath t : String)
      (recurse : Int) (p : Proc),
      call_ok p recurse (t :: rem) (process_get_command F obj nodepath t rem recurse p).proc
        (process_get_command F obj nodepath t rem recurse p).recurse_level
        (process_get_command F obj nodepath t rem recurse p).halt := by
  intro rem
  induction rem with
  | nil =>
    intro F obj nodepath t recurse p
    by_cases hcmd : is_command t
    · rcases hcmd with h | h | h | h | h | h | h
      · exact call_ok_terminal F t (Or.inl h) obj nodepath [] recurse p
      · exact call_ok_terminal F t (Or.inr (Or.inl h)) obj nodepath [] recurse p
      · exact call_ok_terminal F t (Or.inr (Or.inr (Or.inl h))) obj nodepath [] recurse p
      · exact call_ok_terminal F t (Or.inr (Or.inr (Or.inr h))) obj nodepath [] recurse p
      · subst h
        rw [iterate_last_eq]
        exact call_ok_return _ _ (chunk_loop_extends F "" _ (p, nodepath))
      · subst h
        cases obj with
        | none =>
          rw [each_absent_eq]
          exact call_ok_return _ _ (Proc.extends_refl p)
        | some o =>
          rw [each_last_eq]
          exact call_ok_return _ _ (each_loop_extends F o _ (p, nodepath, 0))
      · rw [subpath_last_calls_output_key F obj nodepath t recurse p h]
        exact call_ok_return _ _ (output_key_extends F _ _ _ p)
    · exact call_ok_invalid F t hcmd obj nodepath [] recurse p
  | cons next rcmds ih =>
    intro F obj nodepath t recurse p
    have hsub : ∀ u ∈ next :: rcmds, u ∈ t :: next :: rcmds :=
      fun u hu => List.mem_cons_of_mem _ hu
    by_cases hcmd : is_command t
    · rcases hcmd with h | h | h | h | h | h | h
      · exact call_ok_terminal F t (Or.inl h) obj nodepath _ recurse p
      · exact call_ok_terminal F t (Or.inr (Or.inl h)) obj nodepath _ recurse p
      · exact call_ok_terminal F t (Or.inr (Or.inr (Or.inl h))) obj nodepath _ recurse p
      · exact call_ok_terminal F t (Or.inr (Or.inr (Or.inr h))) obj nodepath _ recurse p
      · subst h
        rw [iterate_next_eq]
        exact recurse_loop_invariant (call_ok p recurse ("iterate" :: next :: rcmds)) _
          (call_ok_loop hsub _ (fun cur np q => ih F cur np next (recurse + 1) q)) _
          ⟨p, nodepath, recurse, none⟩ (call_ok_return _ _ (Proc.extends_refl p))
      · subst h
        cases obj with
        | none =>
          rw [each_absent_eq]
          exact call_ok_return _ _ (Proc.extends_refl p)
        | some o =>
          rw [each_next_eq]
          exact each_recurse_loop_invariant (call_ok p recurse ("each" :: next :: rcmds)) F _ o
            (call_ok_loop hsub _ (fun cur np q => ih F cur np next (recurse + 1) q)) _
            (⟨p, nodepath, recurse, none⟩, 0) (call_ok_return _ _ (Proc.extends_refl p))
      · cases obj with
        | none =>
          rw [subpath_absent_next_eq F nodepath t next rcmds recurse p h]
          exact ⟨Proc.extends_refl p, fun c hc => absurd hc (by simp), fun h => absurd h (by simp)⟩
        | some o =>
          rw [subpath_then_next F o nodepath t next rcmds recurse p h]
          exact call_ok_step (Proc.extends_refl p) hsub (ih F _ _ next (recurse + 1) p)
    · exact call_ok_invalid F t hcmd obj nodepath _ recurse p

/-! ## Invalid tokens -/

theorem exit_of_step (p : Proc) (step : Option ucl_object_t → String → Proc → Ret)
    (hext : ∀ (cur : Option ucl_object_t) (np : String) (q : Proc),
      q.extends (step cur np q).proc) :
    ∀ (q : Proc) (_lvl : Int) (cur : ucl_object_t) (np : String),
      (p.extends q ∧ ∀ c, (none : Option Halt) = some (.exit c) →
        ∃ cur2 np2 q2, p.extends q2 ∧ (step cur2 np2 q2).halt = some (.exit c)) →
      (p.extends (step (some cur) np q).proc ∧
        ∀ c, (step (some cur) np q).halt = some (.exit c) →
          ∃ cur2 np2 q2, p.extends q2 ∧ (step cur2 np2 q2).halt = some (.exit c)) :=
  fun q _ cur np hq =>
    ⟨Proc.extends_trans hq.1 (hext (some cur) np q), fun _ hc => ⟨some cur, np, q, hq.1, hc⟩⟩

theorem valid_last_token_returns (F : Flags) (obj : Option ucl_object_t) (nodepath t : String)
    (recurse : Int) (p : Proc) (ht : is_command t) :
    (process_get_command F obj nodepath t [] recurse p).halt = none ∧
      (process_get_command F obj nodepath t [] recurse p).recurse_level = recurse := by
  rcases ht with h | h | h | h | h | h | h
  · exact terminal_ret F t (Or.inl h) obj nodepath [] recurse p
  · exact terminal_ret F t (Or.inr (Or.inl h)) obj nodepath [] recurse p
  · exact terminal_ret F t (Or.inr (Or.inr (Or.inl h))) obj nodepath [] recurse p
  · exact terminal_ret F t (Or.inr (Or.inr (Or.inr h))) obj nodepath [] recurse p
  · subst h
    rw [iterate_last_eq]
    exact ⟨rfl, rfl⟩
  · subst h
    cases obj with
    | none => rw [each_absent_eq]; exact ⟨rfl, rfl⟩
    | some o => rw [each_last_eq]; exact ⟨rfl, rfl⟩
  · rw [subpath_last_calls_output_key F obj nodepath t recurse p h]
    exact ⟨rfl, rfl⟩

theorem exit_comes_from_nested_call (F : Flags) (obj : Option ucl_object_t) (nodepath t : String)
    (next : String) (rcmds : List String) (recurse : Int) (p : Proc) (ht : is_command t) (c : Nat)
    (hc : (process_get_command F obj nodepath t (next :: rcmds) recurse p).halt = some (.exit c)) :
    ∃ cur np q, p.extends q ∧
      (process_get_command F cur np next rcmds (recurse + 1) q).halt = some (.exit c) := by
  have hext : ∀ (cur : Option ucl_object_t) (np : String) (q : Proc),
      q.extends (process_get_command F cur np next rcmds (recurse + 1) q).proc :=
    fun cur np q => (process_get_command_call_ok rcmds F cur np next (recurse + 1) q).1
  rcases ht with h | h | h | h | h | h | h
  · rw [(terminal_ret F t (Or.inl h) obj nodepath _ recurse p).1] at hc; simp at hc
  · rw [(terminal_ret F t (Or.inr (Or.inl h)) obj nodepath _ recurse p).1] at hc; simp at hc
  · rw [(terminal_ret F t (Or.inr (Or.inr (Or.inl h))) obj nodepath _ recurse p).1] at hc
    simp at hc
  · rw [(terminal_ret F t (Or.inr (Or.inr (Or.inr h))) obj nodepath _ recurse p).1] at hc
    simp at hc
  · subst h
    rw [iterate_next_eq] at hc
    exact (recurse_loop_invariant
      (fun q _ hh => p.extends q ∧ ∀ c, hh = some (.exit c) →
        ∃ cur2 np2 q2, p.extends q2 ∧
          (process_get_command F cur2 np2 next rcmds (recurse + 1) q2).halt = some (.exit c))
      _ (exit_of_step p _ hext) _ ⟨p, nodepath, recurse, none⟩
      ⟨Proc.extends_refl p, fun _ h0 => absurd h0 (by simp)⟩).2 c hc
  · subst h
    cases obj with
    | none => rw [each_absent_eq] at hc; simp at hc
    | some o =>
      rw [each_next_eq] at hc
      exact (each_recurse_loop_invariant
        (fun q _ hh => p.extends q ∧ ∀ c, hh = some (.exit c) →
          ∃ cur2 np2 q2, p.extends q2 ∧
            (process_get_command F cur2 np2 next rcmds (recurse + 1) q2).halt = some (.exit c))
        F _ o (exit_of_step p _ hext) _ (⟨p, nodepath, recurse, none⟩, 0)
        ⟨Proc.extends_refl p, fun _ h0 => absurd h0 (by simp)⟩).2 c hc
  · cases obj with
    | none => rw [subpath_absent_next_eq F nodepath t next rcmds recurse p h] at hc; simp at hc
    | some o =>
      rw [subpath_then_next F o nodepath t next rcmds recurse p h] at hc
      exact ⟨_, _, p, Proc.extends_refl p, hc⟩

/-! ## Bare paths -/

theorem strsep_tokens_aux_no_pipe :
    ∀ (cs cur : List Char), '|' ∉ cs →
      strsep_tokens_aux cs cur = [String.mk (cur.reverse ++ cs)] := by
  intro cs
  induction cs with
  | nil => intro cur _; simp [strsep_tokens_aux]
  | cons c cs ih =>
    intro cur h
    have hc : c ≠ '|' := fun e => h (e ▸ List.mem_cons_self _ _)
    have hcs : '|' ∉ cs := fun e => h (List.mem_cons_of_mem _ e)
    rw [strsep_tokens_aux, if_neg hc, ih (c :: cur) hcs]
    simp

theorem strsep_tokens_no_pipe (s : String) (h : '|' ∉ s.data) : strsep_tokens s = [s] := by
  unfold strsep_tokens
  rw [strsep_tokens_aux_no_pipe s.data [] h]
  simp

theorem string_length_eq_zero (s : String) : s.length = 0 ↔ s = "" := by
  cases s with
  | mk d =>
    constructor
    · intro h
      have : d = [] := List.length_eq_zero.mp h
      subst this
      rfl
    · intro h
      rw [h]
      rfl

theorem get_mode_target_eq (root_obj : Option ucl_object_t) (node_name : String) :
    (if node_name.length = 0 then (root_obj, "")
      else if node_name = "." then (root_obj, "")
      else
        (ucl_lookup_path root_obj
          (if node_name.data.head? = some '.' then String.mk node_name.data.tail else node_name),
          if node_name.data.head? = some '.' then String.mk node_name.data.tail else node_name)) =
      (requested_target root_obj node_name, requested_path node_name) := by
  unfold requested_target requested_path
  by_cases h1 : node_name = ""
  · simp [h1]
  · have h1' : ¬ node_name.length = 0 := fun e => h1 ((string_length_eq_zero _).mp e)
    by_cases h2 : node_name = "."
    · simp [h2]
    · simp [h1, h1', h2]

theorem get_mode_chain_eq (F : Flags) (root_obj : Option ucl_object_t) (node_name : String)
    (chain : List String) (p : Proc) :
    get_mode_chain F root_obj node_name chain p =
      (match (get_mode_loop F (requested_target root_obj node_name) chain.length chain
          ⟨p, requested_path node_name, 0, none⟩).halt with
        | some h =>
          ((get_mode_loop F (requested_target root_obj node_name) chain.length chain
            ⟨p, requested_path node_name, 0, none⟩).proc, some h)
        | none =>
          if (get_mode_loop F (requested_target root_obj node_name) chain.length chain
              ⟨p, requested_path node_name, 0, none⟩).command_count = 0 then
            ((output_chunk F (requested_target root_obj node_name)
              (get_mode_loop F (requested_target root_obj node_name) chain.length chain
                ⟨p, requested_path node_name, 0, none⟩).nodepath ""
              (get_mode_loop F (requested_target root_obj node_name) chain.length chain
                ⟨p, requested_path node_name, 0, none⟩).proc).1, none)
          else
            ((get_mode_loop F (requested_target root_obj node_name) chain.length chain
              ⟨p, requested_path node_name, 0, none⟩).proc, none)) := by
  unfold get_mode_chain
  simp only [get_mode_target_eq]

theorem get_mode_loop_counts (F : Flags) (found : Option ucl_object_t) :
    ∀ (fuel : Nat) (chain : List String) (s : LoopState),
      (get_mode_loop F found fuel chain s).halt = none → chain ≠ [] →
        s.command_count < (get_mode_loop F found fuel chain s).command_count := by
  have key : ∀ (fuel : Nat) (chain : List String) (s : LoopState),
      (get_mode_loop F found fuel chain s).halt = none →
        s.command_count ≤ (get_mode_loop F found fuel chain s).command_count ∧
          (chain ≠ [] → s.command_count < (get_mode_loop F found fuel chain s).command_count) := by
    intro fuel
    induction fuel with
    | zero =>
      intro chain s h
      cases chain with
      | nil => simp [get_mode_loop]
      | cons c cs => simp [get_mode_loop] at h
    | succ n ih =>
      intro chain s h
      cases chain with
      | nil => simp [get_mode_loop]
      | cons c cs =>
        rw [get_mode_loop] at h ⊢
        obtain ⟨_, _, h3⟩ := process_get_command_call_ok cs F found s.nodepath c 1 s.proc
        cases hh : (process_get_command F found s.nodepath c cs 1 s.proc).halt with
        | some x => simp [hh] at h
        | none =>
          simp only [hh] at h ⊢
          have hlevel := h3 hh
          have := (ih _ _ h).1
          simp only at this
          constructor
          · omega
          · intro _
            omega
  intro fuel chain s h hne
  exact (key fuel chain s h).2 hne

/-- C12 (counterexample): with show-keys, on the document
`{"arr": [10, 20], "k": 1}` the request `.k` is written as `k=1`, at the display
path `k`; at the display path equal to the requested path, `.k`, the record
would be `.k=1`.  The request `.` is written at the empty display path. -/
theorem bare_path_display_path_strips_dot :
    (get_mode keys_flags (some doc_arr) ".k" Proc.init).1.out = "k=1\n" ∧
      (output_chunk keys_flags (ucl_lookup_path (some doc_arr) ".k") ".k" ""
        Proc.init).1.out = ".k=1\n" ∧
      (get_mode keys_flags (some doc_arr) "." Proc.init).1.out = "=\x7bobject\x7d\n" := by
  decide

/-- C12 (amended): for every request string without a pipe, `get_mode` makes
exactly one call of `output_chunk`, on the resolved target node, with an empty
key suffix and at the display path that is the requested path without its
leading `.` (empty for the requests `` and `.`), and returns; for every request
with at least one command token the result is the one of the loop over the
chain, the target node not being written by this fallback. -/
theorem get_mode_bare_path (F : Flags) (root_obj : Option ucl_object_t) (p : Proc) :
    (∀ s : String, '|' ∉ s.data →
        get_mode F root_obj s p =
          ((output_chunk F (requested_target root_obj s) (requested_path s) "" p).1, none)) ∧
      (∀ (node_name : String) (chain : List String), chain ≠ [] →
        get_mode_chain F root_obj node_name chain p =
          ((get_mode_loop F (requested_target root_obj node_name) chain.length chain
              ⟨p, requested_path node_name, 0, none⟩).proc,
            (get_mode_loop F (requested_target root_obj node_name) chain.length chain
              ⟨p, requested_path node_name, 0, none⟩).halt)) := by
  constructor
  · intro s hs
    unfold get_mode
    rw [strsep_tokens_no_pipe s hs]
    simp only
    rw [get_mode_chain_eq]
    simp [get_mode_loop]
  · intro node_name chain hne
    rw [get_mode_chain_eq]
    cases hh : (get_mode_loop F (requested_target root_obj node_name) chain.length chain
        ⟨p, requested_path node_name, 0, none⟩).halt with
    | some x => simp
    | none =>
      have := get_mode_loop_counts F (requested_target root_obj node_name) chain.length chain
        ⟨p, requested_path node_name, 0, none⟩ hh hne
      simp only at this
      have hne0 : (get_mode_loop F (requested_target root_obj node_name) chain.length chain
          ⟨p, requested_path node_name, 0, none⟩).command_count ≠ 0 := by omega
      simp [hne0]

/-- C12 (witness): with show-keys, on `{"arr": [10, 20], "k": 1}` the request
`k` is written once, as `k=1`; the request `k|type` writes the type and not the
node. -/
theorem get_mode_bare_path_witness :
    (get_mode keys_flags (some doc_arr) "k" Proc.init).1.out = "k=1\n" ∧
      (get_mode_chain keys_flags (some doc_arr) "k" ["type"] Proc.init).1.out = "k=int\n" :=
  ⟨(congrArg (fun r => r.1.out)
      ((get_mode_bare_path keys_flags (some doc_arr) Proc.init).1 "k" (by decide))).trans
      (by decide),
    (congrArg (fun r => r.1.out)
      ((get_mode_bare_path keys_flags (some doc_arr) Proc.init).2 "k" ["type"]
        (by decide))).trans (by decide)⟩

/-! ## Dotted paths -/

theorem path_segments_aux_run (K : List Char) (hK : '.' ∉ K) :
    ∀ (rest cur : List Char),
      path_segments_aux (K ++ rest) cur = path_segments_aux rest (K.reverse ++ cur) := by
  induction K with
  | nil => intro rest cur; simp
  | cons c K ih =>
    intro rest cur
    have hc : c ≠ '.' := fun e => hK (e ▸ List.mem_cons_self _ _)
    have hK' : '.' ∉ K := fun e => hK (List.mem_cons_of_mem _ e)
    rw [List.cons_append, path_segments_aux, if_neg hc, ih hK']
    simp

theorem path_segments_dotted :
    ∀ (ks : List String), (∀ k ∈ ks, is_segment k) →
      path_segments_aux (dotted_chars ks) [] = ks := by
  intro ks
  induction ks with
  | nil => intro _; rfl
  | cons k ks ih =>
    intro h
    obtain ⟨hne, hdot⟩ := h k (List.mem_cons_self _ _)
    have hks : ∀ x ∈ ks, is_segment x := fun x hx => h x (List.mem_cons_of_mem _ hx)
    cases ks with
    | nil =>
      have := path_segments_aux_run k.data hdot [] []
      simp only [List.append_nil] at this
      rw [dotted_chars, this, path_segments_aux]
      simp [hne]
    | cons k2 ks =>
      rw [dotted_chars, path_segments_aux_run k.data hdot, path_segments_aux]
      simp only [if_true, List.append_nil, List.reverse_eq_nil_iff, hne, if_false,
        List.reverse_reverse]
      rw [ih hks]

theorem strrchr_no_dot (K : List Char) (hK : '.' ∉ K) : strrchr '.' K = none := by
  induction K with
  | nil => rfl
  | cons c K ih =>
    have hc : c ≠ '.' := fun e => hK (e ▸ List.mem_cons_self _ _)
    have hK' : '.' ∉ K := fun e => hK (List.mem_cons_of_mem _ e)
    rw [strrchr, ih hK']
    simp [hc]

theorem strrchr_last_dot (K : List Char) (hK : '.' ∉ K) :
    ∀ (A : List Char), strrchr '.' (A ++ '.' :: K) = some (A, '.' :: K) := by
  intro A
  induction A with
  | nil =>
    rw [List.nil_append, strrchr, strrchr_no_dot K hK]
    simp
  | cons a A ih =>
    rw [List.cons_append, strrchr, ih]

theorem dotted_chars_snoc :
    ∀ (ks : List String) (k : String), ks ≠ [] →
      dotted_chars (ks ++ [k]) = dotted_chars ks ++ '.' :: k.data := by
  intro ks
  induction ks with
  | nil => intro k h; exact absurd rfl h
  | cons x xs ih =>
    intro k _
    cases xs with
    | nil => simp [dotted_chars]
    | cons y ys =>
      have := ih k (List.cons_ne_nil _ _)
      simp only [List.cons_append] at this ⊢
      rw [dotted_chars, this, dotted_chars]
      simp

theorem find_key_index :
    ∀ (members : List ucl_object_t) (k : String),
      members.find? (fun m => decide (m.key = some k)) =
        (key_index members k).bind (fun i => members.get? i) := by
  intro members k
  induction members with
  | nil => rfl
  | cons m ms ih =>
    rw [List.find?_cons, key_index]
    by_cases h : m.key = some k
    · simp [h]
    · simp only [h, decide_False, if_false]
      rw [ih]
      cases key_index ms k <;> simp

theorem find_key_some (top c : ucl_object_t) (k : String)
    (h : ucl_object_find_key (some top) k = some c) :
    ∃ members i, top.value = .ov members ∧ key_index members k = some i ∧
      members.get? i = some c := by
  unfold ucl_object_find_key at h
  simp only at h
  cases hv : top.value with
  | ov members =>
    rw [hv] at h
    simp only at h
    rw [find_key_index] at h
    cases hi : key_index members k with
    | none => simp [hi] at h
    | some i =>
      rw [hi] at h
      exact ⟨members, i, rfl, hi, h⟩
  | _ => rw [hv] at h; simp at h

theorem node_at_snoc :
    ∀ (L : List Nat) (top : ucl_object_t) (i : Nat),
      node_at top (L ++ [i]) = (node_at top L).bind (fun P => (children P).get? i) := by
  intro L
  induction L with
  | nil =>
    intro top i
    simp only [List.nil_append, node_at, Option.some_bind]
    cases (children top).get? i <;> rfl
  | cons j L ih =>
    intro top i
    simp only [List.cons_append, node_at]
    cases (children top).get? j with
    | none => rfl
    | some c => exact ih c i

theorem walk_keys_snoc :
    ∀ (ks : List String) (top : ucl_object_t) (k : String),
      walk_keys top (ks ++ [k]) =
        (walk_keys top ks).bind (fun P => ucl_object_find_key (some P) k) := by
  intro ks
  induction ks with
  | nil =>
    intro top k
    simp only [List.nil_append, walk_keys, Option.some_bind]
    cases ucl_object_find_key (some top) k <;> rfl
  | cons x xs ih =>
    intro top k
    simp only [List.cons_append, walk_keys]
    cases ucl_object_find_key (some top) x with
    | none => rfl
    | some c => exact ih c k

theorem walk_keys_loc :
    ∀ (ks : List String) (top node : ucl_object_t), walk_keys top ks = some node →
      ∃ L, ucl_lookup_loc top ks = some L ∧ node_at top L = some node := by
  intro ks
  induction ks with
  | nil =>
    intro top node h
    simp only [walk_keys, Option.some.injEq] at h
    exact ⟨[], rfl, by rw [node_at, h]⟩
  | cons k ks ih =>
    intro top node h
    rw [walk_keys] at h
    cases hf : ucl_object_find_key (some top) k with
    | none => simp [hf] at h
    | some c =>
      rw [hf] at h
      simp only at h
      obtain ⟨members, i, hv, hi, hg⟩ := find_key_some top c k hf
      obtain ⟨L, hL, hn⟩ := ih c node h
      have hch : children top = members := by simp [children, hv]
      have hg' : members[i]? = some c := by simpa using hg
      refine ⟨i :: L, ?_, ?_⟩
      · rw [ucl_lookup_loc]
        simp [ucl_lookup_step_loc, hv, hi, hch, hg', hL]
      · rw [node_at]
        simp [hch, hg', hn]

/-- C13: for every document and every dotted path `k1.k2...kn` (`n >= 1`, every
`ki` a non-empty segment without `.`) whose keys all exist along the walk,
`get_object` returns the node reached by looking `k1` up in the root, then `k2`
in the result, and so on to `kn`.  A walk by keys only succeeds through
objects. -/
theorem get_object_walks_keys (root node : ucl_object_t) (ks : List String) (hne : ks ≠ [])
    (hseg : ∀ k ∈ ks, is_segment k) (hwalk : walk_keys root ks = some node) :
    get_object (some root) (dotted ks) = .ok (some node) := by
  rcases List.eq_nil_or_concat ks with rfl | ⟨init, k, rfl⟩
  · exact absurd rfl hne
  · rw [List.concat_eq_append] at hne hseg hwalk ⊢
    obtain ⟨hkne, hkdot⟩ := hseg k (by simp)
    have hinit : ∀ x ∈ init, is_segment x := fun x hx => hseg x (by simp [hx])
    rw [walk_keys_snoc] at hwalk
    cases hP : walk_keys root init with
    | none => simp [hP] at hwalk
    | some P =>
      rw [hP] at hwalk
      simp only [Option.some_bind] at hwalk
      obtain ⟨members, i, hv, hi, hg⟩ := find_key_some P node k hwalk
      have hch : children P = members := by simp [children, hv]
      have hg' : members[i]? = some node := by simpa using hg
      have hsel : select_child P k.data = some i := by
        simp [select_child, hv, hi]
      unfold get_object
      simp only
      congr 1
      unfold get_object_loc dotted
      cases init with
      | nil =>
        simp only [walk_keys, Option.some.injEq] at hP
        subst hP
        simp only [List.nil_append, dotted_chars]
        rw [strrchr_no_dot k.data hkdot]
        simp only [hsel]
        simp [node_at, hch, hg']
      | cons x xs =>
        rw [dotted_chars_snoc (x :: xs) k (List.cons_ne_nil _ _),
          strrchr_last_dot k.data hkdot]
        obtain ⟨L, hL, hn⟩ := walk_keys_loc (x :: xs) root P hP
        have hseg' : path_segments (String.mk (dotted_chars (x :: xs))) = x :: xs :=
          path_segments_dotted (x :: xs) hinit
        simp only [List.length_cons, Nat.add_one_ne_zero, if_false, ucl_lookup_path_loc, hseg',
          hL, hn, List.tail_cons, hsel]
        rw [Option.some_bind, node_at_snoc, hn]
        simp [hch, hg']

/-- C13 (witness): on the document `{"a": {"b": {"c": [1, 2]}}}` the path
`a.b.c` is made of three segments, the walk by `a`, `b`, `c` reaches the array,
and `get_object` returns that array. -/
theorem get_object_walks_keys_witness :
    walk_keys doc_abc ["a", "b", "c"] = some (arr_node (some "c") [int_node 1, int_node 2]) ∧
      get_object (some doc_abc) "a.b.c" =
        .ok (some (arr_node (some "c") [int_node 1, int_node 2])) :=
  ⟨rfl,
    get_object_walks_keys doc_abc (arr_node (some "c") [int_node 1, int_node 2]) ["a", "b", "c"]
      (by decide) (by unfold is_segment; decide) rfl⟩

/-! ## Pointers and changes in place -/

theorem modify_nth_length (f : ucl_object_t → ucl_object_t) :
    ∀ (l : List ucl_object_t) (i : Nat), (modify_nth f l i).length = l.length := by
  intro l
  induction l with
  | nil => intro i; rfl
  | cons x xs ih =>
    intro i
    cases i with
    | zero => rfl
    | succ i => simp [modify_nth, ih]

theorem modify_nth_get (f : ucl_object_t → ucl_object_t) :
    ∀ (l : List ucl_object_t) (i : Nat) (x : ucl_object_t), l.get? i = some x →
      (modify_nth f l i).get? i = some (f x) := by
  intro l
  induction l with
  | nil => intro i x h; simp at h
  | cons y ys ih =>
    intro i x h
    cases i with
    | zero =>
      simp only [List.get?_cons_zero, Option.some.injEq] at h
      subst h
      rfl
    | succ i =>
      simp only [List.get?_cons_succ] at h
      simp only [modify_nth, List.get?_cons_succ]
      exact ih i x h

theorem modify_nth_id (f : ucl_object_t → ucl_object_t) :
    ∀ (l : List ucl_object_t) (i : Nat), (∀ x, l.get? i = some x → f x = x) →
      modify_nth f l i = l := by
  intro l
  induction l with
  | nil => intro i _; rfl
  | cons y ys ih =>
    intro i h
    cases i with
    | zero =>
      rw [modify_nth, h y rfl]
    | succ i =>
      rw [modify_nth, ih i (fun x hx => h x (by simpa using hx))]

theorem key_index_modify_nth (f : ucl_object_t → ucl_object_t) (k : String) :
    ∀ (l : List ucl_object_t) (i : Nat), (∀ x, l.get? i = some x → (f x).key = x.key) →
      key_index (modify_nth f l i) k = key_index l k := by
  intro l
  induction l with
  | nil => intro i _; rfl
  | cons y ys ih =>
    intro i h
    cases i with
    | zero =>
      rw [modify_nth, key_index, key_index, h y rfl]
    | succ i =>
      rw [modify_nth, key_index, key_index, ih i (fun x hx => h x (by simpa using hx))]

theorem key_index_get :
    ∀ (l : List ucl_object_t) (k : String) (i : Nat), key_index l k = some i →
      ∃ x, l.get? i = some x ∧ x.key = some k := by
  intro l
  induction l with
  | nil => intro k i h; simp [key_index] at h
  | cons y ys ih =>
    intro k i h
    rw [key_index] at h
    by_cases hy : y.key = some k
    · simp only [hy, if_true, Option.some.injEq] at h
      subst h
      exact ⟨y, rfl, hy⟩
    · simp only [hy, if_false, Option.map_eq_some'] at h
      obtain ⟨j, hj, rfl⟩ := h
      obtain ⟨x, hx, hk⟩ := ih k j hj
      exact ⟨x, by simpa using hx, hk⟩

theorem set_children_key (top : ucl_object_t) (cs : List ucl_object_t) :
    (set_children top cs).key = top.key := by
  obtain ⟨k, v, n⟩ := top
  cases v <;> rfl

theorem set_children_children (top : ucl_object_t) :
    set_children top (children top) = top := by
  obtain ⟨k, v, n⟩ := top
  cases v <;> rfl

theorem modify_at_key (g : ucl_object_t → ucl_object_t) (hg : ∀ x, (g x).key = x.key) :
    ∀ (M : List Nat) (top : ucl_object_t), (modify_at g top M).key = top.key := by
  intro M
  cases M with
  | nil => intro top; exact hg top
  | cons i M => intro top; rw [modify_at, set_children_key]

theorem modify_at_id (g : ucl_object_t → ucl_object_t) :
    ∀ (M : List Nat) (top x : ucl_object_t), node_at top M = some x → g x = x →
      modify_at g top M = top := by
  intro M
  induction M with
  | nil =>
    intro top x h hx
    simp only [node_at, Option.some.injEq] at h
    subst h
    exact hx
  | cons i M ih =>
    intro top x h hx
    rw [node_at] at h
    have hid : modify_nth (fun c => modify_at g c M) (children top) i = children top := by
      apply modify_nth_id
      intro c hc
      rw [hc] at h
      exact ih c x h hx
    rw [modify_at, hid, set_children_children]

theorem step_loc_children (top : ucl_object_t) (seg : String) (i : Nat)
    (h : ucl_lookup_step_loc top seg = some i) (cs : List ucl_object_t)
    (hlen : cs.length = (children top).length)
    (hkey : ∀ k, key_index cs k = key_index (children top) k) :
    ucl_lookup_step_loc (set_children top cs) seg = some i ∧
      children (set_children top cs) = cs := by
  obtain ⟨k, v, n⟩ := top
  cases v with
  | ov members =>
    refine ⟨?_, rfl⟩
    simp only [ucl_lookup_step_loc, ucl_object_t.value, children, set_children] at h hkey ⊢
    rw [hkey]
    exact h
  | av elems =>
    refine ⟨?_, rfl⟩
    simp only [ucl_lookup_step_loc, ucl_object_t.value, children, set_children] at h hlen ⊢
    rw [hlen]
    exact h
  | _ => simp [ucl_lookup_step_loc, ucl_object_t.value] at h

theorem lookup_loc_modify (g : ucl_object_t → ucl_object_t) (hg : ∀ x, (g x).key = x.key)
    (extra : List Nat) :
    ∀ (segs : List String) (top : ucl_object_t) (L : List Nat),
      ucl_lookup_loc top segs = some L →
        ucl_lookup_loc (modify_at g top (L ++ extra)) segs = some L := by
  intro segs
  induction segs with
  | nil =>
    intro top L h
    simp only [ucl_lookup_loc, Option.some.injEq] at h
    subst h
    rfl
  | cons seg rest ih =>
    intro top L h
    rw [ucl_lookup_loc] at h
    cases hs : ucl_lookup_step_loc top seg with
    | none => simp [hs] at h
    | some i =>
      rw [hs] at h
      simp only at h
      cases hc : (children top).get? i with
      | none =>
        rw [hc] at h
        simp at h
      | some c =>
        rw [hc] at h
        simp only [Option.map_eq_some'] at h
        obtain ⟨L', hL', rfl⟩ := h
        rw [List.cons_append, modify_at]
        obtain ⟨h1, h2⟩ := step_loc_children top seg i hs
          (modify_nth (fun c => modify_at g c (L' ++ extra)) (children top) i)
          (modify_nth_length _ _ _)
          (fun k => key_index_modify_nth _ k _ _ (fun x _ => modify_at_key g hg _ x))
        rw [ucl_lookup_loc, h1, h2]
        simp only
        rw [modify_nth_get _ _ _ _ hc]
        simp only
        rw [ih c L' hL']
        rfl

theorem node_at_modify (g : ucl_object_t → ucl_object_t) (extra : List Nat) :
    ∀ (L : List Nat) (top P : ucl_object_t), node_at top L = some P →
      node_at (modify_at g top (L ++ extra)) L = some (modify_at g P extra) := by
  intro L
  induction L with
  | nil =>
    intro top P h
    simp only [node_at, Option.some.injEq] at h
    subst h
    rfl
  | cons i L ih =>
    intro top P h
    rw [node_at] at h
    cases hc : (children top).get? i with
    | none =>
      rw [hc] at h
      simp at h
    | some c =>
      rw [hc] at h
      simp only at h
      have hcont : children (set_children top
          (modify_nth (fun c => modify_at g c (L ++ extra)) (children top) i)) =
          modify_nth (fun c => modify_at g c (L ++ extra)) (children top) i := by
        obtain ⟨k, v, n⟩ := top
        cases v <;> rfl
      rw [List.cons_append, modify_at, node_at, hcont, modify_nth_get _ _ _ _ hc]
      exact ih c P h

/-! ## Resolving parent and target -/

theorem get_object_loc_eq (root : ucl_object_t) (path : String) :
    get_object_loc root path =
      (get_parent_loc root path).bind (fun L =>
        (node_at root L).map (fun P =>
          match select_child P (final_segment path) with
          | some i => L ++ [i]
          | none => L)) := by
  unfold get_object_loc get_parent_loc final_segment
  cases hs : strrchr '.' path.data with
  | none =>
    simp only [Option.some_bind, node_at, Option.map_some']
    cases select_child root path.data <;> rfl
  | some r =>
    obtain ⟨pre, frag⟩ := r
    simp only
    by_cases hf : frag.length = 0
    · simp only [hf, if_true, Option.some_bind, node_at, Option.map_some']
      cases select_child root path.data <;> rfl
    · simp only [hf, if_false]
      cases hl : ucl_lookup_path_loc root (String.mk pre) with
      | none => rfl
      | some l =>
        simp only [Option.some_bind]
        cases hn : node_at root l with
        | none => rfl
        | some P =>
          simp only [Option.map_some']
          cases select_child P frag.tail <;> rfl

theorem get_parent_loc_modify (g : ucl_object_t → ucl_object_t) (hg : ∀ x, (g x).key = x.key)
    (extra : List Nat) (root : ucl_object_t) (path : String) (L : List Nat)
    (h : get_parent_loc root path = some L) :
    get_parent_loc (modify_at g root (L ++ extra)) path = some L := by
  unfold get_parent_loc at h ⊢
  cases hs : strrchr '.' path.data with
  | none => rw [hs] at h; exact h
  | some r =>
    obtain ⟨pre, frag⟩ := r
    rw [hs] at h
    simp only at h ⊢
    by_cases hf : frag.length = 0
    · simp only [hf, if_true] at h ⊢
      exact h
    · simp only [hf, if_false] at h ⊢
      unfold ucl_lookup_path_loc at h ⊢
      cases hp : path_segments (String.mk pre) with
      | nil => rw [hp] at h; simp at h
      | cons seg rest =>
        rw [hp] at h
        simp only at h ⊢
        exact lookup_loc_modify g hg extra (seg :: rest) root L h

theorem get_object_of_child (root P x : ucl_object_t) (path : String) (L : List Nat) (i : Nat)
    (hpar : get_parent_loc root path = some L) (hP : node_at root L = some P)
    (hsel : select_child P (final_segment path) = some i)
    (hx : (children P).get? i = some x) :
    get_object (some root) path = .ok (some x) ∧ get_object_loc root path = some (L ++ [i]) := by
  have hloc : get_object_loc root path = some (L ++ [i]) := by
    rw [get_object_loc_eq, hpar, Option.some_bind, hP, Option.map_some', hsel]
  refine ⟨?_, hloc⟩
  unfold get_object
  simp only [hloc, Option.some_bind]
  rw [node_at_snoc, hP, Option.some_bind, hx]

theorem resolve_child (root P old : ucl_object_t) (path : String)
    (hpar : get_parent (some root) path = some P)
    (hobj : get_object (some root) path = .ok (some old))
    (hP : P.type = .UCL_OBJECT) (hold : old.type ≠ .UCL_OBJECT) :
    ∃ L pk members pn i,
      get_parent_loc root path = some L ∧ node_at root L = some P ∧
        P = .mk pk (.ov members) pn ∧
        key_index members (String.mk (final_segment path)) = some i ∧
        members.get? i = some old ∧ old.key = some (String.mk (final_segment path)) ∧
        get_object_loc root path = some (L ++ [i]) := by
  unfold get_parent at hpar
  simp only at hpar
  cases hL : get_parent_loc root path with
  | none => rw [hL] at hpar; simp at hpar
  | some L =>
    rw [hL, Option.some_bind] at hpar
    unfold get_object at hobj
    simp only [Except.ok.injEq] at hobj
    rw [get_object_loc_eq, hL, Option.some_bind, hpar, Option.map_some', Option.some_bind] at hobj
    obtain ⟨pk, pv, pn⟩ := P
    cases pv with
    | ov members =>
      cases hsel : select_child (.mk pk (.ov members) pn) (final_segment path) with
      | none =>
        rw [hsel] at hobj
        simp only at hobj
        rw [hpar, Option.some.injEq] at hobj
        rw [← hobj] at hold
        exact absurd hP hold
      | some i =>
        rw [hsel] at hobj
        simp only at hobj
        rw [node_at_snoc, hpar, Option.some_bind] at hobj
        have hki : key_index members (String.mk (final_segment path)) = some i := by
          simpa [select_child, ucl_object_t.value] using hsel
        have hget : members.get? i = some old := by
          simpa [children, ucl_object_t.value] using hobj
        obtain ⟨x, hx, hxk⟩ := key_index_get members _ i hki
        rw [hget, Option.some.injEq] at hx
        subst hx
        refine ⟨L, pk, members, pn, i, rfl, hpar, rfl, hki, hget, hxk, ?_⟩
        rw [get_object_loc_eq, hL, Option.some_bind, hpar, Option.map_some', hsel]
    | _ => simp [ucl_object_t.type, ucl_object_t.value] at hP

/-! ## `merge` of scalars -/

theorem replace_key_key (elt : ucl_object_t) (key : Option String) :
    ∀ x, ((ucl_object_replace_key x elt key).1).key = x.key := by
  intro x
  obtain ⟨k, v, n⟩ := x
  unfold ucl_object_replace_key
  cases key with
  | none => rfl
  | some kk =>
    cases v with
    | ov members =>
      simp only
      cases key_index members kk <;> rfl
    | _ => rfl

theorem array_append_key (elt : ucl_object_t) :
    ∀ x, ((ucl_array_append x elt).1).key = x.key := by
  intro x
  obtain ⟨k, v, n⟩ := x
  cases v <;> rfl

theorem merge_scalar_into_scalar (L : Lib) (root old : ucl_object_t) (path data : String)
    (p : Proc) (Lp : List Nat) (pk : Option String) (members : List ucl_object_t)
    (pn : Option ucl_object_t) (i : Nat)
    (hpar : get_parent_loc root path = some Lp)
    (hP : node_at root Lp = some (.mk pk (.ov members) pn))
    (hki : key_index members (String.mk (final_segment path)) = some i)
    (hget : members.get? i = some old)
    (hkey : old.key = some (String.mk (final_segment path)))
    (hold : old.type ≠ .UCL_OBJECT ∧ old.type ≠ .UCL_ARRAY) (hdata : data ≠ "-")
    (hnew : (L.ucl_object_fromstring_common data).type ≠ .UCL_OBJECT ∧
      (L.ucl_object_fromstring_common data).type ≠ .UCL_ARRAY) :
    merge_mode L (some root) path (some data) p =
        ⟨some (modify_at
            (fun d => (ucl_object_replace_key d
              (.mk none (.av [old, L.ucl_object_fromstring_common data]) none) old.key).1)
            root Lp), p, true, none⟩ ∧
      get_object
          (some (modify_at
            (fun d => (ucl_object_replace_key d
              (.mk none (.av [old, L.ucl_object_fromstring_common data]) none) old.key).1)
            root Lp)) path =
        .ok (some (.mk old.key (.av [old, L.ucl_object_fromstring_common data]) none)) ∧
      get_parent_loc
          (modify_at
            (fun d => (ucl_object_replace_key d
              (.mk none (.av [old, L.ucl_object_fromstring_common data]) none) old.key).1)
            root Lp) path = some Lp ∧
      node_at
          (modify_at
            (fun d => (ucl_object_replace_key d
              (.mk none (.av [old, L.ucl_object_fromstring_common data]) none) old.key).1)
            root Lp) Lp =
        some (.mk pk (.ov (set_nth
          (.mk old.key (.av [old, L.ucl_object_fromstring_common data]) none) members i)) pn) := by
  have hsel : select_child (.mk pk (.ov members) pn) (final_segment path) = some i := by
    simpa [select_child, ucl_object_t.value] using hki
  have hch : (children (.mk pk (.ov members) pn)).get? i = some old := by
    simpa [children, ucl_object_t.value] using hget
  obtain ⟨hobj, hloc⟩ := get_object_of_child root _ old path Lp i hpar hP hsel hch
  have hnode : node_at root (Lp ++ [i]) = some old := by
    rw [node_at_snoc, hP, Option.some_bind, hch]
  have hrep : ucl_object_replace_key (.mk pk (.ov members) pn)
      (.mk none (.av [old, L.ucl_object_fromstring_common data]) none) old.key =
      (.mk pk (.ov (set_nth
        (.mk old.key (.av [old, L.ucl_object_fromstring_common data]) none) members i)) pn,
        true) := by
    rw [hkey]
    simp [ucl_object_replace_key, hki, set_key]
  have hP' := node_at_modify
    (fun d => (ucl_object_replace_key d
      (.mk none (.av [old, L.ucl_object_fromstring_common data]) none) old.key).1) [] Lp root _ hP
  have hpar' := get_parent_loc_modify
    (fun d => (ucl_object_replace_key d
      (.mk none (.av [old, L.ucl_object_fromstring_common data]) none) old.key).1)
    (replace_key_key _ _) [] root path Lp hpar
  rw [List.append_nil] at hP' hpar'
  simp only [modify_at, hrep] at hP'
  refine ⟨?_, ?_, hpar', hP'⟩
  · unfold merge_mode
    simp only [hobj, read_set_obj, hdata, if_false, hold, ne_eq, not_false_eq_true, and_self,
      if_true, hloc, hnode, false_and, hpar, hP, hnew, hrep]
  · refine (get_object_of_child _ _ _ path Lp i hpar' hP' ?_ ?_).1
    · simp only [select_child, ucl_object_t.value]
      rw [set_nth, key_index_modify_nth _ _ _ _ (fun x hx => ?_), hki]
      rw [hget, Option.some.injEq] at hx
      subst hx
      rfl
    · simp only [children, ucl_object_t.value]
      rw [set_nth, modify_nth_get _ _ _ _ hget]

theorem merge_scalar_into_array (L : Lib) (root : ucl_object_t) (path data : String)
    (p : Proc) (Lp : List Nat) (pk : Option String) (members : List ucl_object_t)
    (pn : Option ucl_object_t) (i : Nat) (elems : List ucl_object_t)
    (an : Option ucl_object_t)
    (hpar : get_parent_loc root path = some Lp)
    (hP : node_at root Lp = some (.mk pk (.ov members) pn))
    (hki : key_index members (String.mk (final_segment path)) = some i)
    (hget : members.get? i = some (.mk (some (String.mk (final_segment path))) (.av elems) an))
    (hdata : data ≠ "-") (hnew : (parse_string L data).type ≠ .UCL_ARRAY) :
    merge_mode L (some root) path (some data) p =
        ⟨some (modify_at (fun s => (ucl_array_append s (parse_string L data)).1) root (Lp ++ [i])),
          p, true, none⟩ ∧
      get_object
          (some (modify_at (fun s => (ucl_array_append s (parse_string L data)).1) root
            (Lp ++ [i]))) path =
        .ok (some (.mk (some (String.mk (final_segment path)))
          (.av (elems ++ [parse_string L data])) an)) := by
  have hsel : select_child (.mk pk (.ov members) pn) (final_segment path) = some i := by
    simpa [select_child, ucl_object_t.value] using hki
  have hch : (children (.mk pk (.ov members) pn)).get? i =
      some (.mk (some (String.mk (final_segment path))) (.av elems) an) := by
    simpa [children, ucl_object_t.value] using hget
  obtain ⟨hobj, hloc⟩ := get_object_of_child root _ _ path Lp i hpar hP hsel hch
  have hnode : node_at root (Lp ++ [i]) =
      some (.mk (some (String.mk (final_segment path))) (.av elems) an) := by
    rw [node_at_snoc, hP, Option.some_bind, hch]
  have hP' := node_at_modify (fun s => (ucl_array_append s (parse_string L data)).1) [i] Lp root
    _ hP
  have hpar' := get_parent_loc_modify (fun s => (ucl_array_append s (parse_string L data)).1)
    (array_append_key _) [i] root path Lp hpar
  simp only [modify_at, children, ucl_object_t.value, set_children] at hP'
  constructor
  · have ht : (ucl_object_t.mk (some (String.mk (final_segment path))) (.av elems) an).type =
        .UCL_ARRAY := rfl
    have hap : (ucl_array_append
        (ucl_object_t.mk (some (String.mk (final_segment path))) (.av elems) an)
        (parse_string L data)).2 = true := rfl
    unfold merge_mode
    simp [hobj, read_set_obj, hdata, hloc, hnode, hnew, ht, hap]
  · refine (get_object_of_child _ _ _ path Lp i hpar' hP' ?_ ?_).1
    · simp only [select_child, ucl_object_t.value]
      rw [key_index_modify_nth _ _ _ _ (fun x _ => array_append_key _ x), hki]
    · simp only [children, ucl_object_t.value]
      rw [modify_nth_get _ _ _ _ hget]
      rfl

/-- C17: for every document and path whose parent is an object that holds a
scalar `old` under the final segment, `merge_mode` with an inline text that is
read as the scalar `new` reports success, does not stop the run, and leaves the
two-element array `[old, new]` under that key; a second `merge_mode` on the
result with an inline text that is read as the scalar `third` reports success
and leaves the three-element array `[old, new, third]` under the key, not a
nested array. -/
theorem merge_scalars_upgrade_then_append (L : Lib) (root P old : ucl_object_t)
    (path data third_data : String) (p : Proc)
    (hpar : get_parent (some root) path = some P) (hP : P.type = .UCL_OBJECT)
    (hobj : get_object (some root) path = .ok (some old))
    (hold : old.type ≠ .UCL_OBJECT ∧ old.type ≠ .UCL_ARRAY) (hdata : data ≠ "-")
    (hnew : (L.ucl_object_fromstring_common data).type ≠ .UCL_OBJECT ∧
      (L.ucl_object_fromstring_common data).type ≠ .UCL_ARRAY)
    (hdata3 : third_data ≠ "-")
    (hthird : (parse_string L third_data).type ≠ .UCL_OBJECT ∧
      (parse_string L third_data).type ≠ .UCL_ARRAY) :
    (merge_mode L (some root) path (some data) p).success = true ∧
      (merge_mode L (some root) path (some data) p).halt = none ∧
      get_object (merge_mode L (some root) path (some data) p).root_obj path =
        .ok (some (.mk old.key (.av [old, L.ucl_object_fromstring_common data]) none)) ∧
      (merge_mode L (merge_mode L (some root) path (some data) p).root_obj path
        (some third_data) p).success = true ∧
      (merge_mode L (merge_mode L (some root) path (some data) p).root_obj path
        (some third_data) p).halt = none ∧
      get_object
          (merge_mode L (merge_mode L (some root) path (some data) p).root_obj path
            (some third_data) p).root_obj path =
        .ok (some (.mk old.key
          (.av [old, L.ucl_object_fromstring_common data, parse_string L third_data]) none)) := by
  obtain ⟨Lp, pk, members, pn, i, hLp, hnP, rfl, hki, hget, hkey, _⟩ :=
    resolve_child root P old path hpar hobj hP hold.1
  obtain ⟨h1, h2, h3, h4⟩ :=
    merge_scalar_into_scalar L root old path data p Lp pk members pn i hLp hnP hki hget hkey
      hold hdata hnew
  have hki' : key_index (set_nth
      (.mk old.key (.av [old, L.ucl_object_fromstring_common data]) none) members i)
      (String.mk (final_segment path)) = some i := by
    rw [set_nth, key_index_modify_nth _ _ _ _ (fun x hx => ?_), hki]
    rw [hget, Option.some.injEq] at hx
    subst hx
    rfl
  have hget' : (set_nth
      (.mk old.key (.av [old, L.ucl_object_fromstring_common data]) none) members i).get? i =
      some (.mk (some (String.mk (final_segment path)))
        (.av [old, L.ucl_object_fromstring_common data]) none) := by
    rw [set_nth, modify_nth_get _ _ _ _ hget, hkey]
  obtain ⟨h5, h6⟩ :=
    merge_scalar_into_array L _ path third_data p Lp pk _ pn i _ none h3 h4 hki' hget' hdata3
      hthird.2
  rw [h1]
  simp only
  rw [h5]
  simp only
  refine ⟨trivial, trivial, h2, trivial, trivial, ?_⟩
  rw [h6, hkey]
  rfl

/-- C17 (witness): on the document `{"x": {"a": 1}}`, `merge` of `5` into `x.a`
and then of `7` into the result leaves the array `[1, 5, 7]` under `x.a`. -/
theorem merge_scalars_upgrade_then_append_witness :
    get_object
        (merge_mode sample_lib
          (merge_mode sample_lib (some doc_x) "x.a" (some "5") Proc.init).root_obj "x.a"
          (some "7") Proc.init).root_obj "x.a" =
      .ok (some (.mk (some "a") (.av [keyed "a" (int_node 1), int_node 5, int_node 7]) none)) :=
  (merge_scalars_upgrade_then_append sample_lib doc_x (obj_node (some "x") [keyed "a" (int_node 1)])
    (keyed "a" (int_node 1)) "x.a" "5" "7" Proc.init rfl rfl rfl (by decide) (by decide)
    (by decide) (by decide) (by decide)).2.2.2.2.2

/-! ## `merge` of a scalar into an object -/

/-- C18 (counterexample): on the document `{"arr": [{"a": 1}]}`, `merge` of `5`
into `arr.0` has an object as target and an array as the parent of the target:
nothing is written, no diagnostic either; the result is non-success and the
document is unchanged. -/
theorem merge_into_object_in_array_is_silent :
    (merge_mode sample_lib (some doc_arr_obj) "arr.0" (some "5") Proc.init).proc.out = "" ∧
      (merge_mode sample_lib (some doc_arr_obj) "arr.0" (some "5") Proc.init).success = false ∧
      (merge_mode sample_lib (some doc_arr_obj) "arr.0" (some "5") Proc.init).halt = none ∧
      (merge_mode sample_lib (some doc_arr_obj) "arr.0" (some "5") Proc.init).root_obj =
        some doc_arr_obj :=
  ⟨rfl, rfl, rfl, rfl⟩

theorem insert_key_merged_array (L : Lib) (D elt : ucl_object_t) (key : Option String)
    (hD : D.type = .UCL_ARRAY) : ucl_object_insert_key_merged L D elt key = (D, false) := by
  obtain ⟨k, v, n⟩ := D
  cases v with
  | av elems => cases key <;> rfl
  | _ => simp [ucl_object_t.type, ucl_object_t.value] at hD

/-- C18 (amended): for every merge whose target node is an object and whose
new value, an inline text, is not read as a container: when the parent of the
target is an object, `merge_mode` writes the diagnostic `Not implemented yet`,
returns non-success, does not stop the run and leaves the document unchanged;
when the parent is an array it writes nothing, returns non-success, does not
stop the run and leaves the document unchanged. -/
theorem merge_scalar_into_object (L : Lib) (root D S : ucl_object_t) (path data : String)
    (p : Proc) (hpar : get_parent (some root) path = some D)
    (hobj : get_object (some root) path = .ok (some S)) (hS : S.type = .UCL_OBJECT)
    (hdata : data ≠ "-")
    (hnew : (parse_string L data).type ≠ .UCL_OBJECT ∧ (parse_string L data).type ≠ .UCL_ARRAY) :
    (D.type = .UCL_OBJECT →
        merge_mode L (some root) path (some data) p =
          ⟨some root, p.printf "Not implemented yet\n", false, none⟩) ∧
      (D.type = .UCL_ARRAY →
        merge_mode L (some root) path (some data) p = ⟨some root, p, false, none⟩) := by
  have hpar' := hpar
  unfold get_parent at hpar'
  simp only at hpar'
  cases hLp : get_parent_loc root path with
  | none => rw [hLp] at hpar'; simp at hpar'
  | some Lp =>
    rw [hLp, Option.some_bind] at hpar'
    have hobj' := hobj
    unfold get_object at hobj'
    simp only [Except.ok.injEq] at hobj'
    cases hLs : get_object_loc root path with
    | none => rw [hLs] at hobj'; simp at hobj'
    | some Ls =>
      rw [hLs, Option.some_bind] at hobj'
      constructor
      · intro hD
        unfold merge_mode
        simp [hobj, read_set_obj, hdata, hS, hLs, hobj', hnew, hLp, hpar', hD]
      · intro hD
        have hid := modify_at_id
          (fun d => (ucl_object_insert_key_merged L d (parse_string L data) S.key).1) Lp root D
          hpar' (by simp only [insert_key_merged_array L D _ _ hD])
        unfold merge_mode
        simp [hobj, read_set_obj, hdata, hS, hLs, hobj', hnew, hLp, hpar', hD, hid,
          insert_key_merged_array L D _ _ hD]

/-- C18 (witness): on the document `{"x": {"a": 1}}`, `merge` of `5` into `x`,
an object whose parent is the root object, writes the diagnostic, returns
non-success and changes nothing. -/
theorem merge_scalar_into_object_witness :
    merge_mode sample_lib (some doc_x) "x" (some "5") Proc.init =
      ⟨some doc_x, ⟨"Not implemented yet\n", true⟩, false, none⟩ :=
  (merge_scalar_into_object sample_lib doc_x doc_x (obj_node (some "x") [keyed "a" (int_node 1)])
    "x" "5" Proc.init rfl rfl rfl (by decide) (by decide)).1 rfl

/-! ## Facts that support the findings -/

/-- What `replace_sep` ensures: once rewritten to a separator other than `.`,
a text holds no `.`. -/
theorem replace_sep_no_dot (s : String) (c : Char) (hc : c ≠ '.') :
    '.' ∉ (replace_sep s '.' c).data := by
  unfold replace_sep
  rw [if_neg (fun e => hc e.symm)]
  simp only [List.mem_map, not_exists, not_and]
  intro x _
  by_cases hx : x = '.'
  · simp [hx, hc]
  · simp [hx]

/-- What `get_mode` does with a leading `.`: the request `.p` has the display
path and the target of the request `p`, for every `p` that is not empty and
does not itself begin with `.`. -/
theorem leading_dot_request (root_obj : Option ucl_object_t) (p : String)
    (hne : p ≠ "") (hdot : p.data.head? ≠ some '.') :
    requested_path (String.mk ('.' :: p.data)) = requested_path p ∧
      requested_target root_obj (String.mk ('.' :: p.data)) = requested_target root_obj p := by
  have hp1 : p ≠ "." := by
    rintro rfl
    simp at hdot
  have hd : p.data ≠ [] := by
    intro e
    apply hne
    cases p
    simp_all
  have h1 : String.mk ('.' :: p.data) ≠ "" := by
    intro e
    have := congrArg String.data e
    simp at this
  have h2 : String.mk ('.' :: p.data) ≠ "." := by
    intro e
    have := congrArg String.data e
    simp at this
    exact hd this
  have hpath : requested_path (String.mk ('.' :: p.data)) = requested_path p := by
    unfold requested_path
    simp [h1, h2, hne, hp1, hdot]
  refine ⟨hpath, ?_⟩
  unfold requested_target
  simp [h1, h2, hne, hp1, hpath]

/-! ## The two readings of `ucl_lookup_path` agree -/

theorem lookup_step_loc_eq (top : ucl_object_t) (seg : String) :
    ucl_lookup_step top seg =
      (ucl_lookup_step_loc top seg).bind (fun i => (children top).get? i) := by
  obtain ⟨k, v, n⟩ := top
  cases v with
  | ov members =>
    simp only [ucl_lookup_step, ucl_lookup_step_loc, ucl_object_find_key, ucl_object_t.value,
      children]
    exact find_key_index members seg
  | av elems =>
    simp only [ucl_lookup_step, ucl_lookup_step_loc, ucl_array_find_index, ucl_object_t.value,
      children, array_index]
    by_cases h : (strtoul seg.data).2 = []
    · by_cases hlt : (strtoul seg.data).1 % 2 ^ 32 < elems.length
      · simp only [h, ne_eq, not_true_eq_false, if_false, hlt, if_true, Option.some_bind]
      · have : elems.get? ((strtoul seg.data).1 % 2 ^ 32) = none :=
          List.get?_eq_none.mpr (by omega)
        simp only [h, ne_eq, not_true_eq_false, if_false, hlt, Option.none_bind, this]
    · simp [h]
  | _ => rfl

theorem lookup_walk_loc_eq :
    ∀ (segs : List String) (o : Option ucl_object_t) (top : ucl_object_t), segs ≠ [] →
      ucl_lookup_walk o top segs = (ucl_lookup_loc top segs).bind (node_at top) := by
  intro segs
  induction segs with
  | nil => intro o top h; exact absurd rfl h
  | cons seg rest ih =>
    intro o top _
    rw [ucl_lookup_walk, ucl_lookup_loc, lookup_step_loc_eq]
    cases hs : ucl_lookup_step_loc top seg with
    | none => rfl
    | some i =>
      simp only [Option.some_bind]
      cases hc : (children top).get? i with
      | none => rfl
      | some c =>
        simp only
        cases rest with
        | nil =>
          simp only [ucl_lookup_walk, ucl_lookup_loc, Option.map_some', Option.some_bind, node_at,
            hc]
        | cons s2 r2 =>
          rw [ih (some c) c (List.cons_ne_nil _ _)]
          cases hl : ucl_lookup_loc c (s2 :: r2) with
          | none => rfl
          | some L => simp only [Option.map_some', Option.some_bind, node_at, hc]

/-- The node `ucl_lookup_path` returns is the node its pointer leads to. -/
theorem lookup_path_loc_eq (top : ucl_object_t) (path : String) :
    ucl_lookup_path (some top) path = (ucl_lookup_path_loc top path).bind (node_at top) := by
  unfold ucl_lookup_path ucl_lookup_path_loc
  cases hp : path_segments path with
  | nil => rfl
  | cons seg rest => exact lookup_walk_loc_eq (seg :: rest) none top (List.cons_ne_nil _ _)

/-! ## Labels of the records -/

/-- C22: with show-keys, the record `length` writes for a present node is the
display path with the count right after it, without the `=` sign: on
`{"a": {"b": [1,2,3]}}` the request `a.b|length` writes `a.b3`, where the
specification asks for `a.b=3`.  `type` writes `a.b=array`, the bare path
`a.b=[array]`, and `length` on an absent node `(null)=0`.  Whatever the other
flags, the node, the display path and the state are, the record of `length` on
a present node is the display path followed by the count. -/
theorem length_record_lacks_equals_sign :
    (get_mode keys_flags (some doc_ab) "a.b|length" Proc.init).1.out = "a.b3\n" ∧
      (get_mode keys_flags (some doc_ab) "a.b|type" Proc.init).1.out = "a.b=array\n" ∧
      (get_mode keys_flags (some doc_ab) "a.b" Proc.init).1.out = "a.b=[array]\n" ∧
      (get_mode keys_flags (some doc_ab) "zz|length" Proc.init).1.out = "(null)=0\n" ∧
      ∀ (show_raw nonewline : Bool) (output_type : Nat) (sepchar : Char)
        (emit : ucl_object_t → Nat → String) (debug : Int) (o : ucl_object_t) (nodepath : String)
        (rem : List String) (recurse : Int) (p : Proc),
        (process_get_command ⟨true, show_raw, nonewline, output_type, sepchar, emit, debug⟩
          (some o) nodepath "length" rem recurse p).proc =
          (p.sep.printf (nodepath ++ toString o.len)).endrec
            ⟨true, show_raw, nonewline, output_type, sepchar, emit, debug⟩ := by
  refine ⟨by decide, by decide, by decide, by decide, ?_⟩
  intro show_raw nonewline output_type sepchar emit debug o nodepath rem recurse p
  unfold process_get_command
  simp [Proc.printf_printf]

/-! ## Exit status -/

/-- C23: in remove mode the exit status is the result of
`ucl_object_delete_key`: on `{"a": 1, "b": 2}` the run `--remove a` deletes the
key, writes the document and ends with status 1, and `--remove zz`, which
deletes nothing, ends with status 0.  In set mode the status is 0 for a set
that succeeded and 1 for one that failed (an index outside the array), a get
ends with status 0, and an invalid command token ends it with status 1. -/
theorem remove_status_is_inverted :
    (main (sample_env doc_a_b) sample_lib no_emit [.long "remove" none] ["a"]).status = some 1 ∧
      (main (sample_env doc_a_b) sample_lib no_emit [.long "remove" none] ["a"]).root_obj =
        some (obj_node none [keyed "b" (int_node 2)]) ∧
      (main (sample_env doc_a_b) sample_lib no_emit [.long "remove" none] ["a"]).proc.out =
        "\x7bobject\x7d\n" ∧
      (main (sample_env doc_a_b) sample_lib no_emit [.long "remove" none] ["zz"]).status = some 0 ∧
      (main (sample_env doc_a_b) sample_lib no_emit [.long "remove" none] ["zz"]).root_obj =
        some doc_a_b ∧
      (main (sample_env doc_x) sample_lib no_emit [.long "set" none] ["x.a", "5"]).status = some 0 ∧
      (main (sample_env doc_arr) sample_lib no_emit [.long "set" none] ["arr.7", "5"]).status =
        some 1 ∧
      (main (sample_env doc_a_b) sample_lib no_emit [] ["a"]).status = some 0 ∧
      (main (sample_env doc_a_b) sample_lib no_emit [] ["a|bogus"]).status = some 1 :=
  ⟨by decide, rfl, by decide, by decide, rfl, by decide, by decide, by decide, by decide⟩

/-! ## Short and long options -/

/-- C24: the option `-r` does not select the mode `--remove` selects: it leaves
`mode = 3`, the mode of `--mix`, where `--remove` leaves `mode = 4`; the `switch`
of `main` has no branch for 3, so on `{"a": 1, "b": 2}` the run `-r a` reads
nothing, writes nothing and ends with status 0 while `--remove a` deletes the
key and writes the document.  For each of the twelve other pairs of the usage
text the short form leaves the globals as the long form does, whatever they
were. -/
theorem short_r_selects_mix_not_remove :
    (∀ (E : Env) (g : Globals),
        option_loop E [.short 'r' none] g = .ok (flag_target.mode.assign 3 g) ∧
        option_loop E [.long "remove" none] g = .ok (flag_target.mode.assign 4 g) ∧
        option_loop E [.short 'r' none] g = option_loop E [.long "mix" none] g) ∧
      (main (sample_env doc_a_b) sample_lib no_emit [.short 'r' none] ["a"]).proc.out = "" ∧
      (main (sample_env doc_a_b) sample_lib no_emit [.short 'r' none] ["a"]).root_obj = none ∧
      (main (sample_env doc_a_b) sample_lib no_emit [.short 'r' none] ["a"]).status = some 0 ∧
      (main (sample_env doc_a_b) sample_lib no_emit [.long "remove" none] ["a"]).proc.out =
        "\x7bobject\x7d\n" ∧
      (main (sample_env doc_a_b) sample_lib no_emit [.long "remove" none] ["a"]).root_obj =
        some (obj_node none [keyed "b" (int_node 2)]) ∧
      (∀ (E : Env) (g : Globals),
        option_loop E [.short 'c' none] g = option_loop E [.long "cjson" none] g ∧
        option_loop E [.short 'i' none] g = option_loop E [.long "mix" none] g ∧
        option_loop E [.short 'j' none] g = option_loop E [.long "json" none] g ∧
        option_loop E [.short 'k' none] g = option_loop E [.long "keys" none] g ∧
        option_loop E [.short 'm' none] g = option_loop E [.long "merge" none] g ∧
        option_loop E [.short 'n' none] g = option_loop E [.long "nonewline" none] g ∧
        option_loop E [.short 'q' none] g = option_loop E [.long "noquote" none] g ∧
        option_loop E [.short 'g' none] g = option_loop E [.long "get" none] g ∧
        option_loop E [.short 's' none] g = option_loop E [.long "set" none] g ∧
        option_loop E [.short 'u' none] g = option_loop E [.long "ucl" none] g ∧
        option_loop E [.short 'v' none] g = option_loop E [.long "shellvars" none] g ∧
        option_loop E [.short 'y' none] g = option_loop E [.long "yaml" none] g) :=
  ⟨fun _ _ => ⟨rfl, rfl, rfl⟩, by decide, rfl, by decide, by decide, rfl,
    fun _ _ => ⟨rfl, rfl, rfl, rfl, rfl, rfl, rfl, rfl, rfl, rfl, rfl, rfl⟩⟩

/-! ## The level returned by a command that recurses -/

/-- C25: the level `process_get_command` returns for a command that recurses
is the level of the call on the last child, not the greatest: on `[[1], []]`
the call for the first element returns 3, the call for the second, an empty
array, returns 2, and `each` with `each|type` after it returns 2.  `get_mode`
then skips two tokens only and applies `type` once more, to the parent: the
request `k|each|each|type` on `{"k": [[1], []]}` writes `int` and `array`.  With
the elements in the other order the last child is the deepest and the same
request writes `int` only. -/
theorem recurse_level_is_of_last_child :
    (process_get_command (default_flags no_emit) (some (arr_node none [int_node 1])) "k.0" "each"
        ["type"] 2 Proc.init).recurse_level = 3 ∧
      (process_get_command (default_flags no_emit) (some (arr_node none [])) "k.1" "each"
        ["type"] 2 Proc.init).recurse_level = 2 ∧
      (process_get_command (default_flags no_emit)
        (some (arr_node (some "k") [arr_node none [int_node 1], arr_node none []])) "k" "each"
        ["each", "type"] 1 Proc.init).recurse_level = 2 ∧
      (get_mode (default_flags no_emit) (some doc_nested) "k|each|each|type" Proc.init).1.out =
        "int\narray\n" ∧
      (get_mode (default_flags no_emit)
        (some (obj_node none [arr_node (some "k") [arr_node none [], arr_node none [int_node 1]]]))
        "k|each|each|type" Proc.init).1.out = "int\n" := by
  decide

/-! ## Bounds of the level returned -/

theorem level_ok_return (recurse : Int) (n : Nat) : level_ok recurse n recurse none :=
  ⟨by simp, fun _ => by omega⟩

theorem level_ok_step {recurse level : Int} {n : Nat} {halt : Option Halt}
    (h : level_ok (recurse + 1) n level halt) : level_ok recurse (n + 1) level halt :=
  ⟨h.1, fun hh => by have := h.2 hh; push_cast; omega⟩

theorem process_get_command_level_ok :
    ∀ (rem : List String) (F : Flags) (obj : Option ucl_object_t) (nodepath t : String)
      (recurse : Int) (p : Proc),
      level_ok recurse rem.length (process_get_command F obj nodepath t rem recurse p).recurse_level
        (process_get_command F obj nodepath t rem recurse p).halt := by
  intro rem
  induction rem with
  | nil =>
    intro F obj nodepath t recurse p
    by_cases hcmd : is_command t
    · rcases hcmd with h | h | h | h | h | h | h
      · obtain ⟨hh, hl⟩ := terminal_ret F t (Or.inl h) obj nodepath [] recurse p
        rw [hh, hl]; exact level_ok_return _ _
      · obtain ⟨hh, hl⟩ := terminal_ret F t (Or.inr (Or.inl h)) obj nodepath [] recurse p
        rw [hh, hl]; exact level_ok_return _ _
      · obtain ⟨hh, hl⟩ := terminal_ret F t (Or.inr (Or.inr (Or.inl h))) obj nodepath [] recurse p
        rw [hh, hl]; exact level_ok_return _ _
      · obtain ⟨hh, hl⟩ := terminal_ret F t (Or.inr (Or.inr (Or.inr h))) obj nodepath [] recurse p
        rw [hh, hl]; exact level_ok_return _ _
      · subst h
        rw [iterate_last_eq]
        exact level_ok_return _ _
      · subst h
        cases obj with
        | none => rw [each_absent_eq]; exact level_ok_return _ _
        | some o => rw [each_last_eq]; exact level_ok_return _ _
      · rw [subpath_last_calls_output_key F obj nodepath t recurse p h]
        exact level_ok_return _ _
    · rw [invalid_token_eq F obj nodepath t [] recurse p hcmd]
      exact ⟨by simp, fun h => absurd h (by simp)⟩
  | cons next rcmds ih =>
    intro F obj nodepath t recurse p
    by_cases hcmd : is_command t
    · rcases hcmd with h | h | h | h | h | h | h
      · obtain ⟨hh, hl⟩ := terminal_ret F t (Or.inl h) obj nodepath (next :: rcmds) recurse p
        rw [hh, hl]; exact level_ok_return _ _
      · obtain ⟨hh, hl⟩ := terminal_ret F t (Or.inr (Or.inl h)) obj nodepath (next :: rcmds) recurse p
        rw [hh, hl]; exact level_ok_return _ _
      · obtain ⟨hh, hl⟩ :=
          terminal_ret F t (Or.inr (Or.inr (Or.inl h))) obj nodepath (next :: rcmds) recurse p
        rw [hh, hl]; exact level_ok_return _ _
      · obtain ⟨hh, hl⟩ :=
          terminal_ret F t (Or.inr (Or.inr (Or.inr h))) obj nodepath (next :: rcmds) recurse p
        rw [hh, hl]; exact level_ok_return _ _
      · subst h
        rw [iterate_next_eq]
        exact recurse_loop_invariant (fun _ lvl hh => level_ok recurse (next :: rcmds).length lvl hh) _
          (fun q _ cur np _ => level_ok_step (ih F (some cur) np next (recurse + 1) q)) _
          ⟨p, nodepath, recurse, none⟩ (level_ok_return _ _)
      · subst h
        cases obj with
        | none => rw [each_absent_eq]; exact level_ok_return _ _
        | some o =>
          rw [each_next_eq]
          exact each_recurse_loop_invariant
            (fun _ lvl hh => level_ok recurse (next :: rcmds).length lvl hh) F _ o
            (fun q _ cur np _ => level_ok_step (ih F (some cur) np next (recurse + 1) q)) _
            (⟨p, nodepath, recurse, none⟩, 0) (level_ok_return _ _)
      · cases obj with
        | none =>
          rw [subpath_absent_next_eq F nodepath t next rcmds recurse p h]
          exact ⟨by simp, fun h => absurd h (by simp)⟩
        | some o =>
          rw [subpath_then_next F o nodepath t next rcmds recurse p h]
          exact level_ok_step (ih F _ _ next (recurse + 1) p)
    · rw [invalid_token_eq F obj nodepath t (next :: rcmds) recurse p hcmd]
      exact ⟨by simp, fun h => absurd h (by simp)⟩

theorem get_mode_loop_never_hangs (F : Flags) (found : Option ucl_object_t) :
    ∀ (fuel : Nat) (chain : List String) (s : LoopState),
      chain.length ≤ fuel → s.halt ≠ some .hang →
        (get_mode_loop F found fuel chain s).halt ≠ some .hang := by
  intro fuel
  induction fuel with
  | zero =>
    intro chain s hlen hs
    cases chain with
    | nil => simpa [get_mode_loop] using hs
    | cons c cs => simp at hlen
  | succ n ih =>
    intro chain s hlen hs
    cases chain with
    | nil => simpa [get_mode_loop] using hs
    | cons c cs =>
      rw [get_mode_loop]
      obtain ⟨_, _, h3⟩ := process_get_command_call_ok cs F found s.nodepath c 1 s.proc
      obtain ⟨h4, _⟩ := process_get_command_level_ok cs F found s.nodepath c 1 s.proc
      cases hh : (process_get_command F found s.nodepath c cs 1 s.proc).halt with
      | some x =>
        simp only
        rw [hh] at h4
        exact h4
      | none =>
        simp only
        apply ih
        · have hlevel := h3 hh
          have h1 : 1 ≤ (process_get_command F found s.nodepath c cs 1 s.proc).recurse_level.toNat := by
            omega
          simp only [List.length_drop, List.length_cons] at hlen ⊢
          omega
        · simp

theorem get_mode_never_hangs (F : Flags) (root_obj : Option ucl_object_t) (requested_node : String)
    (p : Proc) : (get_mode F root_obj requested_node p).2 ≠ some .hang := by
  unfold get_mode
  cases strsep_tokens requested_node with
  | nil => simp
  | cons node_name chain =>
    simp only
    rw [get_mode_chain_eq]
    have h := get_mode_loop_never_hangs F (requested_target root_obj node_name) chain.length chain
      ⟨p, requested_path node_name, 0, none⟩ (le_refl _) (by simp)
    cases hh : (get_mode_loop F (requested_target root_obj node_name) chain.length chain
        ⟨p, requested_path node_name, 0, none⟩).halt with
    | some x =>
      simp only
      rw [hh] at h
      exact h
    | none =>
      simp only
      split_ifs <;> simp

/-- C26: a call of `process_get_command` that returns gives a level `r` with
`recurse <= r <= recurse + n`, `n` being the number of tokens in
`remaining_commands`, and no call and no request is caught in a loop: the loop
of `get_mode` always comes to its end.  But a call need not return, even when
every token is a command: a sub-path token that is followed by another token
and is reached with an absent node reads `obj->type` through the `NULL`
pointer.  On `{"a": {"b": [1,2,3]}}` the chain `.zz|.b|type` stops the run in
this way; a chain of commands stops it in no other way. -/
theorem level_bounds_unless_null_dereference (F : Flags) (obj : Option ucl_object_t)
    (nodepath t : String) (rem : List String) (recurse : Int) (p : Proc) :
    ((process_get_command F obj nodepath t rem recurse p).halt = none →
        recurse ≤ (process_get_command F obj nodepath t rem recurse p).recurse_level ∧
          (process_get_command F obj nodepath t rem recurse p).recurse_level ≤
            recurse + rem.length) ∧
      (process_get_command F obj nodepath t rem recurse p).halt ≠ some .hang ∧
      ((∀ u ∈ t :: rem, is_command u) →
        (process_get_command F obj nodepath t rem recurse p).halt = none ∨
          (process_get_command F obj nodepath t rem recurse p).halt = some .segv) ∧
      (∀ (root_obj : Option ucl_object_t) (requested_node : String) (q : Proc),
        (get_mode F root_obj requested_node q).2 ≠ some .hang) ∧
      (process_get_command (default_flags no_emit) (some doc_ab) "" ".zz" [".b", "type"] 1
        Proc.init).halt = some .segv ∧
      (get_mode (default_flags no_emit) (some doc_ab) "a|.zz|.b|type" Proc.init).2 =
        some .segv := by
  obtain ⟨_, h2, h3⟩ := process_get_command_call_ok rem F obj nodepath t recurse p
  obtain ⟨h4, h5⟩ := process_get_command_level_ok rem F obj nodepath t recurse p
  refine ⟨fun hh => ⟨h3 hh, h5 hh⟩, h4, ?_, fun root_obj req q => get_mode_never_hangs F root_obj req q,
    by decide, by decide⟩
  intro hall
  cases hh : (process_get_command F obj nodepath t rem recurse p).halt with
  | none => exact Or.inl rfl
  | some x =>
    cases x with
    | exit c =>
      obtain ⟨_, u, hu, hnot⟩ := h2 c hh
      exact absurd (hall u hu) hnot
    | segv => exact Or.inr rfl
    | hang => exact absurd hh h4

/-- C26 (witness): on the array `[1, 2, 3]` the call for `each` with `type`
after it returns, and the level it returns is between 1 and 2. -/
theorem level_bounds_unless_null_dereference_witness :
    (process_get_command (default_flags no_emit)
        (some (arr_node (some "b") [int_node 1, int_node 2, int_node 3])) "a.b" "each" ["type"] 1
        Proc.init).halt = none ∧
      (1 : Int) ≤ (process_get_command (default_flags no_emit)
        (some (arr_node (some "b") [int_node 1, int_node 2, int_node 3])) "a.b" "each" ["type"] 1
        Proc.init).recurse_level ∧
      (process_get_command (default_flags no_emit)
        (some (arr_node (some "b") [int_node 1, int_node 2, int_node 3])) "a.b" "each" ["type"] 1
        Proc.init).recurse_level ≤ 2 := by
  have h := (level_bounds_unless_null_dereference (default_flags no_emit)
    (some (arr_node (some "b") [int_node 1, int_node 2, int_node 3])) "a.b" "each" ["type"] 1
    Proc.init).1 (by decide)
  exact ⟨by decide, h.1, by simpa using h.2⟩

/-! ## The flag `firstline` in the default mode -/

theorem endrec_firstline (F : Flags) (h : F.nonewline = false) (p : Proc) :
    (p.endrec F).firstline = p.firstline := by
  simp [Proc.endrec, h]

theorem record_firstline (F : Flags) (h : F.nonewline = false) (p : Proc) (s : String) :
    ((p.sep.printf s).endrec F).firstline = p.firstline := by
  rw [endrec_firstline F h]
  simp

theorem output_key_firstline (F : Flags) (h : F.nonewline = false) (obj : Option ucl_object_t)
    (nodepath inkey : String) (p : Proc) :
    (output_key F obj nodepath inkey p).1.firstline = p.firstline := by
  unfold output_key
  cases obj <;> exact record_firstline F h p _

theorem output_chunk_firstline (F : Flags) (h : F.nonewline = false) (obj : Option ucl_object_t)
    (nodepath inkey : String) (p : Proc) :
    (output_chunk F obj nodepath inkey p).1.firstline = p.firstline := by
  unfold output_chunk
  simp only
  split_ifs <;>
    first
    | exact output_key_firstline F h obj _ _ p
    | (rw [endrec_firstline F h]; rfl)
    | rfl

theorem keys_loop_firstline (F : Flags) (h : F.nonewline = false) (curs : List ucl_object_t)
    (p : Proc) : (keys_loop F curs p).firstline = p.firstline :=
  foldl_invariant (fun q : Proc => q.firstline = p.firstline) _
    (fun q _ hq => (record_firstline F h q _).trans hq) curs p rfl

theorem values_loop_firstline (F : Flags) (h : F.nonewline = false) (obj : ucl_object_t)
    (curs : List ucl_object_t) (s : Proc × String × Nat) :
    (values_loop F obj curs s).1.firstline = s.1.firstline :=
  foldl_invariant (fun q : Proc × String × Nat => q.1.firstline = s.1.firstline) _
    (fun q _ hq => (output_key_firstline F h _ _ _ q.1).trans hq) curs s rfl

theorem chunk_loop_firstline (F : Flags) (h : F.nonewline = false) (key : String)
    (curs : List ucl_object_t) (s : Proc × String) :
    (chunk_loop F key curs s).1.firstline = s.1.firstline :=
  foldl_invariant (fun q : Proc × String => q.1.firstline = s.1.firstline) _
    (fun q _ hq => (output_chunk_firstline F h _ _ _ q.1).trans hq) curs s rfl

theorem each_loop_firstline (F : Flags) (h : F.nonewline = false) (obj : ucl_object_t)
    (curs : List ucl_object_t) (s : Proc × String × Nat) :
    (each_loop F obj curs s).1.firstline = s.1.firstline := by
  refine foldl_invariant (fun q : Proc × String × Nat => q.1.firstline = s.1.firstline) _ ?_ curs s
    rfl
  intro q cur hq
  simp only
  split_ifs
  · exact (chunk_loop_firstline F h _ _ (q.1, q.2.1)).trans hq
  · exact (output_chunk_firstline F h _ _ _ _).trans hq

theorem terminal_firstline (F : Flags) (h : F.nonewline = false) (t : String) (ht : is_terminal t)
    (obj : Option ucl_object_t) (nodepath : String) (rem : List String) (recurse : Int)
    (p : Proc) :
    (process_get_command F obj nodepath t rem recurse p).proc.firstline = p.firstline := by
  unfold process_get_command
  rcases ht with e | e | e | e <;> subst e
  · rw [if_pos rfl]
    cases obj <;> simp [endrec_firstline F h]
  · rw [if_neg (by decide), if_pos rfl]
    cases obj <;> simp [endrec_firstline F h]
  · rw [if_neg (by decide), if_neg (by decide), if_pos rfl]
    exact keys_loop_firstline F h _ p
  · rw [if_neg (by decide), if_neg (by decide), if_neg (by decide), if_pos rfl]
    cases obj with
    | none => rfl
    | some o => exact values_loop_firstline F h o _ (p, nodepath, 0)

theorem process_get_command_firstline (F : Flags) (h : F.nonewline = false) :
    ∀ (rem : List String) (obj : Option ucl_object_t) (nodepath t : String)
      (recurse : Int) (p : Proc),
      (process_get_command F obj nodepath t rem recurse p).proc.firstline = p.firstline := by
  intro rem
  induction rem with
  | nil =>
    intro obj nodepath t recurse p
    by_cases hcmd : is_command t
    · rcases hcmd with e | e | e | e | e | e | e
      · exact terminal_firstline F h t (Or.inl e) obj nodepath [] recurse p
      · exact terminal_firstline F h t (Or.inr (Or.inl e)) obj nodepath [] recurse p
      · exact terminal_firstline F h t (Or.inr (Or.inr (Or.inl e))) obj nodepath [] recurse p
      · exact terminal_firstline F h t (Or.inr (Or.inr (Or.inr e))) obj nodepath [] recurse p
      · subst e
        rw [iterate_last_eq]
        exact chunk_loop_firstline F h "" _ (p, nodepath)
      · subst e
        cases obj with
        | none => rw [each_absent_eq]
        | some o =>
          rw [each_last_eq]
          exact each_loop_firstline F h o _ (p, nodepath, 0)
      · rw [subpath_last_calls_output_key F obj nodepath t recurse p e]
        exact output_key_firstline F h _ _ _ p
    · rw [invalid_token_eq F obj nodepath t [] recurse p hcmd]
  | cons next rcmds ih =>
    intro obj nodepath t recurse p
    by_cases hcmd : is_command t
    · rcases hcmd with e | e | e | e | e | e | e
      · exact terminal_firstline F h t (Or.inl e) obj nodepath _ recurse p
      · exact terminal_firstline F h t (Or.inr (Or.inl e)) obj nodepath _ recurse p
      · exact terminal_firstline F h t (Or.inr (Or.inr (Or.inl e))) obj nodepath _ recurse p
      · exact terminal_firstline F h t (Or.inr (Or.inr (Or.inr e))) obj nodepath _ recurse p
      · subst e
        rw [iterate_next_eq]
        exact recurse_loop_invariant (fun q _ _ => q.firstline = p.firstline) _
          (fun q _ cur np hq => (ih (some cur) np next (recurse + 1) q).trans hq) _
          ⟨p, nodepath, recurse, none⟩ rfl
      · subst e
        cases obj with
        | none => rw [each_absent_eq]
        | some o =>
          rw [each_next_eq]
          exact each_recurse_loop_invariant (fun q _ _ => q.firstline = p.firstline) F _ o
            (fun q _ cur np hq => (ih (some cur) np next (recurse + 1) q).trans hq) _
            (⟨p, nodepath, recurse, none⟩, 0) rfl
      · cases obj with
        | none => rw [subpath_absent_next_eq F nodepath t next rcmds recurse p e]
        | some o =>
          rw [subpath_then_next F o nodepath t next rcmds recurse p e]
          exact ih _ _ next (recurse + 1) p
    · rw [invalid_token_eq F obj nodepath t (next :: rcmds) recurse p hcmd]

theorem get_mode_loop_firstline (F : Flags) (h : F.nonewline = false)
    (found : Option ucl_object_t) :
    ∀ (fuel : Nat) (chain : List String) (s : LoopState),
      (get_mode_loop F found fuel chain s).proc.firstline = s.proc.firstline := by
  intro fuel
  induction fuel with
  | zero =>
    intro chain s
    cases chain <;> simp [get_mode_loop]
  | succ n ih =>
    intro chain s
    cases chain with
    | nil => simp [get_mode_loop]
    | cons c cs =>
      rw [get_mode_loop]
      have hp := process_get_command_firstline F h cs found s.nodepath c 1 s.proc
      cases hh : (process_get_command F found s.nodepath c cs 1 s.proc).halt with
      | some x => exact hp
      | none =>
        simp only
        rw [ih]
        exact hp

theorem get_mode_firstline (F : Flags) (h : F.nonewline = false) (root_obj : Option ucl_object_t)
    (requested_node : String) (p : Proc) :
    (get_mode F root_obj requested_node p).1.firstline = p.firstline := by
  unfold get_mode
  cases strsep_tokens requested_node with
  | nil => rfl
  | cons node_name chain =>
    simp only
    rw [get_mode_chain_eq]
    have hl := get_mode_loop_firstline F h (requested_target root_obj node_name) chain.length chain
      ⟨p, requested_path node_name, 0, none⟩
    cases hh : (get_mode_loop F (requested_target root_obj node_name) chain.length chain
        ⟨p, requested_path node_name, 0, none⟩).halt with
    | some x => exact hl
    | none =>
      simp only
      split_ifs
      · exact (output_chunk_firstline F h _ _ _ _).trans hl
      · exact hl

/-! ## Records in no-newline mode -/

theorem write_records_newline (F : Flags) (h : F.nonewline = false) :
    ∀ (rs : List String) (p : Proc), p.firstline = true →
      write_records F rs p = ⟨p.out ++ lines_of rs, true⟩ := by
  intro rs
  induction rs with
  | nil =>
    intro p hp
    cases p
    simp_all [write_records, lines_of]
  | cons r rs ih =>
    intro p hp
    have h1 : write_records F (r :: rs) p = write_records F rs ((p.sep.printf r).endrec F) := rfl
    rw [h1, ih _ ((record_firstline F h p r).trans hp)]
    simp [Proc.sep, hp, Proc.endrec, h, Proc.printf, lines_of, String.append_assoc]

theorem keys_loop_records (F : Flags) (curs : List ucl_object_t) (p : Proc) :
    keys_loop F curs p = write_records F (curs.map (fun c => printf_s c.key)) p := by
  simp [keys_loop, write_records, List.foldl_map]

theorem recurse_loop_in_turn (step : Option ucl_object_t → String → Proc → Ret) :
    ∀ (cs : List ucl_object_t) (r : Ret),
      recurse_loop step cs r = in_turn (fun c np q => step (some c) np q) cs r := by
  intro cs
  induction cs with
  | nil => intro r; rfl
  | cons c cs ih =>
    intro r
    rw [recurse_loop, in_turn]
    cases r.halt with
    | some x => rfl
    | none => exact ih _

theorem iterate_call_eq_branches (F : Flags) (o : ucl_object_t) (t : String) (rest : List String)
    (nodepath : String) (p : Proc) :
    process_get_command F (some o) nodepath "iterate" (t :: rest) 1 p =
      iterate_branches F o t rest nodepath p := by
  rw [iterate_next_eq, recurse_loop_in_turn]
  simp [iterate_branches, ucl_iterate_object]

theorem iterate_branches_level (F : Flags) (o : ucl_object_t) (t : String) (rest : List String)
    (nodepath : String) (p : Proc) (h : (iterate_branches F o t rest nodepath p).halt = none) :
    2 ≤ (iterate_branches F o t rest nodepath p).recurse_level ∧
      (iterate_branches F o t rest nodepath p).recurse_level ≤ 2 + rest.length := by
  have key : ∀ (cs : List ucl_object_t) (r : Ret),
      (r.halt = none → 2 ≤ r.recurse_level ∧ r.recurse_level ≤ 2 + rest.length) →
      ((in_turn (fun cur np q => process_get_command F (some cur) np t rest 2 q) cs r).halt = none →
        2 ≤ (in_turn (fun cur np q => process_get_command F (some cur) np t rest 2 q) cs
            r).recurse_level ∧
          (in_turn (fun cur np q => process_get_command F (some cur) np t rest 2 q) cs
            r).recurse_level ≤ 2 + rest.length) := by
    intro cs
    induction cs with
    | nil => intro r hr; simpa [in_turn] using hr
    | cons c cs ih =>
      intro r hr
      rw [in_turn]
      cases hh : r.halt with
      | some x => simpa using hr
      | none =>
        simp only
        apply ih
        intro hn
        exact ⟨(process_get_command_call_ok rest F (some c) r.nodepath t 2 r.proc).2.2 hn,
          (process_get_command_level_ok rest F (some c) r.nodepath t 2 r.proc).2 hn⟩
  have h1 : iterate_branches F o t rest nodepath p =
      in_turn (fun cur np q => process_get_command F (some cur) np t rest 2 q) o.chain
        (process_get_command F (some o) nodepath t rest 2 p) := rfl
  rw [h1] at h ⊢
  exact key o.chain _
    (fun hn => ⟨(process_get_command_call_ok rest F (some o) nodepath t 2 p).2.2 hn,
      (process_get_command_level_ok rest F (some o) nodepath t 2 p).2 hn⟩) h

theorem in_turn_terminal (F : Flags) (t : String) (ht : is_terminal t) (rest : List String) :
    ∀ (cs : List ucl_object_t) (r : Ret), r.halt = none →
      (in_turn (fun cur np q => process_get_command F (some cur) np t rest 2 q) cs r).halt = none ∧
        (cs ≠ [] →
          (in_turn (fun cur np q => process_get_command F (some cur) np t rest 2 q) cs
            r).recurse_level = 2) := by
  intro cs
  induction cs with
  | nil => intro r hr; simpa [in_turn] using hr
  | cons c cs ih =>
    intro r hr
    rw [in_turn]
    simp only [hr]
    obtain ⟨hh, hl⟩ := terminal_ret F t ht (some c) r.nodepath rest 2 r.proc
    refine ⟨(ih _ hh).1, fun _ => ?_⟩
    cases cs with
    | nil => simpa [in_turn] using hl
    | cons d ds => exact (ih _ hh).2 (by simp)

/-- C7 (amended): for every node, every token `t` and every chain `rest`, one
turn of the loop of `get_mode` on `iterate|t|rest` makes the call for `t`, with
`rest` as its remaining chain and at level 2, on the node itself and on every
value chained behind it through `next`, in turn and at the unchanged display
path (`iterate_branches`); the children of the node are not visited.  If a call
stops the run, the run is over.  Otherwise the level `k` the last call returned
is between 2 and `2 + |rest|`, `k` commands are counted, the first `k - 2`
tokens of `rest`, which the last branch handled, are skipped, and the loop goes
on with the tokens after them against the same parent node.  When `t` is one of
`length`, `type`, `keys`, `values` no call stops the run and `k = 2`: every
token of `rest` is then applied to the parent. -/
theorem iterate_then_next (F : Flags) (o : ucl_object_t) (t : String) (rest : List String)
    (fuel : Nat) (p : Proc) (nodepath : String) (command_count : Int) :
    get_mode_loop F (some o) (fuel + 1) ("iterate" :: t :: rest)
        ⟨p, nodepath, command_count, none⟩ =
      (match (iterate_branches F o t rest nodepath p).halt with
        | some h =>
          ⟨(iterate_branches F o t rest nodepath p).proc,
            (iterate_branches F o t rest nodepath p).nodepath, command_count, some h⟩
        | none =>
          get_mode_loop F (some o) fuel
            (rest.drop ((iterate_branches F o t rest nodepath p).recurse_level.toNat - 2))
            ⟨(iterate_branches F o t rest nodepath p).proc,
              (iterate_branches F o t rest nodepath p).nodepath,
              command_count + (iterate_branches F o t rest nodepath p).recurse_level, none⟩) ∧
      ((iterate_branches F o t rest nodepath p).halt = none →
        2 ≤ (iterate_branches F o t rest nodepath p).recurse_level ∧
          (iterate_branches F o t rest nodepath p).recurse_level ≤ 2 + rest.length) ∧
      (is_terminal t →
        (iterate_branches F o t rest nodepath p).halt = none ∧
          (iterate_branches F o t rest nodepath p).recurse_level = 2) := by
  refine ⟨?_, iterate_branches_level F o t rest nodepath p, fun ht => ?_⟩
  · rw [get_mode_loop]
    simp only [iterate_call_eq_branches]
    cases hh : (iterate_branches F o t rest nodepath p).halt with
    | some x => rfl
    | none =>
      simp only
      have hl := (iterate_branches_level F o t rest nodepath p hh).1
      have e : (iterate_branches F o t rest nodepath p).recurse_level.toNat =
          ((iterate_branches F o t rest nodepath p).recurse_level.toNat - 2) + 2 := by omega
      have hd : List.drop (iterate_branches F o t rest nodepath p).recurse_level.toNat
          ("iterate" :: t :: rest) =
          List.drop ((iterate_branches F o t rest nodepath p).recurse_level.toNat - 2) rest := by
        rw [e]
        simp
      rw [hd]
  · have h := in_turn_terminal F t ht rest (o :: o.chain) ⟨p, nodepath, 1, none⟩ rfl
    exact ⟨h.1, h.2 (by simp)⟩

/-- C7 (witness): on the array `[[1, 2], [3]]` at `k`, the chain
`iterate|length|type` writes the length of the array and then the type of the
same array, two commands being counted by the first turn (`length` is one of
the four commands that hand nothing on); the chain `iterate|each|type` hands
both `each` and `type` to the branch, which writes the types of the two
children, and three commands are counted. -/
theorem iterate_then_next_witness :
    is_terminal "length" ∧
      (iterate_branches (default_flags no_emit)
        (arr_node (some "k") [arr_node none [int_node 1, int_node 2], arr_node none [int_node 3]])
        "length" ["type"] "k" Proc.init).recurse_level = 2 ∧
      (get_mode_loop (default_flags no_emit)
        (some (arr_node (some "k") [arr_node none [int_node 1, int_node 2], arr_node none [int_node 3]]))
        3 ["iterate", "length", "type"] ⟨Proc.init, "k", 0, none⟩).proc.out = "2\narray\n" ∧
      (get_mode_loop (default_flags no_emit)
        (some (arr_node (some "k") [arr_node none [int_node 1, int_node 2], arr_node none [int_node 3]]))
        3 ["iterate", "each", "type"] ⟨Proc.init, "k", 0, none⟩).proc.out = "array\narray\n" ∧
      (get_mode_loop (default_flags no_emit)
        (some (arr_node (some "k") [arr_node none [int_node 1, int_node 2], arr_node none [int_node 3]]))
        3 ["iterate", "each", "type"] ⟨Proc.init, "k", 0, none⟩).command_count = 3 :=
  ⟨Or.inl rfl,
    ((iterate_then_next (default_flags no_emit)
      (arr_node (some "k") [arr_node none [int_node 1, int_node 2], arr_node none [int_node 3]])
      "length" ["type"] 2 Proc.init "k" 0).2.2 (Or.inl rfl)).2,
    (congrArg (fun s => s.proc.out)
      (iterate_then_next (default_flags no_emit)
        (arr_node (some "k") [arr_node none [int_node 1, int_node 2], arr_node none [int_node 3]])
        "length" ["type"] 2 Proc.init "k" 0).1).trans (by decide),
    (congrArg (fun s => s.proc.out)
      (iterate_then_next (default_flags no_emit)
        (arr_node (some "k") [arr_node none [int_node 1, int_node 2], arr_node none [int_node 3]])
        "each" ["type"] 2 Proc.init "k" 0).1).trans (by decide),
    (congrArg (fun s => s.command_count)
      (iterate_then_next (default_flags no_emit)
        (arr_node (some "k") [arr_node none [int_node 1, int_node 2], arr_node none [int_node 3]])
        "each" ["type"] 2 Proc.init "k" 0).1).trans (by decide)⟩

/-! ## `each` with a following command, chained values included -/

theorem each_recurse_loop_per_value (F : Flags)
    (step : Option ucl_object_t → String → Proc → Ret) (o : ucl_object_t) (nodepath : String) :
    ∀ (cs : List ucl_object_t) (n k : Nat) (r : Ret),
      (o.type = .UCL_ARRAY → k = n) → r.nodepath = nodepath →
      (each_recurse_loop F step o cs (r, k)).1 =
        each_per_value F (fun c np q => step (some c) np q) (decide (o.type = .UCL_ARRAY)) nodepath
          cs n r := by
  intro cs
  induction cs with
  | nil => intro n k r _ _; simp [each_recurse_loop, each_per_value]
  | cons e es ih =>
    intro n k r hk hr
    rw [each_recurse_loop, each_per_value]
    cases hh : r.halt with
    | some x => simp
    | none =>
      simp only
      have hpath : r.nodepath ++ child_suffix F o e k =
          nodepath ++ String.singleton F.sepchar ++
            (if decide (o.type = .UCL_ARRAY) = true then toString n else printf_s e.key) := by
        by_cases ha : o.type = .UCL_ARRAY
        · simp [child_suffix, ha, hk ha, hr, String.append_assoc]
        · simp [child_suffix, ha, hr, String.append_assoc]
      have hnext : o.type = .UCL_ARRAY → next_arrindex o k = n + 1 := by
        intro ha
        simp [next_arrindex, ha, hk ha]
      by_cases hc : e.next.isSome ∧ e.type ≠ .UCL_ARRAY
      · have hv : values_under e = e :: e.chain := by simp [values_under, hc]
        have hi : ucl_iterate_object (some e) false = e :: e.chain := by simp [ucl_iterate_object]
        simp only [if_pos hc, hv, hi, recurse_loop_in_turn, hpath]
        rw [ih (n + 1) (next_arrindex o k) _ hnext ?_]
        · rw [hr]
        · exact hr
      · have hv : values_under e = [e] := by simp [values_under, hc]
        simp only [if_neg hc, hv, hpath]
        rw [ih (n + 1) (next_arrindex o k) _ hnext ?_]
        · rw [hr]
          simp [in_turn]
        · exact hr

theorem each_per_value_type_records (F : Flags) (hk : F.show_keys = true) (nodepath : String)
    (lvl : Int) :
    ∀ (elems : List ucl_object_t) (n : Nat) (r : Ret), r.halt = none →
      (∀ e ∈ elems, e.next = none) →
      (each_per_value F (fun cur np q => process_get_command F (some cur) np "type" [] lvl q)
        true nodepath elems n r).proc =
        write_records F
          ((elems.enumFrom n).map (fun ie =>
            nodepath ++ String.singleton F.sepchar ++ toString ie.1 ++ "=" ++ type_tag ie.2.type))
          r.proc := by
  intro elems
  induction elems with
  | nil => intro n r _ _; simp [each_per_value, write_records]
  | cons e es ih =>
    intro n r hr h
    have he : e.next = none := h e (List.mem_cons_self _ _)
    have hv : values_under e = [e] := by simp [values_under, he]
    rw [each_per_value]
    simp only [hr, hv, in_turn]
    rw [ih (n + 1) _ ?_ (fun x hx => h x (List.mem_cons_of_mem _ hx))]
    · unfold process_get_command
      simp [write_records, hk, Proc.printf_printf]
    · unfold process_get_command
      simp

theorem each_call_eq_per_value (F : Flags) (o : ucl_object_t) (nodepath next_command : String)
    (rcmds : List String) (recurse : Int) (p : Proc)
    (ho : o.type = .UCL_ARRAY ∨ o.type = .UCL_OBJECT) :
    process_get_command F (some o) nodepath "each" (next_command :: rcmds) recurse p =
      each_per_value F
        (fun cur np q => process_get_command F (some cur) np next_command rcmds (recurse + 1) q)
        (decide (o.type = .UCL_ARRAY)) nodepath (children o) 0 ⟨p, nodepath, recurse, none⟩ := by
  have hit : ucl_iterate_object (some o) true = children o := by
    obtain ⟨k, v, n⟩ := o
    cases v <;> simp_all [ucl_iterate_object, children, ucl_object_t.value, ucl_object_t.type]
  rw [each_next_eq, hit]
  exact each_recurse_loop_per_value F _ o nodepath (children o) 0 0 _ (fun _ => rfl) rfl

/-- C8 (amended): for every array or object node, `each` followed by at least
one more command takes the children in order and applies the next command at
the display path `nodepath ++ sep ++ n` for the `n`-th element of an array
(`n = 0, 1, 2, ...`) and `nodepath ++ sep ++ key` for a member of an object:
once to a child that is an array or has nothing chained behind it, and, for any
other child, to the child and then to every value chained behind it through
`next`, all at the display path of that child; the run is over where a call
stops it.  So, with show-keys, `each|type` over an array of `N` elements none of
which has a value chained behind it writes exactly `N` records, the `i`-th
being `nodepath ++ sep ++ i ++ "=" ++ kind of the i-th element`, for
`i = 0 .. N-1` in storage order. -/
theorem each_then_next_per_value (F : Flags) (o : ucl_object_t) (nodepath next_command : String)
    (rcmds : List String) (recurse : Int) (p : Proc)
    (ho : o.type = .UCL_ARRAY ∨ o.type = .UCL_OBJECT) :
    process_get_command F (some o) nodepath "each" (next_command :: rcmds) recurse p =
        each_per_value F
          (fun cur np q => process_get_command F (some cur) np next_command rcmds (recurse + 1) q)
          (decide (o.type = .UCL_ARRAY)) nodepath (children o) 0 ⟨p, nodepath, recurse, none⟩ ∧
      (F.show_keys = true → o.type = .UCL_ARRAY → (∀ c ∈ children o, c.next = none) →
        (process_get_command F (some o) nodepath "each" ["type"] recurse p).proc =
          write_records F
            ((children o).enum.map (fun ic =>
              nodepath ++ String.singleton F.sepchar ++ toString ic.1 ++ "=" ++ type_tag ic.2.type))
            p) := by
  refine ⟨each_call_eq_per_value F o nodepath next_command rcmds recurse p ho,
    fun hk ha hc => ?_⟩
  rw [each_call_eq_per_value F o nodepath "type" [] recurse p ho]
  simp only [ha, decide_True]
  exact each_per_value_type_records F hk nodepath (recurse + 1) (children o) 0 _ rfl hc

/-- C8 (witness): with show-keys, `each|type` over the array `[7, "x"]` at `p`
writes the two records `p.0=int` and `p.1=string`; over the object at `p` whose
member `k` holds `1` with `2` chained behind it, it writes `p.k=int` for each of
the two values. -/
theorem each_then_next_per_value_witness :
    ((arr_node (some "p") [int_node 7, str_node "x"]).type = .UCL_ARRAY ∨
        (arr_node (some "p") [int_node 7, str_node "x"]).type = .UCL_OBJECT) ∧
      (process_get_command keys_flags (some (arr_node (some "p") [int_node 7, str_node "x"]))
        "p" "each" ["type"] 1 Proc.init).proc.out = "p.0=int\np.1=string\n" ∧
      (process_get_command keys_flags (some (arr_node (some "p") [int_node 7, str_node "x"]))
        "p" "each" ["type"] 1 Proc.init).proc =
          write_records keys_flags ["p.0=int", "p.1=string"] Proc.init ∧
      ((obj_node (some "p") [keyed "k" chained_pair]).type = .UCL_ARRAY ∨
        (obj_node (some "p") [keyed "k" chained_pair]).type = .UCL_OBJECT) ∧
      (process_get_command keys_flags (some (obj_node (some "p") [keyed "k" chained_pair]))
        "p" "each" ["type"] 1 Proc.init).proc.out = "p.k=int\np.k=int\n" :=
  ⟨Or.inl rfl,
    (congrArg (fun r => r.proc.out)
      (each_then_next_per_value keys_flags (arr_node (some "p") [int_node 7, str_node "x"])
        "p" "type" [] 1 Proc.init (Or.inl rfl)).1).trans (by decide),
    ((each_then_next_per_value keys_flags (arr_node (some "p") [int_node 7, str_node "x"])
        "p" "type" [] 1 Proc.init (Or.inl rfl)).2 rfl rfl
        (fun c hc => by
          have hc2 : c ∈ [int_node 7, str_node "x"] := hc
          simp only [List.mem_cons, List.mem_singleton, List.not_mem_nil, or_false] at hc2
          rcases hc2 with rfl | rfl <;> rfl)).trans rfl,
    Or.inr rfl,
    (congrArg (fun r => r.proc.out)
      (each_then_next_per_value keys_flags (obj_node (some "p") [keyed "k" chained_pair])
        "p" "type" [] 1 Proc.init (Or.inr rfl)).1).trans (by decide)⟩

/-! ## Records in the default mode -/

/-- C27: when no-newline mode is off and `firstline` is true, it is true again
after every call of `process_get_command`, of `output_key`, of `output_chunk`
and of `get_mode`, whatever the node, the chain and the format are and whether
or not the run is stopped.  In that state every statement that writes a record
writes it with nothing in front of it and exactly one new line after it:
`output_key` the label and the value; `output_chunk` the same in text mode and
the label and the serialized node with each of the four serializers; `length`
the count and `type` the tag, after what they print of the display path with
show-keys; `keys` one key per line. -/
theorem firstline_stays_true (F : Flags) (h : F.nonewline = false) (p : Proc)
    (hp : p.firstline = true) :
    (∀ (obj : Option ucl_object_t) (nodepath t : String) (rem : List String) (recurse : Int),
        (process_get_command F obj nodepath t rem recurse p).proc.firstline = true) ∧
      (∀ (obj : Option ucl_object_t) (nodepath inkey : String),
        (output_key F obj nodepath inkey p).1 =
          ⟨p.out ++
            (match obj with
              | none =>
                (if F.show_keys then
                  replace_sep nodepath '.' F.sepchar ++ replace_sep inkey '.' F.sepchar ++ "="
                  else "") ++ "null"
              | some o =>
                output_key_text F
                  (if F.show_keys then
                    replace_sep nodepath '.' F.sepchar ++ replace_sep inkey '.' F.sepchar ++ "="
                    else "") o) ++ "\n", true⟩) ∧
      (∀ (obj : Option ucl_object_t) (nodepath inkey : String),
        (output_chunk F obj nodepath inkey p).1.firstline = true ∧
          (F.output_type = UCL_EMIT_CONFIG ∨ F.output_type = UCL_EMIT_JSON ∨
              F.output_type = UCL_EMIT_JSON_COMPACT ∨ F.output_type = UCL_EMIT_YAML →
            (output_chunk F obj nodepath inkey p).1.out =
              p.out ++
                ((if F.show_keys then
                  replace_sep nodepath '.' F.sepchar ++ replace_sep inkey '.' F.sepchar ++ "="
                  else "") ++
                  printf_s (obj.map (fun o => F.ucl_object_emit o F.output_type))) ++ "\n") ∧
          (F.output_type = OUTPUT_TEXT →
            (output_chunk F obj nodepath inkey p).1 =
              (output_key F obj (replace_sep nodepath '.' F.sepchar)
                (replace_sep inkey '.' F.sepchar) p).1)) ∧
      (∀ (root_obj : Option ucl_object_t) (requested_node : String),
        (get_mode F root_obj requested_node p).1.firstline = true) ∧
      (∀ (obj : Option ucl_object_t) (nodepath : String) (rem : List String) (recurse : Int),
        (process_get_command F obj nodepath "length" rem recurse p).proc =
          ⟨p.out ++
            (match obj with
              | none => (if F.show_keys then "(null)=" else "") ++ "0"
              | some o => (if F.show_keys then nodepath else "") ++ toString o.len) ++ "\n",
            true⟩) ∧
      (∀ (obj : Option ucl_object_t) (nodepath : String) (rem : List String) (recurse : Int),
        (process_get_command F obj nodepath "type" rem recurse p).proc =
          ⟨p.out ++
            (match obj with
              | none => (if F.show_keys then "(null)=" else "") ++ "null"
              | some o => (if F.show_keys then nodepath ++ "=" else "") ++ type_tag o.type) ++
              "\n",
            true⟩) ∧
      (∀ (obj : Option ucl_object_t) (nodepath : String) (rem : List String) (recurse : Int),
        (process_get_command F obj nodepath "keys" rem recurse p).proc =
          ⟨p.out ++ lines_of ((ucl_iterate_object obj true).map (fun c => printf_s c.key)),
            true⟩) := by
  refine ⟨fun obj nodepath t rem recurse =>
      (process_get_command_firstline F h rem obj nodepath t recurse p).trans hp, ?_, ?_,
    fun root_obj req => (get_mode_firstline F h root_obj req p).trans hp, ?_, ?_, ?_⟩
  · intro obj nodepath inkey
    unfold output_key
    cases obj <;> simp [Proc.sep, hp, Proc.endrec, h, Proc.printf]
  · intro obj nodepath inkey
    refine ⟨(output_chunk_firstline F h obj nodepath inkey p).trans hp, ?_, ?_⟩
    · intro hty
      have htext : F.output_type ≠ OUTPUT_TEXT := by
        rcases hty with e | e | e | e <;> rw [e] <;> decide
      unfold output_chunk
      simp only [if_neg htext]
      rcases hty with e | e | e | e <;> simp [e, Proc.endrec, h, Proc.printf, UCL_EMIT_CONFIG,
        UCL_EMIT_JSON, UCL_EMIT_JSON_COMPACT, UCL_EMIT_YAML]
    · intro hty
      unfold output_chunk
      simp only [hty, if_true]
  · intro obj nodepath rem recurse
    unfold process_get_command
    cases obj <;> simp [Proc.sep, hp, Proc.endrec, h, Proc.printf, String.append_assoc]
  · intro obj nodepath rem recurse
    unfold process_get_command
    cases obj <;> simp [Proc.sep, hp, Proc.endrec, h, Proc.printf, String.append_assoc]
  · intro obj nodepath rem recurse
    have e : process_get_command F obj nodepath "keys" rem recurse p =
        ⟨keys_loop F (ucl_iterate_object obj true) p, nodepath, recurse, none⟩ := by
      unfold process_get_command
      simp
    rw [e, keys_loop_records, write_records_newline F h _ p hp]

/-- C27 (witness): in the default mode, from the state at program start, the
request `a.b|each|type` on `{"a": {"b": [1,2,3]}}` leaves `firstline` true;
`output_key` writes the record `"x"` followed by one new line; and `length` on
the array `[1, 2, 3]` writes `3` followed by one new line. -/
theorem firstline_stays_true_witness :
    (default_flags no_emit).nonewline = false ∧ Proc.init.firstline = true ∧
      (get_mode (default_flags no_emit) (some doc_ab) "a.b|each|type" Proc.init).1.firstline =
        true ∧
      (output_key (default_flags no_emit) (some (str_node "x")) "p" ".k" Proc.init).1 =
        ⟨"\"x\"\n", true⟩ ∧
      (process_get_command (default_flags no_emit)
        (some (arr_node (some "b") [int_node 1, int_node 2, int_node 3])) "a.b" "length" [] 1
        Proc.init).proc = ⟨"3\n", true⟩ :=
  ⟨rfl, rfl,
    (firstline_stays_true (default_flags no_emit) rfl Proc.init rfl).2.2.2.1 (some doc_ab)
      "a.b|each|type",
    ((firstline_stays_true (default_flags no_emit) rfl Proc.init rfl).2.1 (some (str_node "x"))
      "p" ".k").trans rfl,
    ((firstline_stays_true (default_flags no_emit) rfl Proc.init rfl).2.2.2.2.1
      (some (arr_node (some "b") [int_node 1, int_node 2, int_node 3])) "a.b" [] 1).trans rfl⟩

/-! ## Invalid tokens: where an `exit` comes from -/

/-- C11: a call of `process_get_command` whose current token is none of
`length`, `type`, `keys`, `values`, `iterate`, `each` and does not begin with `.`
ends the run with `exit(1)`, writing nothing and leaving what was written as it
was.  A call whose current token is one of these never ends the run with `exit`
itself: `length`, `type`, `keys` and `values` always return, at the level
given; so does every command that is the last token of the chain; and when
`iterate`, `each` or a sub-path ends with `exit`, the status is 1 and it is a
nested call, made on the next token after the output the call found, that ended
so, the remaining chain holding a token that is no command.  The way such a
call ends is exactly the way its nested calls end: for `iterate` the calls on
the node and the values chained behind it, in turn; for `each` the calls on the
values under each child, in turn (none for an absent node); for a sub-path the
one call on the node found (an absent node with a following token is read
through the `NULL` pointer and never ends with `exit`).  Whatever the call
does, its output is the output it found with text written after it. -/
theorem abort_iff_invalid_token (F : Flags) (obj : Option ucl_object_t) (nodepath t : String)
    (rem : List String) (recurse : Int) (p : Proc) :
    (¬ is_command t →
        process_get_command F obj nodepath t rem recurse p =
          ⟨p, nodepath, recurse, some (.exit 1)⟩) ∧
      (is_terminal t →
        (process_get_command F obj nodepath t rem recurse p).halt = none ∧
          (process_get_command F obj nodepath t rem recurse p).recurse_level = recurse) ∧
      (is_command t → rem = [] →
        (process_get_command F obj nodepath t rem recurse p).halt = none ∧
          (process_get_command F obj nodepath t rem recurse p).recurse_level = recurse) ∧
      (is_command t → ∀ c,
        (process_get_command F obj nodepath t rem recurse p).halt = some (.exit c) →
          c = 1 ∧ (∃ u ∈ rem, ¬ is_command u) ∧
            ∃ next rcmds, rem = next :: rcmds ∧
              ∃ cur np q, p.extends q ∧
                (process_get_command F cur np next rcmds (recurse + 1) q).halt =
                  some (.exit c)) ∧
      (t = "iterate" → ∀ next rcmds, rem = next :: rcmds →
        (process_get_command F obj nodepath t rem recurse p).halt =
          (in_turn (fun cur np q => process_get_command F (some cur) np next rcmds (recurse + 1) q)
            (ucl_iterate_object obj false) ⟨p, nodepath, recurse, none⟩).halt) ∧
      (t = "each" → ∀ next rcmds, rem = next :: rcmds →
        (process_get_command F obj nodepath t rem recurse p).halt =
          (match obj with
            | none => none
            | some o =>
              (each_per_value F
                (fun cur np q => process_get_command F (some cur) np next rcmds (recurse + 1) q)
                (decide (o.type = .UCL_ARRAY)) nodepath (ucl_iterate_object (some o) true) 0
                ⟨p, nodepath, recurse, none⟩).halt)) ∧
      (t.data.head? = some '.' → ∀ next rcmds, rem = next :: rcmds →
        (process_get_command F obj nodepath t rem recurse p).halt =
          (match obj with
            | none => some .segv
            | some o =>
              (process_get_command F (ucl_lookup_path (some o) t)
                (nodepath ++ String.singleton F.sepchar ++
                  (if o.type = .UCL_ARRAY then "0"
                    else printf_s ((ucl_lookup_path (some o) t).bind (fun c => c.key))))
                next rcmds (recurse + 1) p).halt)) ∧
      ∃ s, (process_get_command F obj nodepath t rem recurse p).proc.out = p.out ++ s := by
  obtain ⟨h1, h2, _⟩ := process_get_command_call_ok rem F obj nodepath t recurse p
  refine ⟨invalid_token_eq F obj nodepath t rem recurse p,
    fun ht => terminal_ret F t ht obj nodepath rem recurse p, ?_, ?_, ?_, ?_, ?_, h1⟩
  · intro ht hrem
    subst hrem
    exact valid_last_token_returns F obj nodepath t recurse p ht
  · intro ht c hc
    obtain ⟨hc1, u, hu, hnu⟩ := h2 c hc
    refine ⟨hc1, ⟨u, ?_, hnu⟩, ?_⟩
    · rcases List.mem_cons.mp hu with rfl | hu
      · exact absurd ht hnu
      · exact hu
    · cases rem with
      | nil =>
        rw [(valid_last_token_returns F obj nodepath t recurse p ht).1] at hc
        simp at hc
      | cons next rcmds =>
        exact ⟨next, rcmds, rfl,
          exit_comes_from_nested_call F obj nodepath t next rcmds recurse p ht c hc⟩
  · intro ht next rcmds hrem
    subst ht hrem
    rw [iterate_next_eq, recurse_loop_in_turn]
  · intro ht next rcmds hrem
    subst ht hrem
    cases obj with
    | none => rw [each_absent_eq]
    | some o =>
      rw [each_next_eq]
      exact congrArg Ret.halt
        (each_recurse_loop_per_value F _ o nodepath (ucl_iterate_object (some o) true) 0 0 _
          (fun _ => rfl) rfl)
  · intro ht next rcmds hrem
    subst hrem
    cases obj with
    | none => rw [subpath_absent_next_eq F nodepath t next rcmds recurse p ht]
    | some o => rw [subpath_then_next F o nodepath t next rcmds recurse p ht]

/-- C11 (witness): `bogus` is no command and `length` is one; on the document
`{"a": {"b": [1, 2, 3]}}` the request `a.b|length|bogus` writes `3`, then ends
with `exit(1)`, the `3` still written; `a.b|each|bogus` ends with `exit(1)` in
the first branch; and `length` returns at the level given although `bogus`
follows it. -/
theorem abort_iff_invalid_token_witness :
    ¬ is_command "bogus" ∧ is_command "length" ∧ is_terminal "length" ∧
      process_get_command (default_flags no_emit) none "a.b" "bogus" [] 1 ⟨"3\n", true⟩ =
        ⟨⟨"3\n", true⟩, "a.b", 1, some (.exit 1)⟩ ∧
      ((process_get_command (default_flags no_emit)
          (some (arr_node (some "b") [int_node 1, int_node 2, int_node 3])) "a.b" "length"
          ["bogus"] 1 Proc.init).halt = none ∧
        (process_get_command (default_flags no_emit)
          (some (arr_node (some "b") [int_node 1, int_node 2, int_node 3])) "a.b" "length"
          ["bogus"] 1 Proc.init).recurse_level = 1) ∧
      get_mode (default_flags no_emit) (some doc_ab) "a.b|length|bogus" Proc.init =
        (⟨"3\n", true⟩, some (.exit 1)) ∧
      get_mode (default_flags no_emit) (some doc_ab) "a.b|each|bogus" Proc.init =
        (⟨"", true⟩, some (.exit 1)) :=
  ⟨by unfold is_command; decide, Or.inl rfl, Or.inl rfl,
    (abort_iff_invalid_token (default_flags no_emit) none "a.b" "bogus" [] 1 ⟨"3\n", true⟩).1
      (by unfold is_command; decide),
    (abort_iff_invalid_token (default_flags no_emit)
      (some (arr_node (some "b") [int_node 1, int_node 2, int_node 3])) "a.b" "length"
      ["bogus"] 1 Proc.init).2.1 (Or.inl rfl),
    rfl, rfl⟩

end Uclcmd
